import Mathlib

/-!
Verification development for the `torfs` Tor-client simulator.

The Rust sources are shallowly embedded in Lean:

* time (`chrono::DateTime<Utc>` / `chrono::Duration`) is modelled as an
  integer number of microseconds on a global timeline (`Int`); chrono
  durations compare and add exactly like these integers do;
* `u16` ports are `Nat` values, bandwidth weights (`u64`) are `Nat`,
  `i64` arithmetic in the bandwidth-weight computation is `Int`
  arithmetic with Rust `/` on `i64` translated to truncated division
  (`Int.tdiv`);
* fallible / panicking code paths are translated to `Option`, with
  `none` standing for a Rust panic;
* `Arc<Need>` pointer identity is modelled by tagging every allocated
  `Need` with a fresh numeric id (`nid`); a live `NeedHandle` is the id
  of the need it points to (a `Weak` reference upgrade succeeds exactly
  when a need with that id is still in the container).
-/

namespace Torfs

/-- Convert minutes to the integer microsecond timeline
(`chrono::Duration::minutes`). -/
def minutes (m : Int) : Int := m * 60 * 1000000

/-! ## needs.rs -/

/-- `PORT_NEED_COVER_NUM` from needs.rs (min circuits covering a need). -/
def PORT_NEED_COVER_NUM : Nat := 2

/-- `PORT_NEED_LIFETIME` from needs.rs: a need expires after 60 minutes. -/
def PORT_NEED_LIFETIME : Int := minutes 60

/-- The `Need` struct from needs.rs.  The `covered` counter is the
`RwLock<usize>` field; `nid` models the `Arc` allocation identity used
by `Weak` handles (not a field of the Rust struct). -/
structure Need where
  nid : Nat
  port : Nat
  expires : Int
  fast : Bool
  stable : Bool
  covered : Nat
deriving Repr, DecidableEq

/-- `Need::new` from needs.rs. -/
def Need.mk_new (nid : Nat) (port : Nat) (now : Int) (fast stable : Bool) : Need :=
  { nid := nid, port := port, expires := now + PORT_NEED_LIFETIME,
    fast := fast, stable := stable, covered := 0 }

/-- `Need::has_expired` from needs.rs (`*expires <= *now`). -/
def Need.has_expired (n : Need) (now : Int) : Bool := n.expires ≤ now

/-- `Need::reset_expiration` from needs.rs. -/
def Need.reset_expiration (n : Need) (now : Int) : Need :=
  { n with expires := now + PORT_NEED_LIFETIME }

/-- `Need::needs_cover` from needs.rs (`covered < PORT_NEED_COVER_NUM`). -/
def Need.needs_cover (n : Need) : Bool := n.covered < PORT_NEED_COVER_NUM

/-- `Need::increment_cover_count` from needs.rs. -/
def Need.increment_cover_count (n : Need) : Need := { n with covered := n.covered + 1 }

/-- `Need::decrement_cover_count` from needs.rs.  The Rust code asserts
`old_count > 0` before decrementing; under the cover-accounting
invariant the counter is positive whenever a live handle is dropped, so
the saturating `Nat` subtraction agrees with the source. -/
def Need.decrement_cover_count (n : Need) : Need := { n with covered := n.covered - 1 }

/-- The `NeedsContainer` struct from needs.rs.  The reproducible hash
map `RHashMap<u16, Arc<Need>>` is modelled as a list of needs with
(invariantly) unique ports, in its deterministic iteration order;
`fresh` is the next unused allocation id for `Arc::new`. -/
structure NeedsContainer where
  needs : List Need
  fresh : Nat
deriving Repr, DecidableEq

/-- `NeedsContainer::new` from needs.rs. -/
def NeedsContainer.mk_new : NeedsContainer := { needs := [], fresh := 0 }

/-- Map lookup `self.needs.get(&port)`, i.e. the need stored under a port. -/
def NeedsContainer.find (c : NeedsContainer) (port : Nat) : Option Need :=
  c.needs.find? (fun n => n.port = port)

/-- `NeedsContainer::add_need` from needs.rs: on an occupied entry only
refresh the expiration (when expired); on a vacant entry insert a fresh
need. -/
def NeedsContainer.add_need (c : NeedsContainer) (port : Nat) (now : Int)
    (fast stable : Bool) : NeedsContainer :=
  if c.needs.any (fun n => n.port = port) then
    { c with needs := c.needs.map (fun n =>
        if n.port = port then
          (if n.has_expired now then n.reset_expiration now else n)
        else n) }
  else
    { needs := c.needs ++ [Need.mk_new c.fresh port now fast stable],
      fresh := c.fresh + 1 }

/-- `NeedsContainer::remove_expired` from needs.rs. -/
def NeedsContainer.remove_expired (c : NeedsContainer) (now : Int) : NeedsContainer :=
  { c with needs := c.needs.filter (fun n => !(n.has_expired now)) }

/-- `NeedsContainer::get_uncovered_need` from needs.rs: scan the
container in iteration order for a need with `needs_cover`; creating the
returned `NeedHandle` (`NeedHandle::from_need`) increments that need's
cover counter.  Returns the found need (its `nid` is the handle) and
the updated container. -/
def NeedsContainer.get_uncovered_need (c : NeedsContainer) :
    Option (Need × NeedsContainer) :=
  match c.needs.find? (fun n => n.needs_cover) with
  | none => none
  | some n =>
      some (n,
        { c with needs := c.needs.map (fun m =>
            if m.nid = n.nid then m.increment_cover_count else m) })

/-- `NeedsContainer::cover_need_if_necessary` from needs.rs: if a need
for `port` exists and needs cover, hand out a handle (incrementing the
counter).  Returns the found need (its `nid` is the handle) and the
updated container. -/
def NeedsContainer.cover_need_if_necessary (c : NeedsContainer) (port : Nat) :
    Option (Need × NeedsContainer) :=
  match c.needs.find? (fun n => n.port = port) with
  | none => none
  | some n =>
      if n.needs_cover then
        some (n,
          { c with needs := c.needs.map (fun m =>
              if m.nid = n.nid then m.increment_cover_count else m) })
      else none

/-- Dropping a `NeedHandle` (`impl Drop for NeedHandle`): if the need
the handle points to still exists, decrement its cover counter. -/
def NeedsContainer.drop_handle (c : NeedsContainer) (hid : Nat) : NeedsContainer :=
  { c with needs := c.needs.map (fun m =>
      if m.nid = hid then m.decrement_cover_count else m) }

/-- `NeedHandle::get_port`: upgrade the weak reference and read the
port; `none` when the need is gone. -/
def NeedsContainer.handle_port (c : NeedsContainer) (hid : Nat) : Option Nat :=
  (c.needs.find? (fun n => n.nid = hid)).map (fun n => n.port)

/-- Apply a sequence of `add_need` calls (port, now, fast, stable). -/
def NeedsContainer.apply_add_needs (c : NeedsContainer)
    (calls : List (Nat × Int × Bool × Bool)) : NeedsContainer :=
  calls.foldl (fun c q => c.add_need q.1 q.2.1 q.2.2.1 q.2.2.2) c

/-! ## packet_model/markov.rs -/

/-- The `Emission` enum from packet_model/markov.rs. -/
inductive Emission where
  | GeneratePacketFromClientToServer
  | GeneratePacketFromServerToClient
  | NewStream
  | StopGenerating
deriving DecidableEq, Repr

/-- The mutable part of the `MarkovChain` struct from
packet_model/markov.rs (`start` and the state table are immutable after
construction and do not appear in the step claims). -/
structure MarkovChainState where
  current_state : String
  current_time : Int
  stopped : Bool
deriving DecidableEq, Repr

/-- `MarkovChain::get_next` from packet_model/markov.rs.  The two
weighted random draws (`state.transition()` and
`next_state.emission()`) are passed in as oracle inputs `next_state`
and `(emission, delay)`; everything after the draws is translated
verbatim.  Returns the new chain state and the emitted
`(time, emission)` pair. -/
def markov_get_next (s : MarkovChainState) (not_after : Int)
    (next_state : String) (emission : Emission) (delay : Int) :
    MarkovChainState × Int × Emission :=
  if s.stopped then (s, s.current_time, Emission.StopGenerating)
  else
    let time := s.current_time
    let s1 := if emission = Emission.StopGenerating then { s with stopped := true } else s
    let s2 := if delay ≥ not_after - s1.current_time then
        { s1 with current_time := not_after, stopped := true }
      else s1
    ({ s2 with current_state := next_state }, time, emission)

/-! ## tordoc data model (consensus documents, relays)

The `tordoc` crate is an external collaborator (spec §1); only the
fields and operations the claims touch are modelled, following the
spec's data model (§3) and the way adversaries.rs constructs values of
these types. -/

/-- Relay flags (`tordoc::consensus::Flag`). -/
inductive Flag where
  | Authority | BadExit | Exit | Fast | Guard | HSDir
  | NoEdConsensus | Running | Stable | StaleDesc | V2Dir | Valid
deriving DecidableEq, Repr

/-- Modelled from the spec: relay fingerprints are 20-byte identifiers.
The fabricated adversarial fingerprints
(`Fingerprint::from_str_hex("{:0>40}", index)` for guards,
`"{:F>40}"` for exits) are kept as injective constructor families; the
hex rendering itself is abstracted away (it is injective in `index` and
the two families are disjoint from each other and from real
fingerprints). -/
inductive Fingerprint where
  | advGuardFp (index : Nat)
  | advExitFp (index : Nat)
  | real (bytes : List Nat)
deriving DecidableEq, Repr

/-- Modelled from the spec: a condensed exit policy "decides
`allows_port(u16)`" (§3).  `reject_all` and `accept_all` are the two
constant policies adversaries.rs uses; any other policy is abstracted
by its set of allowed ports. -/
inductive CondensedExitPolicy where
  | reject_all
  | accept_all
  | table (allowed : List Nat)
deriving DecidableEq, Repr

/-- `CondensedExitPolicy::allows_port`. -/
def CondensedExitPolicy.allows_port : CondensedExitPolicy → Nat → Bool
  | .reject_all, _ => false
  | .accept_all, _ => true
  | .table allowed, p => allowed.contains p

/-- The `tordoc::consensus::Relay` fields used by this repository
(directory entry of one relay). -/
structure Relay where
  nickname : Option String
  fingerprint : Option Fingerprint
  digest : Option Fingerprint
  flags : Option (List Flag)
  exit_policy : Option CondensedExitPolicy
  bandwidth_weight : Option Nat
deriving DecidableEq, Repr

/-- The `tordoc::Descriptor` fields used by this repository.  The
or-address `10.{i}.0.1:9001` is kept as the pair `(i, 9001)` (the IP
rendering is abstracted, injectively in `i`). -/
structure Descriptor where
  nickname : Option String
  fingerprint : Option Fingerprint
  digest : Option Fingerprint
  or_addresses : Option (List (Nat × Nat))
deriving DecidableEq, Repr

/-- The `tordoc::Consensus` fields used by this repository.  `weights`
is the `BTreeMap<String, u64>` of §4.5 kept in its sorted key order. -/
structure Consensus where
  valid_after : Option Int
  relays : List Relay
  weights : Option (List (String × Nat))
deriving DecidableEq, Repr

/-! ## adversaries.rs, mod bwweights -/

/-- The `weightscale` constant from `recompute_bw_weights`. -/
def weightscale : Int := 10000

/-- Rust release-mode `i64` arithmetic: every addition, subtraction and
multiplication wraps two's-complement into `[-2^63, 2^63)`.  All `+`,
`-`, `*` below go through this function.  Division stays `Int.tdiv`
(truncating): Rust `/` never wraps (it panics on a zero divisor or
`i64::MIN / -1`, situations the bound hypotheses of the theorems below
exclude). -/
def wrap64 (v : Int) : Int := (v + 2 ^ 63) % 2 ^ 64 - 2 ^ 63

/-- Sum of the relays' bandwidth weights (`u64` values; a missing one
panics elsewhere and counts as 0 here).  The weight-law theorem bounds
this sum so that every `i64` intermediate of the recomputation
provably stays in range. -/
def total_bw (relays : List Relay) : Nat :=
  (relays.map (fun r => r.bandwidth_weight.getD 0)).sum

/-- Rust `bw as i64` for a `u64` value (two's-complement wrap). -/
def i64_of_u64 (n : Nat) : Int :=
  if n % 2 ^ 64 < 2 ^ 63 then ((n % 2 ^ 64 : Nat) : Int)
  else ((n % 2 ^ 64 : Nat) : Int) - 2 ^ 64

/-- Rust `v as u64` for an `i64` value (two's-complement wrap). -/
def u64_of_i64 (v : Int) : Nat := (v % 2 ^ 64).toNat

/-- The seven mutable weight variables of `recompute_bw_weights`. -/
structure BwWeights where
  Wgg : Int
  Wgd : Int
  Wmg : Int
  Wme : Int
  Wmd : Int
  Wee : Int
  Wed : Int
deriving DecidableEq, Repr

/-- The `BwwError` enum from adversaries.rs. -/
inductive BwwError where
  | SumD | SumG | SumE | Range | BalanceEg | BalanceMid
deriving DecidableEq, Repr

/-- All seven weight variables lie in `[-N, N]` (proof scaffolding for
the wrap-agreement lemmas). -/
def bww_bounded (w : BwWeights) (N : Int) : Prop :=
  (-N ≤ w.Wgg ∧ w.Wgg ≤ N) ∧ (-N ≤ w.Wgd ∧ w.Wgd ≤ N) ∧ (-N ≤ w.Wmg ∧ w.Wmg ≤ N)
  ∧ (-N ≤ w.Wme ∧ w.Wme ≤ N) ∧ (-N ≤ w.Wmd ∧ w.Wmd ≤ N) ∧ (-N ≤ w.Wee ∧ w.Wee ≤ N)
  ∧ (-N ≤ w.Wed ∧ w.Wed ≤ N)

/-- `check_eq` from adversaries.rs (the two subtractions are `i64`
operations and wrap). -/
def check_eq (a b margin : Int) : Bool :=
  if wrap64 (a - b) ≥ 0 then wrap64 (a - b) ≤ margin else wrap64 (b - a) ≤ margin

/-- Idealized (non-wrapping) `check_eq`; agrees with `check_eq` for
arguments below `2^62` (`check_eq_agree`).  The weight-law arithmetic
is carried out on this layer. -/
def check_eq_ideal (a b margin : Int) : Bool :=
  if a - b ≥ 0 then a - b ≤ margin else b - a ≤ margin

/-- `check_range` from adversaries.rs. -/
def check_range (a b c d e f g mx : Int) : Bool :=
  a ≥ 0 && a ≤ mx && b ≥ 0 && b ≤ mx && c ≥ 0 && c ≤ mx && d ≥ 0 && d ≤ mx
    && e ≥ 0 && e ≤ mx && f ≥ 0 && f ≤ mx && g ≥ 0 && g ≤ mx

/-- `check_weights_errors` from adversaries.rs: verify the dir-spec
formulas, returning the first violated one (sums and products are
`i64` operations and wrap). -/
def check_weights_errors (Wgg Wgd Wmg Wme Wmd Wee Wed ws G M E D T margin : Int)
    (do_balance : Bool) : Option BwwError :=
  if !check_eq (wrap64 (wrap64 (Wed + Wmd) + Wgd)) ws margin then some BwwError.SumD
  else if !check_eq (wrap64 (Wmg + Wgg)) ws margin then some BwwError.SumG
  else if !check_eq (wrap64 (Wme + Wee)) ws margin then some BwwError.SumE
  else if !check_range Wgg Wgd Wmg Wme Wmd Wed Wee ws then some BwwError.Range
  else if do_balance then
    if !check_eq (wrap64 (wrap64 (Wgg * G) + wrap64 (Wgd * D)))
        (wrap64 (wrap64 (Wee * E) + wrap64 (Wed * D)))
        ((wrap64 (margin * T)).tdiv 3) then
      some BwwError.BalanceEg
    else if !check_eq (wrap64 (wrap64 (Wgg * G) + wrap64 (Wgd * D)))
        (wrap64 (wrap64 (wrap64 (wrap64 (M * ws) + wrap64 (Wmd * D)) + wrap64 (Wme * E))
          + wrap64 (Wmg * G)))
        ((wrap64 (margin * T)).tdiv 3) then
      some BwwError.BalanceMid
    else none
  else none

/-- Idealized (non-wrapping) `check_weights_errors`; agrees with the
wrapped version under the argument bounds of
`check_weights_errors_agree`. -/
def check_weights_errors_ideal (Wgg Wgd Wmg Wme Wmd Wee Wed ws G M E D T margin : Int)
    (do_balance : Bool) : Option BwwError :=
  if !check_eq_ideal (Wed + Wmd + Wgd) ws margin then some BwwError.SumD
  else if !check_eq_ideal (Wmg + Wgg) ws margin then some BwwError.SumG
  else if !check_eq_ideal (Wme + Wee) ws margin then some BwwError.SumE
  else if !check_range Wgg Wgd Wmg Wme Wmd Wed Wee ws then some BwwError.Range
  else if do_balance then
    if !check_eq_ideal (Wgg * G + Wgd * D) (Wee * E + Wed * D) ((margin * T).tdiv 3) then
      some BwwError.BalanceEg
    else if !check_eq_ideal (Wgg * G + Wgd * D) (M * ws + Wmd * D + Wme * E + Wmg * G)
        ((margin * T).tdiv 3) then
      some BwwError.BalanceMid
    else none
  else none

/-- Case 2b1 weight assignment (`Wgg=weightscale, Wmd=Wgd`) from
`recompute_bw_weights`, each `i64` operation wrapping. -/
def bww_case2b1 (G M E D : Int) : BwWeights :=
  let Wee := (wrap64 (weightscale * wrap64 (wrap64 (E - G) + M))).tdiv E
  let Wed := (wrap64 (weightscale *
      wrap64 (wrap64 (wrap64 (D - wrap64 (2 * E)) + wrap64 (4 * G)) - wrap64 (2 * M)))).tdiv
    (wrap64 (3 * D))
  let Wme := (wrap64 (weightscale * wrap64 (G - M))).tdiv E
  let Wgd := (wrap64 (weightscale - Wed)).tdiv 2
  { Wgg := weightscale, Wgd := Wgd, Wmg := 0, Wme := Wme, Wmd := Wgd
  , Wee := Wee, Wed := Wed }

/-- Idealized (non-wrapping) case 2b1; agrees with `bww_case2b1` under
the totals bound (`bww_case2b1_agree`). -/
def bww_case2b1_ideal (G M E D : Int) : BwWeights :=
  { Wgg := weightscale
  , Wgd := (weightscale - (weightscale * (D - 2 * E + 4 * G - 2 * M)).tdiv (3 * D)).tdiv 2
  , Wmg := 0
  , Wme := (weightscale * (G - M)).tdiv E
  , Wmd := (weightscale - (weightscale * (D - 2 * E + 4 * G - 2 * M)).tdiv (3 * D)).tdiv 2
  , Wee := (weightscale * (E - G + M)).tdiv E
  , Wed := (weightscale * (D - 2 * E + 4 * G - 2 * M)).tdiv (3 * D) }

/-- Case 2b2 (`Wgg=Wee=weightscale`) weight assignment, with the 2b3
clamp `Wmd=0` when `Wmd < 0`, from `recompute_bw_weights`, each `i64`
operation wrapping. -/
def bww_case2b2 (G M E D : Int) : BwWeights :=
  let Wed2 := (wrap64 (weightscale *
      wrap64 (wrap64 (wrap64 (D - wrap64 (2 * E)) + G) + M))).tdiv (wrap64 (3 * D))
  let Wmd2 := (wrap64 (weightscale *
      wrap64 (wrap64 (wrap64 (D - wrap64 (2 * M)) + G) + E))).tdiv (wrap64 (3 * D))
  let Wmd3 := if Wmd2 < 0 then 0 else Wmd2
  { Wgg := weightscale, Wgd := wrap64 (wrap64 (weightscale - Wed2) - Wmd3)
  , Wmg := 0, Wme := 0, Wmd := Wmd3, Wee := weightscale, Wed := Wed2 }

/-- Idealized (non-wrapping) case 2b2/2b3; agrees with `bww_case2b2`
under the totals bound (`bww_case2b2_agree`). -/
def bww_case2b2_ideal (G M E D : Int) : BwWeights :=
  let Wed2 := (weightscale * (D - 2 * E + G + M)).tdiv (3 * D)
  let Wmd2 := (weightscale * (D - 2 * M + G + E)).tdiv (3 * D)
  let Wmd3 := if Wmd2 < 0 then 0 else Wmd2
  { Wgg := weightscale, Wgd := weightscale - Wed2 - Wmd3, Wmg := 0, Wme := 0
  , Wmd := Wmd3, Wee := weightscale, Wed := Wed2 }

/-- Run `check_weights_errors` on a weight record (margin 10, balance
checks on, `T` the wrapped total), as `recompute_bw_weights` does in
case 2b. -/
def check_bww (w : BwWeights) (G M E D : Int) : Option BwwError :=
  check_weights_errors w.Wgg w.Wgd w.Wmg w.Wme w.Wmd w.Wee w.Wed
    weightscale G M E D (wrap64 (wrap64 (wrap64 (E + G) + D) + M)) 10 true

/-- Idealized (non-wrapping) `check_bww`; agrees with `check_bww` under
the bounds of `check_bww_agree`. -/
def check_bww_ideal (w : BwWeights) (G M E D : Int) : Option BwwError :=
  check_weights_errors_ideal w.Wgg w.Wgd w.Wmg w.Wme w.Wmd w.Wee w.Wed
    weightscale G M E D (E + G + D + M) 10 true

/-- Case 2b of `recompute_bw_weights`: try 2b1; on any check error
retry as 2b2/2b3; finally panic (`none`) unless the check passes or
fails only `BalanceMid`. -/
def compute_weights_case2b (G M E D : Int) : Option BwWeights :=
  let w1 := bww_case2b1 G M E D
  let w2 := if (check_bww w1 G M E D).isSome then bww_case2b2 G M E D else w1
  -- the final `match` panics on every result except None | Some(BalanceMid)
  if check_bww w2 G M E D = none ∨ check_bww w2 G M E D = some BwwError.BalanceMid then
    some w2
  else none

/-- Idealized (non-wrapping) case 2b; agrees with
`compute_weights_case2b` under the totals bound
(`compute_weights_case2b_agree`). -/
def compute_weights_case2b_ideal (G M E D : Int) : Option BwWeights :=
  let w1 := bww_case2b1_ideal G M E D
  let w2 := if (check_bww_ideal w1 G M E D).isSome then bww_case2b2_ideal G M E D else w1
  if check_bww_ideal w2 G M E D = none
      ∨ check_bww_ideal w2 G M E D = some BwwError.BalanceMid then
    some w2
  else none

/-- The three-case weight assignment of `recompute_bw_weights`, as a
function of the four totals.  Rust `i64` division (`/`, truncating) is
`Int.tdiv`; `+`, `-`, `*` wrap (`wrap64`); a `panic!` is `none`. -/
def compute_weights (G M E D : Int) : Option BwWeights :=
  let T := wrap64 (wrap64 (wrap64 (E + G) + D) + M)
  if wrap64 (3 * E) ≥ T ∧ wrap64 (3 * G) ≥ T then
    -- Case 1: Neither are scarce
    let Wee := (wrap64 (weightscale * wrap64 (wrap64 (E + G) + M))).tdiv (wrap64 (3 * E))
    let Wmg := (wrap64 (weightscale *
        wrap64 (wrap64 (wrap64 (2 * G) - E) - M))).tdiv (wrap64 (3 * G))
    some { Wgg := wrap64 (weightscale - Wmg)
         , Wgd := weightscale.tdiv 3
         , Wmg := Wmg
         , Wme := wrap64 (weightscale - Wee)
         , Wmd := weightscale.tdiv 3
         , Wee := Wee
         , Wed := weightscale.tdiv 3 }
  else if wrap64 (3 * E) < T ∧ wrap64 (3 * G) < T then
    -- Case 2: Both Guards and Exits are scarce
    if wrap64 (min E G + D) < max E G then
      -- subcase a
      if E < G then
        some { Wgg := weightscale, Wgd := 0, Wmg := 0, Wme := 0, Wmd := 0
             , Wee := weightscale, Wed := weightscale }
      else
        some { Wgg := weightscale, Wgd := weightscale, Wmg := 0, Wme := 0, Wmd := 0
             , Wee := weightscale, Wed := 0 }
    else
      -- subcase b (R+D >= S)
      compute_weights_case2b G M E D
  else
    -- Case 3: Guard or Exit is scarce
    if wrap64 (3 * wrap64 (min E G + D)) < T then
      -- subcase a
      if G < E then
        let Wme := if E < M then 0
          else (wrap64 (weightscale * wrap64 (E - M))).tdiv (wrap64 (2 * E))
        some { Wgg := weightscale, Wgd := weightscale, Wmg := 0
             , Wme := Wme, Wmd := 0
             , Wee := wrap64 (weightscale - Wme), Wed := 0 }
      else
        let Wmg := if G < M then 0
          else (wrap64 (weightscale * wrap64 (G - M))).tdiv (wrap64 (2 * G))
        some { Wgg := wrap64 (weightscale - Wmg), Wgd := 0, Wmg := Wmg
             , Wme := 0, Wmd := 0, Wee := weightscale, Wed := weightscale }
    else
      -- subcase b
      if G < E then
        let Wgd := (wrap64 (weightscale *
            wrap64 (wrap64 (wrap64 (D - wrap64 (2 * G)) + E) + M))).tdiv (wrap64 (3 * D))
        let Wee := (wrap64 (weightscale * wrap64 (E + M))).tdiv (wrap64 (2 * E))
        let Wed := (wrap64 (weightscale - Wgd)).tdiv 2
        some { Wgg := weightscale, Wgd := Wgd, Wmg := 0
             , Wme := wrap64 (weightscale - Wee), Wmd := Wed
             , Wee := Wee, Wed := Wed }
      else
        let Wed := (wrap64 (weightscale *
            wrap64 (wrap64 (wrap64 (D - wrap64 (2 * E)) + G) + M))).tdiv (wrap64 (3 * D))
        let Wgg := (wrap64 (weightscale * wrap64 (G + M))).tdiv (wrap64 (2 * G))
        let Wgd := (wrap64 (weightscale - Wed)).tdiv 2
        some { Wgg := Wgg, Wgd := Wgd, Wmg := wrap64 (weightscale - Wgg)
             , Wme := 0, Wmd := Wgd, Wee := weightscale, Wed := Wed }

/-- Idealized (non-wrapping) three-case weight assignment; agrees with
`compute_weights` under the totals bound (`compute_weights_agree`).
The weight-law case lemmas below are proved on this layer. -/
def compute_weights_ideal (G M E D : Int) : Option BwWeights :=
  let T := E + G + D + M
  if 3 * E ≥ T ∧ 3 * G ≥ T then
    -- Case 1: Neither are scarce
    some { Wgg := weightscale - (weightscale * (2 * G - E - M)).tdiv (3 * G)
         , Wgd := weightscale.tdiv 3
         , Wmg := (weightscale * (2 * G - E - M)).tdiv (3 * G)
         , Wme := weightscale - (weightscale * (E + G + M)).tdiv (3 * E)
         , Wmd := weightscale.tdiv 3
         , Wee := (weightscale * (E + G + M)).tdiv (3 * E)
         , Wed := weightscale.tdiv 3 }
  else if 3 * E < T ∧ 3 * G < T then
    -- Case 2: Both Guards and Exits are scarce
    if min E G + D < max E G then
      -- subcase a
      if E < G then
        some { Wgg := weightscale, Wgd := 0, Wmg := 0, Wme := 0, Wmd := 0
             , Wee := weightscale, Wed := weightscale }
      else
        some { Wgg := weightscale, Wgd := weightscale, Wmg := 0, Wme := 0, Wmd := 0
             , Wee := weightscale, Wed := 0 }
    else
      -- subcase b (R+D >= S)
      compute_weights_case2b_ideal G M E D
  else
    -- Case 3: Guard or Exit is scarce
    if 3 * (min E G + D) < T then
      -- subcase a
      if G < E then
        some { Wgg := weightscale, Wgd := weightscale, Wmg := 0
             , Wme := if E < M then 0 else (weightscale * (E - M)).tdiv (2 * E)
             , Wmd := 0
             , Wee := weightscale -
                 (if E < M then 0 else (weightscale * (E - M)).tdiv (2 * E))
             , Wed := 0 }
      else
        some { Wgg := weightscale -
                 (if G < M then 0 else (weightscale * (G - M)).tdiv (2 * G))
             , Wgd := 0
             , Wmg := if G < M then 0 else (weightscale * (G - M)).tdiv (2 * G)
             , Wme := 0, Wmd := 0, Wee := weightscale, Wed := weightscale }
    else
      -- subcase b
      if G < E then
        some { Wgg := weightscale
             , Wgd := (weightscale * (D - 2 * G + E + M)).tdiv (3 * D)
             , Wmg := 0
             , Wme := weightscale - (weightscale * (E + M)).tdiv (2 * E)
             , Wmd := (weightscale - (weightscale * (D - 2 * G + E + M)).tdiv (3 * D)).tdiv 2
             , Wee := (weightscale * (E + M)).tdiv (2 * E)
             , Wed := (weightscale - (weightscale * (D - 2 * G + E + M)).tdiv (3 * D)).tdiv 2 }
      else
        some { Wgg := (weightscale * (G + M)).tdiv (2 * G)
             , Wgd := (weightscale - (weightscale * (D - 2 * E + G + M)).tdiv (3 * D)).tdiv 2
             , Wmg := weightscale - (weightscale * (G + M)).tdiv (2 * G)
             , Wme := 0
             , Wmd := (weightscale - (weightscale * (D - 2 * E + G + M)).tdiv (3 * D)).tdiv 2
             , Wee := weightscale
             , Wed := (weightscale * (D - 2 * E + G + M)).tdiv (3 * D) }

/-- The totals loop of `recompute_bw_weights`: `E, G, D, M` each start
at 1 and every relay's bandwidth weight (cast `as i64`) is added
(wrapping) to exactly one of them according to its flags (`Exit`
without `BadExit` counts as exit); a relay without flags or bandwidth
weight panics (`none`).  Note the loop does not look at the `Running`
flag. -/
def bw_totals_aux (acc : Int × Int × Int × Int) : List Relay → Option (Int × Int × Int × Int)
  | [] => some acc
  | r :: rest =>
      match r.flags, r.bandwidth_weight with
      | some flags, some bw =>
          let bwi := i64_of_u64 bw
          let is_exit := flags.contains Flag.Exit && !flags.contains Flag.BadExit
          let acc2 :=
            if is_exit && flags.contains Flag.Guard then
              (acc.1, acc.2.1, wrap64 (acc.2.2.1 + bwi), acc.2.2.2)
            else if is_exit then
              (wrap64 (acc.1 + bwi), acc.2.1, acc.2.2.1, acc.2.2.2)
            else if flags.contains Flag.Guard then
              (acc.1, wrap64 (acc.2.1 + bwi), acc.2.2.1, acc.2.2.2)
            else
              (acc.1, acc.2.1, acc.2.2.1, wrap64 (acc.2.2.2 + bwi))
          bw_totals_aux acc2 rest
      | _, _ => none

/-- Idealized (non-wrapping) totals loop; agrees with `bw_totals_aux`
while the running totals stay below `2^63` (`bw_totals_aux_agree`). -/
def bw_totals_aux_ideal (acc : Int × Int × Int × Int) :
    List Relay → Option (Int × Int × Int × Int)
  | [] => some acc
  | r :: rest =>
      match r.flags, r.bandwidth_weight with
      | some flags, some bw =>
          let bwi := i64_of_u64 bw
          let is_exit := flags.contains Flag.Exit && !flags.contains Flag.BadExit
          let acc2 :=
            if is_exit && flags.contains Flag.Guard then
              (acc.1, acc.2.1, acc.2.2.1 + bwi, acc.2.2.2)
            else if is_exit then
              (acc.1 + bwi, acc.2.1, acc.2.2.1, acc.2.2.2)
            else if flags.contains Flag.Guard then
              (acc.1, acc.2.1 + bwi, acc.2.2.1, acc.2.2.2)
            else
              (acc.1, acc.2.1, acc.2.2.1, acc.2.2.2 + bwi)
          bw_totals_aux_ideal acc2 rest
      | _, _ => none

/-- The `(E, G, D, M)` totals of `recompute_bw_weights` for a relay
list. -/
def bw_totals (relays : List Relay) : Option (Int × Int × Int × Int) :=
  bw_totals_aux (1, 1, 1, 1) relays

/-- The 19-entry weights map (`BTreeMap` in sorted key order) stored by
`recompute_bw_weights`, with each value cast `as u64`. -/
def bw_weights_list (w : BwWeights) : List (String × Nat) :=
  [ ("Wbd", u64_of_i64 w.Wmd), ("Wbe", u64_of_i64 w.Wme), ("Wbg", u64_of_i64 w.Wmg)
  , ("Wbm", u64_of_i64 weightscale), ("Wdb", u64_of_i64 weightscale)
  , ("Web", u64_of_i64 weightscale), ("Wed", u64_of_i64 w.Wed), ("Wee", u64_of_i64 w.Wee)
  , ("Weg", u64_of_i64 w.Wed), ("Wem", u64_of_i64 w.Wee), ("Wgb", u64_of_i64 weightscale)
  , ("Wgd", u64_of_i64 w.Wgd), ("Wgg", u64_of_i64 w.Wgg), ("Wgm", u64_of_i64 w.Wgg)
  , ("Wmb", u64_of_i64 weightscale), ("Wmd", u64_of_i64 w.Wmd), ("Wme", u64_of_i64 w.Wme)
  , ("Wmg", u64_of_i64 w.Wmg), ("Wmm", u64_of_i64 weightscale) ]

/-- `bwweights::recompute_bw_weights` from adversaries.rs: collect the
totals, run the three-case assignment, store the 19 weights in the
consensus.  `none` models a panic. -/
def recompute_bw_weights (c : Consensus) : Option Consensus := do
  let (e, g, d, m) ← bw_totals c.relays
  let w ← compute_weights g m e d
  some { c with weights := some (bw_weights_list w) }

/-- The weight-law invariant claimed for every stored weight record:
all seven computed weights lie in `[0, weightscale]` and the three sum
equations hold within margin 10. -/
def bww_ok (w : BwWeights) : Prop :=
  (0 ≤ w.Wgg ∧ w.Wgg ≤ weightscale)
  ∧ (0 ≤ w.Wgd ∧ w.Wgd ≤ weightscale)
  ∧ (0 ≤ w.Wmg ∧ w.Wmg ≤ weightscale)
  ∧ (0 ≤ w.Wme ∧ w.Wme ≤ weightscale)
  ∧ (0 ≤ w.Wmd ∧ w.Wmd ≤ weightscale)
  ∧ (0 ≤ w.Wee ∧ w.Wee ≤ weightscale)
  ∧ (0 ≤ w.Wed ∧ w.Wed ≤ weightscale)
  ∧ (w.Wed + w.Wmd + w.Wgd - weightscale ≤ 10
      ∧ weightscale - (w.Wed + w.Wmd + w.Wgd) ≤ 10)
  ∧ (w.Wmg + w.Wgg - weightscale ≤ 10 ∧ weightscale - (w.Wmg + w.Wgg) ≤ 10)
  ∧ (w.Wme + w.Wee - weightscale ≤ 10 ∧ weightscale - (w.Wme + w.Wee) ≤ 10)

/-- The totals loop as claim C2 (and spec §4.5) words it: incremented
by each **Running** relay's bandwidth weight.  This definition follows
the claim's words, not the source (which never reads the `Running`
flag), and exists only to be compared against `bw_totals_aux`. -/
def bw_totals_running_aux (acc : Int × Int × Int × Int) :
    List Relay → Option (Int × Int × Int × Int)
  | [] => some acc
  | r :: rest =>
      match r.flags, r.bandwidth_weight with
      | some flags, some bw =>
          if flags.contains Flag.Running then
            let bwi := i64_of_u64 bw
            let is_exit := flags.contains Flag.Exit && !flags.contains Flag.BadExit
            let acc2 :=
              if is_exit && flags.contains Flag.Guard then
                (acc.1, acc.2.1, acc.2.2.1 + bwi, acc.2.2.2)
              else if is_exit then
                (acc.1 + bwi, acc.2.1, acc.2.2.1, acc.2.2.2)
              else if flags.contains Flag.Guard then
                (acc.1, acc.2.1 + bwi, acc.2.2.1, acc.2.2.2)
              else
                (acc.1, acc.2.1, acc.2.2.1, acc.2.2.2 + bwi)
            bw_totals_running_aux acc2 rest
          else
            bw_totals_running_aux acc rest
      | _, _ => none

/-- The weight recomputation as the claim describes it (`Running`
relays only, the dir-spec formulas on exact integers); compare
`recompute_bw_weights`. -/
def recompute_bw_weights_claim (c : Consensus) : Option Consensus := do
  let (e, g, d, m) ← bw_totals_running_aux (1, 1, 1, 1) c.relays
  let w ← compute_weights_ideal g m e d
  some { c with weights := some (bw_weights_list w) }

/-! ## adversaries.rs -/

/-- `make_adversarial_guard` from adversaries.rs: flags
`{Fast, Guard, Running, Stable, Valid}`, a reject-all condensed exit
policy, the given bandwidth weight, or-address `10.{index}.0.1:9001`. -/
def make_adversarial_guard (index : Nat) (weight : Nat) : Relay × Descriptor :=
  ( { nickname := some ("BadGuyGuard" ++ toString index)
    , fingerprint := some (Fingerprint.advGuardFp index)
    , digest := some (Fingerprint.advGuardFp index)
    , flags := some [Flag.Fast, Flag.Guard, Flag.Running, Flag.Stable, Flag.Valid]
    , exit_policy := some CondensedExitPolicy.reject_all
    , bandwidth_weight := some weight }
  , { nickname := some ("BadGuyGuard" ++ toString index)
    , fingerprint := some (Fingerprint.advGuardFp index)
    , digest := some (Fingerprint.advGuardFp index)
    , or_addresses := some [(index, 9001)] } )

/-- `make_adversarial_exit` from adversaries.rs: flags
`{Fast, Exit, Running, Stable, Valid}`, an accept-all condensed exit
policy, or-address `10.{ip_offset+index}.0.1:9001`. -/
def make_adversarial_exit (index : Nat) (ip_offset : Nat) (weight : Nat) :
    Relay × Descriptor :=
  ( { nickname := some ("BadGuyExit" ++ toString index)
    , fingerprint := some (Fingerprint.advExitFp index)
    , digest := some (Fingerprint.advExitFp index)
    , flags := some [Flag.Fast, Flag.Exit, Flag.Running, Flag.Stable, Flag.Valid]
    , exit_policy := some CondensedExitPolicy.accept_all
    , bandwidth_weight := some weight }
  , { nickname := some ("BadGuyExit" ++ toString index)
    , fingerprint := some (Fingerprint.advExitFp index)
    , digest := some (Fingerprint.advExitFp index)
    , or_addresses := some [(ip_offset + index, 9001)] } )

/-- The `Adversary` struct from adversaries.rs. -/
structure Adversary where
  extra_relays : List (Relay × Descriptor)
  adversary_fingerprints : List Fingerprint
deriving DecidableEq, Repr

/-- `Adversary::new` from adversaries.rs, from the four CLI options
(`clap` guarantees a bandwidth is present whenever the matching count
is; the `unwrap` is modelled as `getD 0`, never reached in that case).
Guards are built for indexes `1..=adv_guards_num`, exits for
`1..=adv_exits_num` with `ip_offset = adv_guards_num.unwrap_or(0)`. -/
def Adversary.mk_new (adv_guards_num adv_guards_bw adv_exits_num adv_exits_bw : Option Nat) :
    Adversary :=
  let guards := match adv_guards_num with
    | some n => (List.range n).map (fun i => make_adversarial_guard (i + 1) (adv_guards_bw.getD 0))
    | none => []
  let exits := match adv_exits_num with
    | some n => (List.range n).map
        (fun i => make_adversarial_exit (i + 1) (adv_guards_num.getD 0) (adv_exits_bw.getD 0))
    | none => []
  let extra := guards ++ exits
  { extra_relays := extra
  , adversary_fingerprints := extra.filterMap (fun rd => rd.1.fingerprint) }

/-- `Adversary::modify_consensus` from adversaries.rs: append the
fabricated relays and descriptors, then recompute the bandwidth
weights — but only when there is at least one extra relay.  `none`
models a panic inside the recomputation. -/
def Adversary.modify_consensus (a : Adversary) (consensus : Consensus)
    (descriptors : List Descriptor) : Option (Consensus × List Descriptor) :=
  let consensus2 :=
    { consensus with relays := consensus.relays ++ a.extra_relays.map Prod.fst }
  let descriptors2 := descriptors ++ a.extra_relays.map Prod.snd
  if a.extra_relays.length > 0 then
    (recompute_bw_weights consensus2).map (fun c2 => (c2, descriptors2))
  else
    some (consensus2, descriptors2)

/-- `Adversary::is_adversarial` from adversaries.rs. -/
def Adversary.is_adversarial (a : Adversary) (fp : Fingerprint) : Bool :=
  a.adversary_fingerprints.contains fp

/-! ## input.rs and sim.rs (epoch ordering) -/

/-- `ConsensusHandle` from input.rs, with the file-system I/O
abstracted: `time` is the timestamp embedded in the file name and
`doc` is the consensus `load()` parses from `path`. -/
structure ConsensusHandle where
  time : Int
  doc : Consensus
deriving DecidableEq, Repr

/-- Key comparison of the handle sort (`|h| h.time`). -/
def handleLe (a b : ConsensusHandle) : Prop := a.time ≤ b.time

instance : DecidableRel handleLe := fun a b => Int.decLe a.time b.time

instance : IsTotal ConsensusHandle handleLe := ⟨fun a b => Int.le_total a.time b.time⟩

instance : IsTrans ConsensusHandle handleLe := ⟨fun _ _ _ => le_trans⟩

/-- The sort at the end of `find_consensuses`
(`handles.sort_unstable_by_key(|h| h.time)`), modelled as insertion
sort by the key: `sort_unstable_by_key` guarantees exactly a
permutation that is non-strictly sorted by the key (it is not stable,
so the order of equal keys is unspecified and nothing below depends on
it). -/
def sortHandles (l : List ConsensusHandle) : List ConsensusHandle :=
  l.insertionSort handleLe

/-- The epoch loop of `Simulator::run`: iterate the handles in the
order `find_consensuses` returns them, entering one epoch per handle
whose start is the loaded consensus's `valid_after` (fatal —
`none` — if absent).  Returns the sequence of epoch `valid_after`
values in processing order. -/
def sim_epoch_valid_afters (handles : List ConsensusHandle) : Option (List Int) :=
  (sortHandles handles).mapM (fun h => h.doc.valid_after)

/-! ## client.rs -/

/-- `MAX_CIRCUIT_DIRTINESS` from client.rs (10 minutes). -/
def MAX_CIRCUIT_DIRTINESS : Int := minutes 10

/-- `CIRCUIT_IDLE_TIMEOUT` from client.rs (60 minutes). -/
def CIRCUIT_IDLE_TIMEOUT : Int := minutes 60

/-- `LONG_LIVED_PORTS` from client.rs. -/
def LONG_LIVED_PORTS : List Nat :=
  [21, 22, 706, 1863, 5050, 5190, 5222, 5223, 6523, 6667, 6697, 8300]

/-- The `Request` struct from user.rs.  The `packet_timestamps` payload
is consumed only by the observer (out of the modelled scope). -/
structure Request where
  time : Int
  port : Nat
deriving DecidableEq, Repr

/-- The relay view obtained through
`tor_circuit_generator::CircuitGenerator::lookup_relay` (flags and
condensed exit policy are the only fields this repository reads). -/
structure RelayView where
  flags : List Flag
  exit_policy : CondensedExitPolicy
deriving DecidableEq, Repr

/-- The `CircuitGenerator` interface (external collaborator, spec §6):
pure relay lookup given the epoch's consensus. -/
structure CircGen where
  lookup_relay : Fingerprint → Option RelayView

/-- The `ShallowCircuit` struct from client.rs.  `covered_needs` is the
`Vec<NeedHandle>`: each entry is the allocation id of the need the
handle points to (the handle may be stale when the need has been
dropped from the container). -/
structure ShallowCircuit where
  guard : Fingerprint
  middle : Fingerprint
  exit : Fingerprint
  time : Int
  dirty_time : Option Int
  is_internal : Bool
  is_stable : Bool
  is_fast : Bool
  covered_needs : List Nat
deriving DecidableEq, Repr

/-- `ShallowCircuit::from_generated_circuit` from client.rs: the
generator's three fingerprints, `is_internal = false`, and at most one
initial covered need. -/
def ShallowCircuit.from_generated (gme : Fingerprint × Fingerprint × Fingerprint)
    (stable fast : Bool) (time : Int) (dirty_time : Option Int)
    (covered_need : Option Nat) : ShallowCircuit :=
  { guard := gme.1, middle := gme.2.1, exit := gme.2.2, time := time
  , dirty_time := dirty_time, is_internal := false, is_stable := stable
  , is_fast := fast, covered_needs := covered_need.toList }

/-- `ShallowCircuit::supports_stream` from client.rs.  The source
`unwrap`s the exit lookup (panicking when the exit has left the
consensus); the absent case is totalized to `false` and never reached
in the theorems below. -/
def ShallowCircuit.supports_stream (c : ShallowCircuit) (cg : CircGen)
    (req : Request) : Bool :=
  if c.is_internal then false
  else if !c.is_stable && LONG_LIVED_PORTS.contains req.port then false
  else match cg.lookup_relay c.exit with
    | some exitr => exitr.exit_policy.allows_port req.port
    | none => false

/-- `NeedHandle::can_be_covered_by_circuit` from needs.rs, for a handle
whose need (`need`) still exists: fast/stable compatibility and the
exit policy must allow the needed port (exit lookup totalized as in
`supports_stream`). -/
def need_can_be_covered (need : Need) (circuit : ShallowCircuit) (cg : CircGen) : Bool :=
  if need.fast && !circuit.is_fast then false
  else if need.stable && !circuit.is_stable then false
  else match cg.lookup_relay circuit.exit with
    | some exitr => exitr.exit_policy.allows_port need.port
    | none => false

/-- The `CircuitManager` struct from client.rs.  The `guards`
(`GuardHandling`) field is omitted: guard bookkeeping never touches
circuits or needs, and the guard picked for a new circuit comes from
the `ClientCtx` oracle below. -/
structure CircuitManager where
  circuits : List ShallowCircuit
  port_needs : NeedsContainer
  last_triggered : Option Int
deriving Repr

/-- Per-epoch context for a client: the circuit generator plus oracles
for `guards.get_guard_for_circuit` (a fingerprint per invocation time)
and `circgen.build_circuit_with_flags_and_guard` (the three fingerprints
of the generated circuit, given port, requested guard, fast and
stable). -/
structure ClientCtx where
  cg : CircGen
  guard_of : Int → Fingerprint
  build : Nat → Fingerprint → Bool → Bool → Fingerprint × Fingerprint × Fingerprint

/-- Replace the element at an index (`Vec` in-place mutation of one
element). -/
def listModify {α : Type} (f : α → α) : Nat → List α → List α
  | _, [] => []
  | 0, a :: t => f a :: t
  | Nat.succ j, a :: t => a :: listModify f j t

/-- Dropping a collection of `NeedHandle`s in order (e.g. a destroyed
circuit's `covered_needs`). -/
def NeedsContainer.drop_handles (c : NeedsContainer) (ids : List Nat) : NeedsContainer :=
  ids.foldl NeedsContainer.drop_handle c

/-- `Vec::retain_or_else` (utils.rs) on the circuit list: keep the
circuits satisfying `keep`; a removed circuit is dropped, which drops
its `NeedHandle`s and so decrements the cover count of each still-live
covered need. -/
def retain_circuits (keep : ShallowCircuit → Bool) :
    List ShallowCircuit → NeedsContainer → List ShallowCircuit × NeedsContainer
  | [], pn => ([], pn)
  | c :: rest, pn =>
      if keep c then
        let r := retain_circuits keep rest pn
        (c :: r.1, r.2)
      else
        retain_circuits keep rest (pn.drop_handles c.covered_needs)

/-- Total cover deficit of a needs container: the sum over all needs of
`PORT_NEED_COVER_NUM - covered`.  Each iteration of the need-covering
loop strictly decreases it. -/
def coverMeasure (pn : NeedsContainer) : Nat :=
  (pn.needs.map (fun n => PORT_NEED_COVER_NUM - n.covered)).sum

/-- The need-covering loop of `timed_client_updates` (client.rs):
while some need is uncovered, take a handle to it, build a circuit for
its port/fast/stable through the client's guard, and push the new
clean circuit holding the handle.  `fuel` bounds the recursion; with
`fuel > coverMeasure pn` the loop always reaches the `none`
(no-uncovered-need) case (C8), so the fuel-exhaustion result `none` is
unreachable there.  Also counts the iterations. -/
def cover_loop (ctx : ClientCtx) (now : Int) :
    Nat → List ShallowCircuit → NeedsContainer →
    Option (List ShallowCircuit × NeedsContainer × Nat)
  | 0, _, _ => none
  | Nat.succ fuel, circuits, pn =>
      match pn.get_uncovered_need with
      | none => some (circuits, pn, 0)
      | some (n, pn2) =>
          let guard := ctx.guard_of now
          let gme := ctx.build n.port guard n.fast n.stable
          let circ := ShallowCircuit.from_generated gme n.stable n.fast now none (some n.nid)
          (cover_loop ctx now fuel (circuits ++ [circ]) pn2).map
            (fun r => (r.1, r.2.1, r.2.2 + 1))

/-- `CircuitManager::timed_client_updates` from client.rs: initial
port-80 need on first invocation, expire needs, drop old dirty
circuits, drop old clean circuits, drop circuits with missing or
non-Running/Valid relays, (guard maintenance: guard state only, not
modelled), then cover uncovered needs.  `none` only on fuel exhaustion
of the covering loop, which cannot happen (C8). -/
def timed_client_updates (ctx : ClientCtx) (now : Int) (cm : CircuitManager) :
    Option CircuitManager :=
  let cm1 := if cm.last_triggered.isNone then
      { cm with port_needs := cm.port_needs.add_need 80 now true false }
    else cm
  let pn3 := cm1.port_needs.remove_expired now
  let r4 := retain_circuits (fun c => match c.dirty_time with
      | some dt => dt + MAX_CIRCUIT_DIRTINESS ≥ now
      | none => true) cm1.circuits pn3
  let r5 := retain_circuits (fun c => match c.dirty_time with
      | none => c.time + CIRCUIT_IDLE_TIMEOUT ≥ now
      | some _ => true) r4.1 r4.2
  let r6 := retain_circuits (fun c =>
      [c.guard, c.middle, c.exit].all (fun fp =>
        match ctx.cg.lookup_relay fp with
        | none => false
        | some x => x.flags.contains Flag.Running && x.flags.contains Flag.Valid))
      r5.1 r5.2
  (cover_loop ctx now (coverMeasure r6.2 + 1) r6.1 r6.2).map
    (fun r => { circuits := r.1, port_needs := r.2.1, last_triggered := some now })

/-- Which branch of `handle_request` selected the circuit. -/
inductive CircChoice where
  | dirty (idx : Nat)
  | cleanMadeDirty (idx : Nat)
  | builtNew
deriving DecidableEq, Repr

/-- The per-circuit test of `get_suitable_dirty_circuit` (client.rs):
dirty, `req.time < dirty_time + MAX_CIRCUIT_DIRTINESS`, and supports
the stream. -/
def dirty_suitable (cg : CircGen) (req : Request) (c : ShallowCircuit) : Bool :=
  match c.dirty_time with
  | some dt => decide (req.time < dt + MAX_CIRCUIT_DIRTINESS) && c.supports_stream cg req
  | none => false

/-- The per-circuit test of `get_suitable_clean_circuit` (client.rs):
clean and supports the stream. -/
def clean_suitable (cg : CircGen) (req : Request) (c : ShallowCircuit) : Bool :=
  c.dirty_time.isNone && c.supports_stream cg req

/-- `CircuitManager::get_suitable_dirty_circuit` from client.rs: the
first circuit that is dirty, fresh enough for the request, and
supports the stream. -/
def get_suitable_dirty_idx (cg : CircGen) (req : Request)
    (circuits : List ShallowCircuit) : Option Nat :=
  circuits.findIdx? (dirty_suitable cg req)

/-- `CircuitManager::get_suitable_clean_circuit` from client.rs: the
first clean circuit supporting the stream (the caller then marks it
dirty and clears its covers). -/
def get_suitable_clean_idx (cg : CircGen) (req : Request)
    (circuits : List ShallowCircuit) : Option Nat :=
  circuits.findIdx? (clean_suitable cg req)

/-- The clean-circuit scan of the need-covering block at the end of
`handle_request`: the first **clean** circuit that does not already
cover this port through a live handle and that can cover the need. -/
def find_cover_idx (pn : NeedsContainer) (cg : CircGen) (need : Need)
    (circuits : List ShallowCircuit) : Option Nat :=
  circuits.findIdx? (fun c =>
    c.dirty_time.isNone
    && !(c.covered_needs.any (fun hid => pn.handle_port hid == some need.port))
    && need_can_be_covered need c cg)

/-- The circuit-selection part of `CircuitManager::handle_request`
(client.rs): pick a dirty circuit, else a clean one (marking it dirty
and clearing its covers, which drops their handles), else build a new
dirty circuit and append it.  Also reports which branch selected the
circuit. -/
def handle_request_select (ctx : ClientCtx) (req : Request) (cm : CircuitManager) :
    List ShallowCircuit × NeedsContainer × CircChoice :=
  match get_suitable_dirty_idx ctx.cg req cm.circuits with
  | some i => (cm.circuits, cm.port_needs, CircChoice.dirty i)
  | none =>
    match get_suitable_clean_idx ctx.cg req cm.circuits with
    | some i =>
        -- make the circuit dirty; clearing `covered_needs` drops its handles
        let dropped := ((cm.circuits[i]?).map (fun c => c.covered_needs)).getD []
        (listModify (fun c => { c with dirty_time := some req.time, covered_needs := [] })
            i cm.circuits,
         cm.port_needs.drop_handles dropped,
         CircChoice.cleanMadeDirty i)
    | none =>
        let need_stable := LONG_LIVED_PORTS.contains req.port
        let need_fast := true
        let guard := ctx.guard_of req.time
        let gme := ctx.build req.port guard need_fast need_stable
        let circ := ShallowCircuit.from_generated gme need_stable need_fast
            req.time (some req.time) none
        (cm.circuits ++ [circ], cm.port_needs, CircChoice.builtNew)

/-- The need-recording block at the end of `handle_request` (client.rs;
TorPS's `stream_update_port_needs`): `add_need` for the request's port
(fast, stable iff long-lived), then, if the need is uncovered, attach
the handle to the first suitable clean circuit, dropping the handle
when none fits. -/
def stream_update_port_needs (ctx : ClientCtx) (req : Request)
    (circuits1 : List ShallowCircuit) (pn1 : NeedsContainer) :
    List ShallowCircuit × NeedsContainer :=
  let stable := LONG_LIVED_PORTS.contains req.port
  let pn2 := pn1.add_need req.port req.time true stable
  match pn2.cover_need_if_necessary req.port with
  | none => (circuits1, pn2)
  | some (need, pn3) =>
      match find_cover_idx pn3 ctx.cg need circuits1 with
      | some j =>
          (listModify
            (fun c => { c with covered_needs := c.covered_needs ++ [need.nid] }) j circuits1,
           pn3)
      | none =>
          -- no suitable clean circuit: the handle is dropped, uncovering the need
          (circuits1, pn3.drop_handle need.nid)

/-- `CircuitManager::handle_request` from client.rs: circuit selection
followed by the port-need recording block (observer notification and
guard confirmation touch neither circuits nor needs). -/
def handle_request (ctx : ClientCtx) (req : Request) (cm : CircuitManager) :
    CircuitManager × CircChoice :=
  let sel := handle_request_select ctx req cm
  let r := stream_update_port_needs ctx req sel.1 sel.2.1
  ({ circuits := r.1, port_needs := r.2, last_triggered := cm.last_triggered }, sel.2.2)

/-- Number of `NeedHandle`s to need `hid` held across a circuit list
(the handles alive at an operation boundary all live inside some
circuit's `covered_needs`). -/
def countHandles (circuits : List ShallowCircuit) (hid : Nat) : Nat :=
  (circuits.map (fun c => c.covered_needs.count hid)).sum

/-- The cover-accounting invariant of a client's circuit/needs state at
operation boundaries:
(1) every stored need's `covered` counter equals the number of alive
    handles to it (all held inside circuits);
(2) dirty circuits hold no handles;
(3) no circuit holds two handles to the same need;
(4) allocation ids of stored needs are pairwise distinct;
(5, 6) every stored need's id, and every handle, predates the next
    fresh allocation id. -/
def cm_inv (circuits : List ShallowCircuit) (pn : NeedsContainer) : Prop :=
  (∀ n ∈ pn.needs, n.covered = countHandles circuits n.nid)
  ∧ (∀ c ∈ circuits, c.dirty_time ≠ none → c.covered_needs = [])
  ∧ (∀ c ∈ circuits, ∀ n ∈ pn.needs, c.covered_needs.count n.nid ≤ 1)
  ∧ (pn.needs.map (fun n => n.nid)).Nodup
  ∧ (∀ n ∈ pn.needs, n.nid < pn.fresh)
  ∧ (∀ c ∈ circuits, ∀ hid ∈ c.covered_needs, hid < pn.fresh)

/-- The property claimed for every need: `covered` equals the number of
alive handles to it and does not exceed the number of **clean**
circuits listing the need among their covers. -/
def cover_accounting (circuits : List ShallowCircuit) (pn : NeedsContainer) : Prop :=
  ∀ n ∈ pn.needs,
    n.covered = countHandles circuits n.nid
    ∧ n.covered ≤ (circuits.filter (fun c =>
        c.dirty_time.isNone && c.covered_needs.contains n.nid)).length

/-! ## Theorems -/

/-- Auxiliary: Rust truncating division agrees with Euclidean division
on nonnegative operands. -/
theorem tdiv_eq_ediv_nn (a b : Int) (ha : 0 ≤ a) (hb : 0 ≤ b) : a.tdiv b = a / b :=
  Int.tdiv_eq_ediv ha hb

/-- Auxiliary: truncating division of nonnegative operands is
nonnegative. -/
theorem tdiv_nn (a b : Int) (ha : 0 ≤ a) (hb : 0 ≤ b) : 0 ≤ a.tdiv b := by
  rw [tdiv_eq_ediv_nn a b ha hb]
  exact Int.ediv_nonneg ha hb

/-- Auxiliary: `a / b ≤ c` when `a ≤ c * b` (nonnegative numerator,
positive divisor, truncating division). -/
theorem tdiv_le_bound (a b c : Int) (ha : 0 ≤ a) (hb : 0 < b) (h : a ≤ c * b) :
    a.tdiv b ≤ c := by
  rw [tdiv_eq_ediv_nn a b ha hb.le]
  calc a / b ≤ (c * b) / b := Int.ediv_le_ediv hb h
    _ = c := Int.mul_ediv_cancel c hb.ne'

/-- Auxiliary: doubling a truncated half of a nonnegative value loses
at most one. -/
theorem tdiv_two_bounds (x : Int) (hx : 0 ≤ x) :
    x - 1 ≤ 2 * x.tdiv 2 ∧ 2 * x.tdiv 2 ≤ x := by
  rw [tdiv_eq_ediv_nn x 2 hx (by norm_num)]
  omega

/-- Auxiliary: what a passed (idealized) `check_eq` means. -/
theorem check_eq_true (a b margin : Int) (h : check_eq_ideal a b margin = true) :
    a - b ≤ margin ∧ b - a ≤ margin := by
  unfold check_eq_ideal at h
  split at h <;> simp at h <;> omega

/-- Auxiliary: what a passed `check_range` means. -/
theorem check_range_true (a b c d e f g mx : Int)
    (h : check_range a b c d e f g mx = true) :
    (0 ≤ a ∧ a ≤ mx) ∧ (0 ≤ b ∧ b ≤ mx) ∧ (0 ≤ c ∧ c ≤ mx) ∧ (0 ≤ d ∧ d ≤ mx)
      ∧ (0 ≤ e ∧ e ≤ mx) ∧ (0 ≤ f ∧ f ≤ mx) ∧ (0 ≤ g ∧ g ≤ mx) := by
  unfold check_range at h
  simp only [Bool.and_eq_true, decide_eq_true_eq, ge_iff_le] at h
  tauto

/-- Auxiliary: if `check_weights_errors` returns `none` or `BalanceMid`
then the three sum checks and the range check all passed (they are
tested before the balance checks). -/
theorem check_pass_props (Wgg Wgd Wmg Wme Wmd Wee Wed ws G M E D T margin : Int)
    (db : Bool)
    (h : check_weights_errors_ideal Wgg Wgd Wmg Wme Wmd Wee Wed ws G M E D T margin db = none
       ∨ check_weights_errors_ideal Wgg Wgd Wmg Wme Wmd Wee Wed ws G M E D T margin db
           = some BwwError.BalanceMid) :
    check_eq_ideal (Wed + Wmd + Wgd) ws margin = true
      ∧ check_eq_ideal (Wmg + Wgg) ws margin = true
      ∧ check_eq_ideal (Wme + Wee) ws margin = true
      ∧ check_range Wgg Wgd Wmg Wme Wmd Wed Wee ws = true := by
  unfold check_weights_errors_ideal at h
  by_cases h1 : check_eq_ideal (Wed + Wmd + Wgd) ws margin
  · by_cases h2 : check_eq_ideal (Wmg + Wgg) ws margin
    · by_cases h3 : check_eq_ideal (Wme + Wee) ws margin
      · by_cases h4 : check_range Wgg Wgd Wmg Wme Wmd Wed Wee ws
        · exact ⟨h1, h2, h3, h4⟩
        · simp [h1, h2, h3, h4] at h
      · simp [h1, h2, h3] at h
    · simp [h1, h2] at h
  · simp [h1] at h

/-- Auxiliary: mapping a port-preserving function over a needs list
commutes with looking a port up. -/
theorem find?_port_map_of_preserves (l : List Need) (port : Nat) (g : Need → Need)
    (hp : ∀ n, (g n).port = n.port) :
    (l.map g).find? (fun n => n.port = port)
      = (l.find? (fun n => n.port = port)).map g := by
  induction l with
  | nil => simp
  | cons a t ih =>
    by_cases h : a.port = port
    · simp [List.find?_cons, h, hp a]
    · simp [List.find?_cons, h, hp a, ih]

/-- Auxiliary: an `add_need` call (with any arguments) keeps an
existing need for a port present, with identity, port and flags
untouched. -/
theorem add_need_preserves_existing (c : NeedsContainer) (port : Nat) (n : Need)
    (h : c.find port = some n) (qport : Nat) (qnow : Int) (qf qs : Bool) :
    ∃ n2, (c.add_need qport qnow qf qs).find port = some n2 ∧
      n2.nid = n.nid ∧ n2.port = n.port ∧ n2.fast = n.fast ∧ n2.stable = n.stable := by
  unfold NeedsContainer.add_need
  by_cases hany : c.needs.any (fun m => m.port = qport)
  · simp only [hany, if_true]
    refine ⟨if n.port = qport then (if n.has_expired qnow then n.reset_expiration qnow else n) else n,
      ?_, ?_⟩
    · show (_ : NeedsContainer).find port = _
      unfold NeedsContainer.find at h ⊢
      rw [find?_port_map_of_preserves _ _ _ ?_]
      · rw [h]; rfl
      · intro m
        split
        · split <;> simp [Need.reset_expiration]
        · rfl
    · split
      · split <;> simp [Need.reset_expiration]
      · simp
  · simp only [hany, if_false]
    refine ⟨n, ?_, rfl, rfl, rfl, rfl⟩
    show (_ : NeedsContainer).find port = _
    unfold NeedsContainer.find at h ⊢
    simp [List.find?_append, h]

/-- C6: `add_need` on a present port never changes the stored flags
(also across any further sequence of calls) and resets expiration iff
the stored need has expired at `now`; on an absent port it inserts a
fresh need expiring 60 minutes later. -/
theorem C6_add_need_flag_permanence_and_expiry
    (c : NeedsContainer) (port : Nat) (now : Int) (fast stable : Bool) :
    (c.find port = none →
       (c.add_need port now fast stable).find port
         = some (Need.mk_new c.fresh port now fast stable))
    ∧ (∀ n, c.find port = some n →
       (c.add_need port now fast stable).find port
         = some { n with expires :=
             if n.expires ≤ now then now + PORT_NEED_LIFETIME else n.expires })
    ∧ (∀ (calls : List (Nat × Int × Bool × Bool)) (n : Need), c.find port = some n →
       ∃ n2, (c.apply_add_needs calls).find port = some n2
         ∧ n2.fast = n.fast ∧ n2.stable = n.stable) := by
  refine ⟨?_, ?_, ?_⟩
  · intro hnone
    unfold NeedsContainer.add_need
    have hany : c.needs.any (fun m => m.port = port) = false := by
      unfold NeedsContainer.find at hnone
      rw [List.find?_eq_none] at hnone
      simp only [List.any_eq_false]
      intro m hm
      simpa using hnone m hm
    simp only [hany, Bool.false_eq_true, if_false]
    show (_ : NeedsContainer).find port = _
    unfold NeedsContainer.find at hnone ⊢
    simp [List.find?_append, hnone, Need.mk_new]
  · intro n hn
    unfold NeedsContainer.add_need
    have hany : c.needs.any (fun m => m.port = port) = true := by
      simp only [List.any_eq_true]
      exact ⟨n, List.mem_of_find?_eq_some hn, by
        have := List.find?_some hn; simpa using this⟩
    simp only [hany, if_true]
    show (_ : NeedsContainer).find port = _
    unfold NeedsContainer.find at hn ⊢
    rw [find?_port_map_of_preserves _ _ _ ?_]
    · rw [hn]
      have hport : n.port = port := by
        have := List.find?_some hn; simpa using this
      simp only [hport, if_true, Option.map_some]
      unfold Need.has_expired Need.reset_expiration
      by_cases hexp : n.expires ≤ now
      · simp [hport, hexp]
      · simp [hexp, ← hport]
    · intro m
      split
      · split <;> simp [Need.reset_expiration]
      · rfl
  · intro calls
    induction calls generalizing c with
    | nil =>
      intro n hn
      exact ⟨n, hn, rfl, rfl⟩
    | cons q rest ih =>
      intro n hn
      obtain ⟨n1, hfind, _, _, hf, hs⟩ :=
        add_need_preserves_existing c port n hn q.1 q.2.1 q.2.2.1 q.2.2.2
      obtain ⟨n2, hfind2, hf2, hs2⟩ := ih _ n1 hfind
      exact ⟨n2, hfind2, by rw [hf2, hf], by rw [hs2, hs]⟩

/-- Witness for C6: concrete evaluation on a freshly inserted need for
port 443, then a later conflicting call that must not change flags. -/
theorem C6_add_need_witness :
    ((NeedsContainer.mk_new.add_need 443 0 true false).find 443
        = some (Need.mk_new 0 443 0 true false))
    ∧ ∃ n2, ((NeedsContainer.mk_new.add_need 443 0 true false).apply_add_needs
          [(443, minutes 90, false, true)]).find 443 = some n2
        ∧ n2.fast = true ∧ n2.stable = false := by
  constructor
  · exact (C6_add_need_flag_permanence_and_expiry NeedsContainer.mk_new 443 0 true false).1
      (by decide)
  · exact (C6_add_need_flag_permanence_and_expiry
        (NeedsContainer.mk_new.add_need 443 0 true false) 443 0 true false).2.2
      [(443, minutes 90, false, true)] (Need.mk_new 0 443 0 true false) (by decide)

/-- C3 (code bug): on a non-stopped chain with
`delay < not_after - current_time`, `get_next` emits at the old
`current_time` but then leaves `current_time` unchanged instead of
advancing it by `delay` (contradicting the function's own step-4
comment `set time of the next event (current time + delay)`).  The
clamping branch itself behaves as claimed.  Concrete run: state
`("start", t=0, running)`, `not_after` one second, sampled delay 10 µs:
the new `current_time` is `0`, not `10`; with `not_after = 5` µs the
time is clamped to `5` and the chain stops. -/
theorem C3_get_next_missing_time_advance :
    (markov_get_next ⟨"start", 0, false⟩ 1000000 "s1"
        Emission.GeneratePacketFromServerToClient 10)
      = (⟨"s1", 0, false⟩, 0, Emission.GeneratePacketFromServerToClient)
    ∧ (markov_get_next ⟨"start", 0, false⟩ 1000000 "s1"
        Emission.GeneratePacketFromServerToClient 10).1.current_time ≠ 0 + 10
    ∧ (markov_get_next ⟨"start", 0, false⟩ 5 "s1"
        Emission.GeneratePacketFromServerToClient 10)
      = (⟨"s1", 5, true⟩, 0, Emission.GeneratePacketFromServerToClient) := by
  refine ⟨rfl, by decide, rfl⟩

/-- Auxiliary: case 3a with guards scarce satisfies the weight law. -/
theorem case3aG_ok (G M E D : Int) (hG : 1 ≤ G) (hM : 1 ≤ M) (hE : 1 ≤ E) (hD : 1 ≤ D) :
    bww_ok { Wgg := weightscale, Wgd := weightscale, Wmg := 0
           , Wme := if E < M then 0 else (weightscale * (E - M)).tdiv (2 * E)
           , Wmd := 0
           , Wee := weightscale -
               (if E < M then 0 else (weightscale * (E - M)).tdiv (2 * E))
           , Wed := 0 } := by
  have hW : weightscale = 10000 := rfl
  by_cases hEM : E < M
  · unfold bww_ok
    dsimp only
    rw [if_pos hEM, hW]
    omega
  · have hm0 : (0 : Int) ≤ weightscale * (E - M) := by rw [hW]; omega
    have hmB : weightscale * (E - M) ≤ weightscale * (2 * E) := by rw [hW]; omega
    obtain ⟨qm, hqm, h0, h1⟩ :
        ∃ q : Int, q = (weightscale * (E - M)).tdiv (2 * E) ∧ 0 ≤ q ∧ q ≤ weightscale :=
      ⟨_, rfl, tdiv_nn _ _ hm0 (by omega), tdiv_le_bound _ _ _ hm0 (by omega) hmB⟩
    unfold bww_ok
    dsimp only
    rw [if_neg hEM, ← hqm]
    rw [hW] at h1 ⊢
    omega

/-- Auxiliary: case 3a with exits scarce satisfies the weight law. -/
theorem case3aE_ok (G M E D : Int) (hG : 1 ≤ G) (hM : 1 ≤ M) (hE : 1 ≤ E) (hD : 1 ≤ D) :
    bww_ok { Wgg := weightscale -
               (if G < M then 0 else (weightscale * (G - M)).tdiv (2 * G))
           , Wgd := 0
           , Wmg := if G < M then 0 else (weightscale * (G - M)).tdiv (2 * G)
           , Wme := 0, Wmd := 0, Wee := weightscale, Wed := weightscale } := by
  have hW : weightscale = 10000 := rfl
  by_cases hGM : G < M
  · unfold bww_ok
    dsimp only
    rw [if_pos hGM, hW]
    omega
  · have hm0 : (0 : Int) ≤ weightscale * (G - M) := by rw [hW]; omega
    have hmB : weightscale * (G - M) ≤ weightscale * (2 * G) := by rw [hW]; omega
    obtain ⟨qm, hqm, h0, h1⟩ :
        ∃ q : Int, q = (weightscale * (G - M)).tdiv (2 * G) ∧ 0 ≤ q ∧ q ≤ weightscale :=
      ⟨_, rfl, tdiv_nn _ _ hm0 (by omega), tdiv_le_bound _ _ _ hm0 (by omega) hmB⟩
    unfold bww_ok
    dsimp only
    rw [if_neg hGM, ← hqm]
    rw [hW] at h1 ⊢
    omega

/-- Auxiliary: case 3b with guards scarce satisfies the weight law. -/
theorem case3bG_ok (G M E D : Int) (hG : 1 ≤ G) (hM : 1 ≤ M) (hE : 1 ≤ E) (hD : 1 ≤ D)
    (hn1 : ¬(3 * E ≥ E + G + D + M ∧ 3 * G ≥ E + G + D + M))
    (hn2 : ¬(3 * E < E + G + D + M ∧ 3 * G < E + G + D + M))
    (hn3 : ¬(3 * (min E G + D) < E + G + D + M))
    (hc : G < E) :
    bww_ok { Wgg := weightscale
           , Wgd := (weightscale * (D - 2 * G + E + M)).tdiv (3 * D)
           , Wmg := 0
           , Wme := weightscale - (weightscale * (E + M)).tdiv (2 * E)
           , Wmd := (weightscale -
               (weightscale * (D - 2 * G + E + M)).tdiv (3 * D)).tdiv 2
           , Wee := (weightscale * (E + M)).tdiv (2 * E)
           , Wed := (weightscale -
               (weightscale * (D - 2 * G + E + M)).tdiv (3 * D)).tdiv 2 } := by
  have hW : weightscale = 10000 := rfl
  have hminEG : min E G = G := by omega
  rw [hminEG] at hn3
  -- exactly one of E, G is scarce here; with G < E it must be G,
  -- so 3*G < T ≤ 3*E, and M ≤ E follows
  have hGscarce : 3 * G < E + G + D + M ∧ 3 * E ≥ E + G + D + M := by omega
  have hME : M ≤ E := by omega
  have hd0 : (0 : Int) ≤ weightscale * (D - 2 * G + E + M) := by rw [hW]; omega
  have hdB : weightscale * (D - 2 * G + E + M) ≤ weightscale * (3 * D) := by rw [hW]; omega
  obtain ⟨qd, hqd, hd1, hd2⟩ :
      ∃ q : Int, q = (weightscale * (D - 2 * G + E + M)).tdiv (3 * D)
        ∧ 0 ≤ q ∧ q ≤ weightscale :=
    ⟨_, rfl, tdiv_nn _ _ hd0 (by omega), tdiv_le_bound _ _ _ hd0 (by omega) hdB⟩
  have he0 : (0 : Int) ≤ weightscale * (E + M) := by rw [hW]; omega
  have heB : weightscale * (E + M) ≤ weightscale * (2 * E) := by rw [hW]; omega
  obtain ⟨qe, hqe, he1, he2⟩ :
      ∃ q : Int, q = (weightscale * (E + M)).tdiv (2 * E) ∧ 0 ≤ q ∧ q ≤ weightscale :=
    ⟨_, rfl, tdiv_nn _ _ he0 (by omega), tdiv_le_bound _ _ _ he0 (by omega) heB⟩
  have hx0 : (0 : Int) ≤ weightscale - qd := by rw [hW]; rw [hW] at hd2; omega
  obtain ⟨hh1, hh2⟩ := tdiv_two_bounds (weightscale - qd) hx0
  obtain ⟨qh, hqh, hq1, hq2⟩ :
      ∃ q : Int, q = (weightscale - qd).tdiv 2
        ∧ weightscale - qd - 1 ≤ 2 * q ∧ 2 * q ≤ weightscale - qd :=
    ⟨_, rfl, hh1, hh2⟩
  unfold bww_ok
  dsimp only
  rw [← hqd, ← hqe, ← hqh]
  rw [hW] at hd2 he2 hq1 hq2 ⊢
  omega

/-- Auxiliary: case 3b with exits scarce satisfies the weight law. -/
theorem case3bE_ok (G M E D : Int) (hG : 1 ≤ G) (hM : 1 ≤ M) (hE : 1 ≤ E) (hD : 1 ≤ D)
    (hn1 : ¬(3 * E ≥ E + G + D + M ∧ 3 * G ≥ E + G + D + M))
    (hn2 : ¬(3 * E < E + G + D + M ∧ 3 * G < E + G + D + M))
    (hn3 : ¬(3 * (min E G + D) < E + G + D + M))
    (hc : ¬(G < E)) :
    bww_ok { Wgg := (weightscale * (G + M)).tdiv (2 * G)
           , Wgd := (weightscale -
               (weightscale * (D - 2 * E + G + M)).tdiv (3 * D)).tdiv 2
           , Wmg := weightscale - (weightscale * (G + M)).tdiv (2 * G)
           , Wme := 0
           , Wmd := (weightscale -
               (weightscale * (D - 2 * E + G + M)).tdiv (3 * D)).tdiv 2
           , Wee := weightscale
           , Wed := (weightscale * (D - 2 * E + G + M)).tdiv (3 * D) } := by
  have hW : weightscale = 10000 := rfl
  have hminEG : min E G = E := by omega
  rw [hminEG] at hn3
  have hEscarce : 3 * E < E + G + D + M ∧ 3 * G ≥ E + G + D + M := by omega
  have hMG : M ≤ G := by omega
  have hd0 : (0 : Int) ≤ weightscale * (D - 2 * E + G + M) := by rw [hW]; omega
  have hdB : weightscale * (D - 2 * E + G + M) ≤ weightscale * (3 * D) := by rw [hW]; omega
  obtain ⟨qd, hqd, hd1, hd2⟩ :
      ∃ q : Int, q = (weightscale * (D - 2 * E + G + M)).tdiv (3 * D)
        ∧ 0 ≤ q ∧ q ≤ weightscale :=
    ⟨_, rfl, tdiv_nn _ _ hd0 (by omega), tdiv_le_bound _ _ _ hd0 (by omega) hdB⟩
  have hg0 : (0 : Int) ≤ weightscale * (G + M) := by rw [hW]; omega
  have hgB : weightscale * (G + M) ≤ weightscale * (2 * G) := by rw [hW]; omega
  obtain ⟨qg, hqg, hg1, hg2⟩ :
      ∃ q : Int, q = (weightscale * (G + M)).tdiv (2 * G) ∧ 0 ≤ q ∧ q ≤ weightscale :=
    ⟨_, rfl, tdiv_nn _ _ hg0 (by omega), tdiv_le_bound _ _ _ hg0 (by omega) hgB⟩
  have hx0 : (0 : Int) ≤ weightscale - qd := by rw [hW]; rw [hW] at hd2; omega
  obtain ⟨hh1, hh2⟩ := tdiv_two_bounds (weightscale - qd) hx0
  obtain ⟨qh, hqh, hq1, hq2⟩ :
      ∃ q : Int, q = (weightscale - qd).tdiv 2
        ∧ weightscale - qd - 1 ≤ 2 * q ∧ 2 * q ≤ weightscale - qd :=
    ⟨_, rfl, hh1, hh2⟩
  unfold bww_ok
  dsimp only
  rw [← hqd, ← hqg, ← hqh]
  rw [hW] at hd2 hg2 hq1 hq2 ⊢
  omega

/-- Auxiliary: a weight record on which `check_bww` passes, or fails
only `BalanceMid`, satisfies the weight law (the sum and range checks
run before the balance checks). -/
theorem check_bww_ok (G M E D : Int) (v : BwWeights)
    (h : check_bww_ideal v G M E D = none
       ∨ check_bww_ideal v G M E D = some BwwError.BalanceMid) :
    bww_ok v := by
  unfold check_bww_ideal at h
  obtain ⟨hs1, hs2, hs3, hr⟩ := check_pass_props _ _ _ _ _ _ _ _ _ _ _ _ _ _ _ h
  obtain ⟨h1, h2⟩ := check_eq_true _ _ _ hs1
  obtain ⟨h3, h4⟩ := check_eq_true _ _ _ hs2
  obtain ⟨h5, h6⟩ := check_eq_true _ _ _ hs3
  obtain ⟨hgg, hgd, hmg, hme, hmd, hed, hee⟩ := check_range_true _ _ _ _ _ _ _ _ hr
  exact ⟨hgg, hgd, hmg, hme, hmd, hee, hed, ⟨h1, h2⟩, ⟨h3, h4⟩, ⟨h5, h6⟩⟩

/-- Auxiliary: case 1 of the weight computation satisfies the weight
law. -/
theorem case1_ok (G M E D : Int) (hG : 1 ≤ G) (hM : 1 ≤ M) (hE : 1 ≤ E) (hD : 1 ≤ D)
    (h1 : 3 * E ≥ E + G + D + M) (h2 : 3 * G ≥ E + G + D + M) :
    bww_ok { Wgg := weightscale - (weightscale * (2 * G - E - M)).tdiv (3 * G)
           , Wgd := weightscale.tdiv 3
           , Wmg := (weightscale * (2 * G - E - M)).tdiv (3 * G)
           , Wme := weightscale - (weightscale * (E + G + M)).tdiv (3 * E)
           , Wmd := weightscale.tdiv 3
           , Wee := (weightscale * (E + G + M)).tdiv (3 * E)
           , Wed := weightscale.tdiv 3 } := by
  have hW : weightscale = 10000 := rfl
  have h3 : weightscale.tdiv 3 = 3333 := by decide
  have he0 : (0 : Int) ≤ weightscale * (E + G + M) := by rw [hW]; omega
  have heB : weightscale * (E + G + M) ≤ weightscale * (3 * E) := by rw [hW]; omega
  have hg0 : (0 : Int) ≤ weightscale * (2 * G - E - M) := by rw [hW]; omega
  have hgB : weightscale * (2 * G - E - M) ≤ weightscale * (3 * G) := by rw [hW]; omega
  obtain ⟨qe, hqe, hee0, hee1⟩ :
      ∃ q : Int, q = (weightscale * (E + G + M)).tdiv (3 * E)
        ∧ 0 ≤ q ∧ q ≤ weightscale :=
    ⟨_, rfl, tdiv_nn _ _ he0 (by omega), tdiv_le_bound _ _ _ he0 (by omega) heB⟩
  obtain ⟨qg, hqg, hmg0, hmg1⟩ :
      ∃ q : Int, q = (weightscale * (2 * G - E - M)).tdiv (3 * G)
        ∧ 0 ≤ q ∧ q ≤ weightscale :=
    ⟨_, rfl, tdiv_nn _ _ hg0 (by omega), tdiv_le_bound _ _ _ hg0 (by omega) hgB⟩
  unfold bww_ok
  dsimp only
  rw [h3, ← hqe, ← hqg]
  rw [hW] at hee1 hmg1 ⊢
  omega

/-- Auxiliary: case 2b always yields weights satisfying the weight law
(when it does not panic), because the final check only tolerates
`BalanceMid`. -/
theorem case2b_ok (G M E D : Int) (w : BwWeights)
    (h : compute_weights_case2b_ideal G M E D = some w) : bww_ok w := by
  simp only [compute_weights_case2b_ideal] at h
  generalize (if (check_bww_ideal (bww_case2b1_ideal G M E D) G M E D).isSome = true
      then bww_case2b2_ideal G M E D else bww_case2b1_ideal G M E D) = v at h
  split at h
  · rename_i hcond
    cases Option.some.inj h
    exact check_bww_ok _ _ _ _ _ hcond
  · simp at h

/-- Auxiliary: whenever the three-case weight computation returns
without panicking (totals at least 1, as the initialization
guarantees), the resulting weights satisfy the weight law. -/
theorem compute_weights_ok (G M E D : Int) (hG : 1 ≤ G) (hM : 1 ≤ M) (hE : 1 ≤ E)
    (hD : 1 ≤ D) (w : BwWeights) (h : compute_weights_ideal G M E D = some w) : bww_ok w := by
  simp only [compute_weights_ideal] at h
  split at h
  · rename_i hc1
    cases Option.some.inj h
    exact case1_ok G M E D hG hM hE hD hc1.1 hc1.2
  · rename_i hn1
    split at h
    · rename_i hc2
      split at h
      · rename_i hc3
        split at h
        · cases Option.some.inj h
          unfold bww_ok
          decide
        · cases Option.some.inj h
          unfold bww_ok
          decide
      · exact case2b_ok G M E D w h
    · rename_i hn2
      split at h
      · rename_i hc5
        split at h
        · cases Option.some.inj h
          exact case3aG_ok G M E D hG hM hE hD
        · cases Option.some.inj h
          exact case3aE_ok G M E D hG hM hE hD
      · rename_i hn3
        split at h
        · rename_i hc6
          cases Option.some.inj h
          exact case3bG_ok G M E D hG hM hE hD hn1 hn2 hn3 hc6
        · rename_i hc6
          cases Option.some.inj h
          exact case3bE_ok G M E D hG hM hE hD hn1 hn2 hn3 hc6

/-- Auxiliary: casting a `u64` below `2^63` to `i64` is the identity
(and in particular nonnegative). -/
theorem i64_of_u64_nonneg (n : Nat) (h : n < 2 ^ 63) : 0 ≤ i64_of_u64 n := by
  unfold i64_of_u64
  have hm : n % 2 ^ 64 = n := Nat.mod_eq_of_lt (by omega)
  rw [hm]
  split
  · exact Int.natCast_nonneg n
  · omega

/-- Auxiliary: the four running totals stay at least 1 along the
totals loop, provided every relay's bandwidth weight fits `i64`. -/
theorem bw_totals_aux_ge_one (relays : List Relay) :
    ∀ acc : Int × Int × Int × Int,
      1 ≤ acc.1 → 1 ≤ acc.2.1 → 1 ≤ acc.2.2.1 → 1 ≤ acc.2.2.2 →
      (∀ r ∈ relays, ∀ b, r.bandwidth_weight = some b → b < 2 ^ 63) →
      ∀ res, bw_totals_aux_ideal acc relays = some res →
        1 ≤ res.1 ∧ 1 ≤ res.2.1 ∧ 1 ≤ res.2.2.1 ∧ 1 ≤ res.2.2.2 := by
  induction relays with
  | nil =>
    intro acc h1 h2 h3 h4 _ res h
    cases Option.some.inj h
    exact ⟨h1, h2, h3, h4⟩
  | cons r rest ih =>
    intro acc h1 h2 h3 h4 hbw res h
    unfold bw_totals_aux_ideal at h
    cases hf : r.flags with
    | none =>
      rw [hf] at h
      cases hbv : r.bandwidth_weight <;> rw [hbv] at h <;> exact absurd h (by simp)
    | some flags =>
      rw [hf] at h
      cases hbv : r.bandwidth_weight with
      | none => rw [hbv] at h; exact absurd h (by simp)
      | some bw =>
        rw [hbv] at h
        have hbwi : 0 ≤ i64_of_u64 bw :=
          i64_of_u64_nonneg bw (hbw r (List.mem_cons_self r rest) bw hbv)
        refine ih
          (if (flags.contains Flag.Exit && !flags.contains Flag.BadExit)
              && flags.contains Flag.Guard then
            (acc.1, acc.2.1, acc.2.2.1 + i64_of_u64 bw, acc.2.2.2)
          else if flags.contains Flag.Exit && !flags.contains Flag.BadExit then
            (acc.1 + i64_of_u64 bw, acc.2.1, acc.2.2.1, acc.2.2.2)
          else if flags.contains Flag.Guard then
            (acc.1, acc.2.1 + i64_of_u64 bw, acc.2.2.1, acc.2.2.2)
          else
            (acc.1, acc.2.1, acc.2.2.1, acc.2.2.2 + i64_of_u64 bw))
          ?_ ?_ ?_ ?_ (fun r2 hr2 => hbw r2 (List.mem_cons_of_mem r hr2)) res h
        all_goals split_ifs <;> dsimp only <;> omega

/-- Auxiliary: casting an `i64` in `[0, weightscale]` to `u64` keeps it
at most 10000. -/
theorem u64_small (v : Int) (h0 : 0 ≤ v) (h1 : v ≤ weightscale) :
    u64_of_i64 v ≤ 10000 := by
  unfold u64_of_i64
  have hW : weightscale = 10000 := rfl
  rw [hW] at h1
  rw [Int.emod_eq_of_lt h0 (by omega)]
  omega

/-- Auxiliary: casting an `i64` in `[0, weightscale]` to `u64` and back
to the integers is the identity. -/
theorem u64_cast (v : Int) (h0 : 0 ≤ v) (h1 : v ≤ weightscale) :
    ((u64_of_i64 v : Nat) : Int) = v := by
  unfold u64_of_i64
  have hW : weightscale = 10000 := rfl
  rw [hW] at h1
  rw [Int.emod_eq_of_lt h0 (by omega)]
  omega

/-- Auxiliary: `i64` wrapping is the identity inside the `i64` range. -/
theorem wrap64_eq_self (v : Int) (h : -(2 ^ 63) ≤ v ∧ v < 2 ^ 63) : wrap64 v = v := by
  unfold wrap64
  omega

/-- Auxiliary: casting a `u64` below `2^63` to `i64` is the identity. -/
theorem i64_of_u64_eq (n : Nat) (h : n < 2 ^ 63) : i64_of_u64 n = (n : Int) := by
  unfold i64_of_u64
  have hm : n % 2 ^ 64 = n := Nat.mod_eq_of_lt (by omega)
  rw [hm, if_pos h]

/-- Auxiliary: truncating division by a positive divisor never grows
the magnitude. -/
theorem tdiv_mag (a b N : Int) (hb : 1 ≤ b) (ha1 : -N ≤ a) (ha2 : a ≤ N) :
    -N ≤ a.tdiv b ∧ a.tdiv b ≤ N := by
  have hN : 0 ≤ N := by omega
  rcases le_or_lt 0 a with hpos | hneg
  · have h0 : 0 ≤ a.tdiv b := tdiv_nn a b hpos (by omega)
    have h1 : a.tdiv b ≤ a :=
      tdiv_le_bound a b a hpos (by omega)
        (by nlinarith [mul_nonneg hpos (by omega : (0 : Int) ≤ b - 1)])
    constructor <;> omega
  · have hna : 0 ≤ -a := by omega
    have h0 : 0 ≤ (-a).tdiv b := tdiv_nn _ b hna (by omega)
    have h1 : (-a).tdiv b ≤ -a :=
      tdiv_le_bound _ b (-a) hna (by omega)
        (by nlinarith [mul_nonneg hna (by omega : (0 : Int) ≤ b - 1)])
    have hneg2 : (-a).tdiv b = -(a.tdiv b) := Int.neg_tdiv a b
    constructor <;> omega

/-- Auxiliary: range of a product from ranges of the factors (second
factor nonnegative). -/
theorem mul_range (x y Xb Yb : Int) (hx1 : -Xb ≤ x) (hx2 : x ≤ Xb)
    (hy1 : 0 ≤ y) (hy2 : y ≤ Yb) :
    -(Xb * Yb) ≤ x * y ∧ x * y ≤ Xb * Yb := by
  have hXb : 0 ≤ Xb := by omega
  constructor
  · nlinarith [mul_nonneg (by omega : (0 : Int) ≤ Xb + x) hy1,
      mul_nonneg hXb (by omega : (0 : Int) ≤ Yb - y)]
  · nlinarith [mul_nonneg (by omega : (0 : Int) ≤ Xb - x) hy1,
      mul_nonneg hXb (by omega : (0 : Int) ≤ Yb - y)]

/-- Auxiliary: the wrapped and idealized `check_eq` agree for arguments
below `2^62`. -/
theorem check_eq_agree (a b margin : Int)
    (ha1 : -(2 ^ 62) < a) (ha2 : a < 2 ^ 62) (hb1 : -(2 ^ 62) < b) (hb2 : b < 2 ^ 62) :
    check_eq a b margin = check_eq_ideal a b margin := by
  unfold check_eq check_eq_ideal
  rw [wrap64_eq_self (a - b) (by omega), wrap64_eq_self (b - a) (by omega)]

/-- Auxiliary: while the accumulated totals plus the remaining
bandwidth stay below the bound, the wrapped totals loop agrees with the
idealized one, the totals stay at least 1 and their sum stays below
the bound. -/
theorem bw_totals_aux_agree (relays : List Relay) :
    ∀ acc : Int × Int × Int × Int,
      1 ≤ acc.1 → 1 ≤ acc.2.1 → 1 ≤ acc.2.2.1 → 1 ≤ acc.2.2.2 →
      acc.1 + acc.2.1 + acc.2.2.1 + acc.2.2.2 + (total_bw relays : Int) ≤ 2 ^ 21 + 4 →
      bw_totals_aux acc relays = bw_totals_aux_ideal acc relays
      ∧ ∀ res, bw_totals_aux_ideal acc relays = some res →
          1 ≤ res.1 ∧ 1 ≤ res.2.1 ∧ 1 ≤ res.2.2.1 ∧ 1 ≤ res.2.2.2
          ∧ res.1 + res.2.1 + res.2.2.1 + res.2.2.2 ≤ 2 ^ 21 + 4 := by
  induction relays with
  | nil =>
    intro acc h1 h2 h3 h4 hb
    rw [show ((total_bw [] : Nat) : Int) = 0 from rfl] at hb
    refine ⟨rfl, ?_⟩
    intro res h
    cases Option.some.inj h
    exact ⟨h1, h2, h3, h4, by omega⟩
  | cons r rest ih =>
    intro acc h1 h2 h3 h4 hb
    rw [show total_bw (r :: rest) = r.bandwidth_weight.getD 0 + total_bw rest from rfl] at hb
    push_cast at hb
    cases hf : r.flags with
    | none =>
      have hw : bw_totals_aux acc (r :: rest) = none := by
        unfold bw_totals_aux
        rw [hf]
      have hi : bw_totals_aux_ideal acc (r :: rest) = none := by
        unfold bw_totals_aux_ideal
        rw [hf]
      rw [hw, hi]
      exact ⟨rfl, fun res h => absurd h (by simp)⟩
    | some flags =>
      cases hbv : r.bandwidth_weight with
      | none =>
        have hw : bw_totals_aux acc (r :: rest) = none := by
          unfold bw_totals_aux
          rw [hf, hbv]
        have hi : bw_totals_aux_ideal acc (r :: rest) = none := by
          unfold bw_totals_aux_ideal
          rw [hf, hbv]
        rw [hw, hi]
        exact ⟨rfl, fun res h => absurd h (by simp)⟩
      | some bw =>
        rw [hbv] at hb
        simp only [Option.getD_some] at hb
        have hrest0 : (0 : Int) ≤ (total_bw rest : Int) := Int.natCast_nonneg _
        have hbwN : bw < 2 ^ 63 := by omega
        have hcast := i64_of_u64_eq bw hbwN
        simp only [bw_totals_aux, bw_totals_aux_ideal, hf, hbv, hcast]
        by_cases hc1 : ((flags.contains Flag.Exit && !flags.contains Flag.BadExit)
            && flags.contains Flag.Guard) = true
        · simp only [hc1, if_true]
          rw [wrap64_eq_self (acc.2.2.1 + (bw : Int)) (by omega)]
          exact ih (acc.1, acc.2.1, acc.2.2.1 + (bw : Int), acc.2.2.2)
            h1 h2 (by dsimp only; omega) h4 (by dsimp only; omega)
        · simp only [hc1, Bool.false_eq_true, if_false]
          by_cases hc2 : (flags.contains Flag.Exit && !flags.contains Flag.BadExit) = true
          · simp only [hc2, if_true]
            rw [wrap64_eq_self (acc.1 + (bw : Int)) (by omega)]
            exact ih (acc.1 + (bw : Int), acc.2.1, acc.2.2.1, acc.2.2.2)
              (by dsimp only; omega) h2 h3 h4 (by dsimp only; omega)
          · simp only [hc2, Bool.false_eq_true, if_false]
            by_cases hc3 : flags.contains Flag.Guard = true
            · simp only [hc3, if_true]
              rw [wrap64_eq_self (acc.2.1 + (bw : Int)) (by omega)]
              exact ih (acc.1, acc.2.1 + (bw : Int), acc.2.2.1, acc.2.2.2)
                h1 (by dsimp only; omega) h3 h4 (by dsimp only; omega)
            · simp only [hc3, Bool.false_eq_true, if_false]
              rw [wrap64_eq_self (acc.2.2.2 + (bw : Int)) (by omega)]
              exact ih (acc.1, acc.2.1, acc.2.2.1, acc.2.2.2 + (bw : Int))
                h1 h2 h3 (by dsimp only; omega) (by dsimp only; omega)

/-- Auxiliary: under the bandwidth-sum bound the wrapped `bw_totals`
agrees with the idealized loop, whose totals are at least 1 and sum to
at most `2^21 + 4`. -/
theorem bw_totals_agree (relays : List Relay)
    (h : (total_bw relays : Int) ≤ 2 ^ 21) :
    bw_totals relays = bw_totals_aux_ideal (1, 1, 1, 1) relays
    ∧ ∀ res, bw_totals_aux_ideal (1, 1, 1, 1) relays = some res →
        1 ≤ res.1 ∧ 1 ≤ res.2.1 ∧ 1 ≤ res.2.2.1 ∧ 1 ≤ res.2.2.2
        ∧ res.1 + res.2.1 + res.2.2.1 + res.2.2.2 ≤ 2 ^ 21 + 4 :=
  bw_totals_aux_agree relays (1, 1, 1, 1) (by norm_num) (by norm_num) (by norm_num)
    (by norm_num) (by dsimp only; omega)

/-- Auxiliary: under the totals bound, the wrapped case 2b1 agrees with
the idealized one (no intermediate leaves the `i64` range). -/
theorem bww_case2b1_agree (G M E D : Int) (hG : 1 ≤ G) (hM : 1 ≤ M) (hE : 1 ≤ E)
    (hD : 1 ≤ D) (hT : E + G + D + M ≤ 2 ^ 21 + 4) :
    bww_case2b1 G M E D = bww_case2b1_ideal G M E D := by
  simp only [bww_case2b1, bww_case2b1_ideal]
  rw [wrap64_eq_self (E - G) (by omega),
    wrap64_eq_self (E - G + M) (by omega),
    wrap64_eq_self (weightscale * (E - G + M)) (by unfold weightscale; omega),
    wrap64_eq_self (2 * E) (by omega),
    wrap64_eq_self (D - 2 * E) (by omega),
    wrap64_eq_self (4 * G) (by omega),
    wrap64_eq_self (D - 2 * E + 4 * G) (by omega),
    wrap64_eq_self (2 * M) (by omega),
    wrap64_eq_self (D - 2 * E + 4 * G - 2 * M) (by omega),
    wrap64_eq_self (weightscale * (D - 2 * E + 4 * G - 2 * M)) (by unfold weightscale; omega),
    wrap64_eq_self (3 * D) (by omega),
    wrap64_eq_self (G - M) (by omega),
    wrap64_eq_self (weightscale * (G - M)) (by unfold weightscale; omega)]
  have hWed := tdiv_mag (weightscale * (D - 2 * E + 4 * G - 2 * M)) (3 * D) (10 ^ 11)
    (by omega) (by unfold weightscale; omega) (by unfold weightscale; omega)
  rw [wrap64_eq_self
    (weightscale - (weightscale * (D - 2 * E + 4 * G - 2 * M)).tdiv (3 * D))
    (by unfold weightscale at hWed ⊢; omega)]

/-- Auxiliary: bounds on the idealized case 2b1 weights. -/
theorem bww_case2b1_bounds (G M E D : Int) (hG : 1 ≤ G) (hM : 1 ≤ M) (hE : 1 ≤ E)
    (hD : 1 ≤ D) (hT : E + G + D + M ≤ 2 ^ 21 + 4) :
    bww_bounded (bww_case2b1_ideal G M E D) (2 * 10 ^ 11) := by
  unfold bww_bounded bww_case2b1_ideal
  dsimp only
  have hWed := tdiv_mag (weightscale * (D - 2 * E + 4 * G - 2 * M)) (3 * D) (10 ^ 11)
    (by omega) (by unfold weightscale; omega) (by unfold weightscale; omega)
  have hWgd := tdiv_mag
    (weightscale - (weightscale * (D - 2 * E + 4 * G - 2 * M)).tdiv (3 * D)) 2 (2 * 10 ^ 11)
    (by omega) (by unfold weightscale at hWed ⊢; omega) (by unfold weightscale at hWed ⊢; omega)
  have hWme := tdiv_mag (weightscale * (G - M)) E (10 ^ 11)
    (by omega) (by unfold weightscale; omega) (by unfold weightscale; omega)
  have hWee := tdiv_mag (weightscale * (E - G + M)) E (10 ^ 11)
    (by omega) (by unfold weightscale; omega) (by unfold weightscale; omega)
  unfold weightscale at hWed hWgd hWme hWee ⊢
  omega

/-- Auxiliary: under the totals bound, the wrapped case 2b2/2b3 agrees
with the idealized one. -/
theorem bww_case2b2_agree (G M E D : Int) (hG : 1 ≤ G) (hM : 1 ≤ M) (hE : 1 ≤ E)
    (hD : 1 ≤ D) (hT : E + G + D + M ≤ 2 ^ 21 + 4) :
    bww_case2b2 G M E D = bww_case2b2_ideal G M E D := by
  simp only [bww_case2b2, bww_case2b2_ideal]
  rw [wrap64_eq_self (2 * E) (by omega),
    wrap64_eq_self (D - 2 * E) (by omega),
    wrap64_eq_self (D - 2 * E + G) (by omega),
    wrap64_eq_self (D - 2 * E + G + M) (by omega),
    wrap64_eq_self (weightscale * (D - 2 * E + G + M)) (by unfold weightscale; omega),
    wrap64_eq_self (2 * M) (by omega),
    wrap64_eq_self (D - 2 * M) (by omega),
    wrap64_eq_self (D - 2 * M + G) (by omega),
    wrap64_eq_self (D - 2 * M + G + E) (by omega),
    wrap64_eq_self (weightscale * (D - 2 * M + G + E)) (by unfold weightscale; omega),
    wrap64_eq_self (3 * D) (by omega)]
  have hWed := tdiv_mag (weightscale * (D - 2 * E + G + M)) (3 * D) (10 ^ 11)
    (by omega) (by unfold weightscale; omega) (by unfold weightscale; omega)
  have hWmd := tdiv_mag (weightscale * (D - 2 * M + G + E)) (3 * D) (10 ^ 11)
    (by omega) (by unfold weightscale; omega) (by unfold weightscale; omega)
  by_cases hcl : (weightscale * (D - 2 * M + G + E)).tdiv (3 * D) < 0
  · simp only [if_pos hcl]
    rw [wrap64_eq_self (weightscale - (weightscale * (D - 2 * E + G + M)).tdiv (3 * D))
        (by unfold weightscale at hWed ⊢; omega),
      wrap64_eq_self
        (weightscale - (weightscale * (D - 2 * E + G + M)).tdiv (3 * D) - 0)
        (by unfold weightscale at hWed ⊢; omega)]
  · simp only [if_neg hcl]
    rw [wrap64_eq_self (weightscale - (weightscale * (D - 2 * E + G + M)).tdiv (3 * D))
        (by unfold weightscale at hWed ⊢; omega),
      wrap64_eq_self
        (weightscale - (weightscale * (D - 2 * E + G + M)).tdiv (3 * D)
          - (weightscale * (D - 2 * M + G + E)).tdiv (3 * D))
        (by unfold weightscale at hWed hWmd ⊢; omega)]

/-- Auxiliary: bounds on the idealized case 2b2/2b3 weights. -/
theorem bww_case2b2_bounds (G M E D : Int) (hG : 1 ≤ G) (hM : 1 ≤ M) (hE : 1 ≤ E)
    (hD : 1 ≤ D) (hT : E + G + D + M ≤ 2 ^ 21 + 4) :
    bww_bounded (bww_case2b2_ideal G M E D) (2 * 10 ^ 11) := by
  unfold bww_bounded bww_case2b2_ideal
  dsimp only
  have hWed := tdiv_mag (weightscale * (D - 2 * E + G + M)) (3 * D) (10 ^ 11)
    (by omega) (by unfold weightscale; omega) (by unfold weightscale; omega)
  have hWmd := tdiv_mag (weightscale * (D - 2 * M + G + E)) (3 * D) (10 ^ 11)
    (by omega) (by unfold weightscale; omega) (by unfold weightscale; omega)
  unfold weightscale at hWed hWmd ⊢
  split_ifs <;> omega

/-- Auxiliary: under weight and totals bounds, the wrapped
`check_weights_errors` agrees with the idealized one. -/
theorem check_weights_errors_agree
    (Wgg Wgd Wmg Wme Wmd Wee Wed ws G M E D T margin : Int) (db : Bool)
    (hb : bww_bounded
      { Wgg := Wgg, Wgd := Wgd, Wmg := Wmg, Wme := Wme, Wmd := Wmd, Wee := Wee, Wed := Wed }
      (2 * 10 ^ 11))
    (hws1 : 0 ≤ ws) (hws2 : ws ≤ 10000)
    (hG1 : 0 ≤ G) (hG2 : G ≤ 2 ^ 22) (hM1 : 0 ≤ M) (hM2 : M ≤ 2 ^ 22)
    (hE1 : 0 ≤ E) (hE2 : E ≤ 2 ^ 22) (hD1 : 0 ≤ D) (hD2 : D ≤ 2 ^ 22)
    (hT1 : 0 ≤ T) (hT2 : T ≤ 2 ^ 22) (hm1 : 0 ≤ margin) (hm2 : margin ≤ 10) :
    check_weights_errors Wgg Wgd Wmg Wme Wmd Wee Wed ws G M E D T margin db
      = check_weights_errors_ideal Wgg Wgd Wmg Wme Wmd Wee Wed ws G M E D T margin db := by
  unfold bww_bounded at hb
  dsimp only at hb
  obtain ⟨⟨b1, b2⟩, ⟨b3, b4⟩, ⟨b5, b6⟩, ⟨b7, b8⟩, ⟨b9, b10⟩, ⟨b11, b12⟩, ⟨b13, b14⟩⟩ := hb
  have p1 := mul_range Wgg G (2 * 10 ^ 11) (2 ^ 22) b1 b2 hG1 hG2
  have p2 := mul_range Wgd D (2 * 10 ^ 11) (2 ^ 22) b3 b4 hD1 hD2
  have p3 := mul_range Wee E (2 * 10 ^ 11) (2 ^ 22) b11 b12 hE1 hE2
  have p4 := mul_range Wed D (2 * 10 ^ 11) (2 ^ 22) b13 b14 hD1 hD2
  have p5 := mul_range M ws (2 ^ 22) 10000 (by omega) hM2 hws1 hws2
  have p6 := mul_range Wmd D (2 * 10 ^ 11) (2 ^ 22) b9 b10 hD1 hD2
  have p7 := mul_range Wme E (2 * 10 ^ 11) (2 ^ 22) b7 b8 hE1 hE2
  have p8 := mul_range Wmg G (2 * 10 ^ 11) (2 ^ 22) b5 b6 hG1 hG2
  have p9 := mul_range margin T 10 (2 ^ 22) (by omega) hm2 hT1 hT2
  unfold check_weights_errors check_weights_errors_ideal
  rw [wrap64_eq_self (Wed + Wmd) (by omega),
    wrap64_eq_self (Wed + Wmd + Wgd) (by omega),
    wrap64_eq_self (Wmg + Wgg) (by omega),
    wrap64_eq_self (Wme + Wee) (by omega),
    check_eq_agree (Wed + Wmd + Wgd) ws margin (by omega) (by omega) (by omega) (by omega),
    check_eq_agree (Wmg + Wgg) ws margin (by omega) (by omega) (by omega) (by omega),
    check_eq_agree (Wme + Wee) ws margin (by omega) (by omega) (by omega) (by omega),
    wrap64_eq_self (Wgg * G) (by omega),
    wrap64_eq_self (Wgd * D) (by omega),
    wrap64_eq_self (Wgg * G + Wgd * D) (by omega),
    wrap64_eq_self (Wee * E) (by omega),
    wrap64_eq_self (Wed * D) (by omega),
    wrap64_eq_self (Wee * E + Wed * D) (by omega),
    wrap64_eq_self (margin * T) (by omega),
    wrap64_eq_self (M * ws) (by omega),
    wrap64_eq_self (Wmd * D) (by omega),
    wrap64_eq_self (M * ws + Wmd * D) (by omega),
    wrap64_eq_self (Wme * E) (by omega),
    wrap64_eq_self (M * ws + Wmd * D + Wme * E) (by omega),
    wrap64_eq_self (Wmg * G) (by omega),
    wrap64_eq_self (M * ws + Wmd * D + Wme * E + Wmg * G) (by omega),
    check_eq_agree (Wgg * G + Wgd * D) (Wee * E + Wed * D) ((margin * T).tdiv 3)
      (by omega) (by omega) (by omega) (by omega),
    check_eq_agree (Wgg * G + Wgd * D) (M * ws + Wmd * D + Wme * E + Wmg * G)
      ((margin * T).tdiv 3) (by omega) (by omega) (by omega) (by omega)]

/-- Auxiliary: under weight and totals bounds, the wrapped `check_bww`
agrees with the idealized one. -/
theorem check_bww_agree (w : BwWeights) (G M E D : Int)
    (hb : bww_bounded w (2 * 10 ^ 11))
    (hG : 1 ≤ G) (hM : 1 ≤ M) (hE : 1 ≤ E) (hD : 1 ≤ D)
    (hT : E + G + D + M ≤ 2 ^ 21 + 4) :
    check_bww w G M E D = check_bww_ideal w G M E D := by
  unfold check_bww check_bww_ideal
  rw [wrap64_eq_self (E + G) (by omega),
    wrap64_eq_self (E + G + D) (by omega),
    wrap64_eq_self (E + G + D + M) (by omega)]
  exact check_weights_errors_agree w.Wgg w.Wgd w.Wmg w.Wme w.Wmd w.Wee w.Wed
    weightscale G M E D (E + G + D + M) 10 true hb
    (by unfold weightscale; omega) (by unfold weightscale; omega)
    (by omega) (by omega) (by omega) (by omega) (by omega) (by omega)
    (by omega) (by omega) (by omega) (by omega) (by omega) (by omega)

/-- Auxiliary: under the totals bound, the wrapped case 2b agrees with
the idealized one. -/
theorem compute_weights_case2b_agree (G M E D : Int) (hG : 1 ≤ G) (hM : 1 ≤ M)
    (hE : 1 ≤ E) (hD : 1 ≤ D) (hT : E + G + D + M ≤ 2 ^ 21 + 4) :
    compute_weights_case2b G M E D = compute_weights_case2b_ideal G M E D := by
  simp only [compute_weights_case2b, compute_weights_case2b_ideal]
  rw [bww_case2b1_agree G M E D hG hM hE hD hT,
    check_bww_agree (bww_case2b1_ideal G M E D) G M E D
      (bww_case2b1_bounds G M E D hG hM hE hD hT) hG hM hE hD hT]
  by_cases hs : (check_bww_ideal (bww_case2b1_ideal G M E D) G M E D).isSome = true
  · simp only [if_pos hs]
    rw [bww_case2b2_agree G M E D hG hM hE hD hT,
      check_bww_agree (bww_case2b2_ideal G M E D) G M E D
        (bww_case2b2_bounds G M E D hG hM hE hD hT) hG hM hE hD hT]
  · simp only [if_neg hs]
    rw [check_bww_agree (bww_case2b1_ideal G M E D) G M E D
      (bww_case2b1_bounds G M E D hG hM hE hD hT) hG hM hE hD hT]

/-- Auxiliary: under the totals bound, the wrapped three-case weight
assignment agrees with the idealized one: no `i64` intermediate
wraps. -/
theorem compute_weights_agree (G M E D : Int) (hG : 1 ≤ G) (hM : 1 ≤ M)
    (hE : 1 ≤ E) (hD : 1 ≤ D) (hT : E + G + D + M ≤ 2 ^ 21 + 4) :
    compute_weights G M E D = compute_weights_ideal G M E D := by
  simp only [compute_weights, compute_weights_ideal]
  rw [wrap64_eq_self (E + G) (by omega),
    wrap64_eq_self (E + G + D) (by omega),
    wrap64_eq_self (E + G + D + M) (by omega),
    wrap64_eq_self (3 * E) (by omega),
    wrap64_eq_self (3 * G) (by omega),
    wrap64_eq_self (min E G + D) (by omega),
    wrap64_eq_self (3 * (min E G + D)) (by omega)]
  split_ifs
  · -- case 1
    rw [wrap64_eq_self (E + G + M) (by omega),
      wrap64_eq_self (weightscale * (E + G + M)) (by unfold weightscale; omega),
      wrap64_eq_self (2 * G) (by omega),
      wrap64_eq_self (2 * G - E) (by omega),
      wrap64_eq_self (2 * G - E - M) (by omega),
      wrap64_eq_self (weightscale * (2 * G - E - M)) (by unfold weightscale; omega)]
    have hWee := tdiv_mag (weightscale * (E + G + M)) (3 * E) (10 ^ 11)
      (by omega) (by unfold weightscale; omega) (by unfold weightscale; omega)
    have hWmg := tdiv_mag (weightscale * (2 * G - E - M)) (3 * G) (10 ^ 11)
      (by omega) (by unfold weightscale; omega) (by unfold weightscale; omega)
    rw [wrap64_eq_self (weightscale - (weightscale * (E + G + M)).tdiv (3 * E))
        (by unfold weightscale at hWee ⊢; omega),
      wrap64_eq_self (weightscale - (weightscale * (2 * G - E - M)).tdiv (3 * G))
        (by unfold weightscale at hWmg ⊢; omega)]
  · rfl
  · rfl
  · -- case 2b
    exact compute_weights_case2b_agree G M E D hG hM hE hD hT
  · -- case 3a, G < E, E < M
    rw [wrap64_eq_self (weightscale - 0) (by unfold weightscale; omega)]
  · -- case 3a, G < E, E ≥ M
    rw [wrap64_eq_self (E - M) (by omega),
      wrap64_eq_self (weightscale * (E - M)) (by unfold weightscale; omega),
      wrap64_eq_self (2 * E) (by omega)]
    have hWme := tdiv_mag (weightscale * (E - M)) (2 * E) (10 ^ 11)
      (by omega) (by unfold weightscale; omega) (by unfold weightscale; omega)
    rw [wrap64_eq_self (weightscale - (weightscale * (E - M)).tdiv (2 * E))
      (by unfold weightscale at hWme ⊢; omega)]
  · -- case 3a, G ≥ E, G < M
    rw [wrap64_eq_self (weightscale - 0) (by unfold weightscale; omega)]
  · -- case 3a, G ≥ E, G ≥ M
    rw [wrap64_eq_self (G - M) (by omega),
      wrap64_eq_self (weightscale * (G - M)) (by unfold weightscale; omega),
      wrap64_eq_self (2 * G) (by omega)]
    have hWmg := tdiv_mag (weightscale * (G - M)) (2 * G) (10 ^ 11)
      (by omega) (by unfold weightscale; omega) (by unfold weightscale; omega)
    rw [wrap64_eq_self (weightscale - (weightscale * (G - M)).tdiv (2 * G))
      (by unfold weightscale at hWmg ⊢; omega)]
  · -- case 3b, G < E
    rw [wrap64_eq_self (2 * G) (by omega),
      wrap64_eq_self (D - 2 * G) (by omega),
      wrap64_eq_self (D - 2 * G + E) (by omega),
      wrap64_eq_self (D - 2 * G + E + M) (by omega),
      wrap64_eq_self (weightscale * (D - 2 * G + E + M)) (by unfold weightscale; omega),
      wrap64_eq_self (3 * D) (by omega),
      wrap64_eq_self (E + M) (by omega),
      wrap64_eq_self (weightscale * (E + M)) (by unfold weightscale; omega),
      wrap64_eq_self (2 * E) (by omega)]
    have hWgd := tdiv_mag (weightscale * (D - 2 * G + E + M)) (3 * D) (10 ^ 11)
      (by omega) (by unfold weightscale; omega) (by unfold weightscale; omega)
    have hWee := tdiv_mag (weightscale * (E + M)) (2 * E) (10 ^ 11)
      (by omega) (by unfold weightscale; omega) (by unfold weightscale; omega)
    rw [wrap64_eq_self (weightscale - (weightscale * (D - 2 * G + E + M)).tdiv (3 * D))
        (by unfold weightscale at hWgd ⊢; omega),
      wrap64_eq_self (weightscale - (weightscale * (E + M)).tdiv (2 * E))
        (by unfold weightscale at hWee ⊢; omega)]
  · -- case 3b, G ≥ E
    rw [wrap64_eq_self (2 * E) (by omega),
      wrap64_eq_self (D - 2 * E) (by omega),
      wrap64_eq_self (D - 2 * E + G) (by omega),
      wrap64_eq_self (D - 2 * E + G + M) (by omega),
      wrap64_eq_self (weightscale * (D - 2 * E + G + M)) (by unfold weightscale; omega),
      wrap64_eq_self (3 * D) (by omega),
      wrap64_eq_self (G + M) (by omega),
      wrap64_eq_self (weightscale * (G + M)) (by unfold weightscale; omega),
      wrap64_eq_self (2 * G) (by omega)]
    have hWed := tdiv_mag (weightscale * (D - 2 * E + G + M)) (3 * D) (10 ^ 11)
      (by omega) (by unfold weightscale; omega) (by unfold weightscale; omega)
    have hWgg := tdiv_mag (weightscale * (G + M)) (2 * G) (10 ^ 11)
      (by omega) (by unfold weightscale; omega) (by unfold weightscale; omega)
    rw [wrap64_eq_self (weightscale - (weightscale * (D - 2 * E + G + M)).tdiv (3 * D))
        (by unfold weightscale at hWed ⊢; omega),
      wrap64_eq_self (weightscale - (weightscale * (G + M)).tdiv (2 * G))
        (by unfold weightscale at hWgg ⊢; omega)]

/-- C2 (amended): for every consensus whose relay bandwidth weights sum
to at most `2^21` (so that, by the agreement lemmas above, no `i64`
cast or release-mode wrapping operation of the recomputation leaves
its range — see `wrap_cast_out_of_range` for why some bound is needed)
and on which `recompute_bw_weights` completes, with totals `G, M, E, D`
starting at 1 and incremented by every relay's bandwidth weight,
regardless of the `Running` flag, with `BadExit` excluded from the exit
class, the stored mapping has exactly the 19 keys with
`Wbd=Wmd, Wbe=Wme, Wbg=Wmg, Weg=Wed, Wem=Wee, Wgm=Wgg`, all values in
`[0, 10000]`, and the three sum equations within margin 10. -/
theorem C2_recompute_bw_weights_law (c c2 : Consensus)
    (hbw : total_bw c.relays ≤ 2 ^ 21)
    (h : recompute_bw_weights c = some c2) :
    ∃ m : List (String × Nat), c2.weights = some m
      ∧ m.map Prod.fst = ["Wbd", "Wbe", "Wbg", "Wbm", "Wdb", "Web", "Wed", "Wee",
          "Weg", "Wem", "Wgb", "Wgd", "Wgg", "Wgm", "Wmb", "Wmd", "Wme", "Wmg", "Wmm"]
      ∧ m.lookup "Wbd" = m.lookup "Wmd"
      ∧ m.lookup "Wbe" = m.lookup "Wme"
      ∧ m.lookup "Wbg" = m.lookup "Wmg"
      ∧ m.lookup "Weg" = m.lookup "Wed"
      ∧ m.lookup "Wem" = m.lookup "Wee"
      ∧ m.lookup "Wgm" = m.lookup "Wgg"
      ∧ (∀ p ∈ m, p.2 ≤ 10000)
      ∧ ∃ wgg wgd wmg wme wmd wee wed : Nat,
          m.lookup "Wgg" = some wgg ∧ m.lookup "Wgd" = some wgd
          ∧ m.lookup "Wmg" = some wmg ∧ m.lookup "Wme" = some wme
          ∧ m.lookup "Wmd" = some wmd ∧ m.lookup "Wee" = some wee
          ∧ m.lookup "Wed" = some wed
          ∧ ((wed : Int) + wmd + wgd - 10000 ≤ 10
              ∧ (10000 : Int) - ((wed : Int) + (wmd : Int) + (wgd : Int)) ≤ 10)
          ∧ ((wmg : Int) + wgg - 10000 ≤ 10
              ∧ (10000 : Int) - ((wmg : Int) + (wgg : Int)) ≤ 10)
          ∧ ((wme : Int) + wee - 10000 ≤ 10
              ∧ (10000 : Int) - ((wme : Int) + (wee : Int)) ≤ 10) := by
  unfold recompute_bw_weights at h
  have hbwI : (total_bw c.relays : Int) ≤ 2 ^ 21 := by exact_mod_cast hbw
  obtain ⟨hagree, hprops⟩ := bw_totals_agree c.relays hbwI
  rw [hagree] at h
  cases ht : bw_totals_aux_ideal (1, 1, 1, 1) c.relays with
  | none => rw [ht] at h; exact absurd h (by simp)
  | some t =>
    obtain ⟨e, g, d, m'⟩ := t
    rw [ht] at h
    have h2 : (compute_weights g m' e d).bind
        (fun w => some { c with weights := some (bw_weights_list w) }) = some c2 := h
    cases hw : compute_weights g m' e d with
    | none => rw [hw] at h2; exact absurd h2 (by simp)
    | some w =>
      rw [hw] at h2
      have hc2 : ({ c with weights := some (bw_weights_list w) } : Consensus) = c2 :=
        Option.some.inj h2
      obtain ⟨he1, hg1, hd1, hm1, hsum⟩ := hprops (e, g, d, m') ht
      dsimp only at he1 hg1 hd1 hm1 hsum
      have hwid : compute_weights_ideal g m' e d = some w := by
        rw [← compute_weights_agree g m' e d hg1 hm1 he1 hd1 (by omega)]
        exact hw
      have hok := compute_weights_ok g m' e d hg1 hm1 he1 hd1 w hwid
      obtain ⟨⟨hgg0, hgg1⟩, ⟨hgd0, hgd1⟩, ⟨hmg0, hmg1⟩, ⟨hme0, hme1⟩, ⟨hmd0, hmd1⟩,
        ⟨hee0, hee1⟩, ⟨hed0, hed1⟩, ⟨hsd1, hsd2⟩, ⟨hsg1, hsg2⟩, ⟨hse1, hse2⟩⟩ := hok
      refine ⟨bw_weights_list w, ?_, ?_, ?_, ?_, ?_, ?_, ?_, ?_, ?_, ?_⟩
      · rw [← hc2]
      · rfl
      · rfl
      · rfl
      · rfl
      · rfl
      · rfl
      · rfl
      · intro p hp
        have hws0 : (0 : Int) ≤ weightscale := by decide
        have hws1 : weightscale ≤ weightscale := le_refl _
        simp only [bw_weights_list, List.mem_cons, List.not_mem_nil, or_false] at hp
        rcases hp with rfl | rfl | rfl | rfl | rfl | rfl | rfl | rfl | rfl | rfl | rfl
          | rfl | rfl | rfl | rfl | rfl | rfl | rfl | rfl <;> dsimp only <;>
          first
            | exact u64_small _ hmd0 hmd1
            | exact u64_small _ hme0 hme1
            | exact u64_small _ hmg0 hmg1
            | exact u64_small _ hws0 hws1
            | exact u64_small _ hed0 hed1
            | exact u64_small _ hee0 hee1
            | exact u64_small _ hgd0 hgd1
            | exact u64_small _ hgg0 hgg1
      · refine ⟨u64_of_i64 w.Wgg, u64_of_i64 w.Wgd, u64_of_i64 w.Wmg, u64_of_i64 w.Wme,
          u64_of_i64 w.Wmd, u64_of_i64 w.Wee, u64_of_i64 w.Wed,
          rfl, rfl, rfl, rfl, rfl, rfl, rfl, ?_, ?_, ?_⟩
        · rw [u64_cast _ hed0 hed1, u64_cast _ hmd0 hmd1, u64_cast _ hgd0 hgd1]
          have hW : weightscale = 10000 := rfl
          rw [hW] at hsd1 hsd2
          exact ⟨by omega, by omega⟩
        · rw [u64_cast _ hmg0 hmg1, u64_cast _ hgg0 hgg1]
          have hW : weightscale = 10000 := rfl
          rw [hW] at hsg1 hsg2
          exact ⟨by omega, by omega⟩
        · rw [u64_cast _ hme0 hme1, u64_cast _ hee0 hee1]
          have hW : weightscale = 10000 := rfl
          rw [hW] at hse1 hse2
          exact ⟨by omega, by omega⟩

/-- C2 counterexample: the claim describes the totals as incremented by
each **Running** relay's bandwidth weight, but the source's totals loop
never reads the `Running` flag.  On a consensus holding one single
Guard relay (bandwidth 100) **without** the Running flag, the code
stores `Wgg = 5050` (it counted the relay, `G = 101`), while the
weights recomputed from the claim's Running-filtered totals
(`G = M = E = D = 1`) would store `Wgg = 10000`. -/
theorem C2_running_totals_counterexample :
    ((recompute_bw_weights
        { valid_after := none
        , relays := [{ nickname := none, fingerprint := none, digest := none
                     , flags := some [Flag.Guard], exit_policy := none
                     , bandwidth_weight := some 100 }]
        , weights := none }).bind
      (fun c2 => c2.weights.bind (fun m => m.lookup "Wgg")) = some 5050)
    ∧ ((recompute_bw_weights_claim
        { valid_after := none
        , relays := [{ nickname := none, fingerprint := none, digest := none
                     , flags := some [Flag.Guard], exit_policy := none
                     , bandwidth_weight := some 100 }]
        , weights := none }).bind
      (fun c2 => c2.weights.bind (fun m => m.lookup "Wgg")) = some 10000)
    ∧ (5050 : Nat) ≠ 10000 := by
  refine ⟨by decide, by decide, by decide⟩

/-- Without the bandwidth-sum bound the weight law is false of the
program: a single flagless relay with bandwidth `2^64 - 51` (a legal
`u64`) wraps through `as i64` to `-51`, drives the middle total to
`-50`, completes in case 1, and stores `Wgg` as
`(-160000) as u64 = 2^64 - 160000` — far outside `[0, 10000]`.  This
is why the amended weight law carries the `2^21` bound. -/
theorem wrap_cast_out_of_range :
    ((recompute_bw_weights
        { valid_after := none
        , relays := [{ nickname := none, fingerprint := none, digest := none
                     , flags := some [], exit_policy := none
                     , bandwidth_weight := some (2 ^ 64 - 51) }]
        , weights := none }).bind
      (fun c2 => c2.weights.bind (fun m => m.lookup "Wgg"))
      = some (2 ^ 64 - 160000))
    ∧ ¬ ((2 ^ 64 - 160000 : Nat) ≤ 10000) := by
  refine ⟨by decide, by decide⟩

/-- Witness for C2 (amended): the weight law evaluated on a concrete
consensus (no relays, totals `G = M = E = D = 1`, case 2b). -/
theorem C2_recompute_bw_weights_law_witness :
    ∃ m : List (String × Nat),
      (Consensus.mk none []
          (some (bw_weights_list (BwWeights.mk 10000 3333 0 0 3333 10000 3333)))).weights
        = some m ∧ ∀ p ∈ m, p.2 ≤ 10000 := by
  obtain ⟨m, hm, -, -, -, -, -, -, -, hb, -⟩ :=
    C2_recompute_bw_weights_law (Consensus.mk none [] none)
      (Consensus.mk none []
        (some (bw_weights_list (BwWeights.mk 10000 3333 0 0 3333 10000 3333))))
      (by decide) (by decide)
  exact ⟨m, hm, hb⟩

/-- C9: with both adversary counts absent the adversary has no extra
relays, and `modify_consensus` changes neither the consensus (in
particular not its `weights` field) nor the descriptor list. -/
theorem C9_no_adversary_no_consensus_change (gbw ebw : Option Nat) (c : Consensus)
    (ds : List Descriptor) :
    (Adversary.mk_new none gbw none ebw).extra_relays = []
    ∧ (Adversary.mk_new none gbw none ebw).modify_consensus c ds = some (c, ds) := by
  constructor
  · rfl
  · unfold Adversary.modify_consensus Adversary.mk_new
    simp

/-- C10: every fabricated adversarial guard carries the reject-all
condensed exit policy (allowing no port), every fabricated adversarial
exit carries the accept-all policy (allowing every port); consequently
a circuit whose exit position resolves to an adversarial guard never
passes `supports_stream`'s exit-policy check. -/
theorem C10_adversarial_exit_policies (i w ioff port : Nat) :
    ((make_adversarial_guard i w).1.exit_policy = some CondensedExitPolicy.reject_all
      ∧ ∀ pol, (make_adversarial_guard i w).1.exit_policy = some pol →
          pol.allows_port port = false)
    ∧ ((make_adversarial_exit i ioff w).1.exit_policy = some CondensedExitPolicy.accept_all
      ∧ ∀ pol, (make_adversarial_exit i ioff w).1.exit_policy = some pol →
          pol.allows_port port = true)
    ∧ (∀ (cg : CircGen) (circuit : ShallowCircuit) (req : Request) (rv : RelayView),
        cg.lookup_relay circuit.exit = some rv →
        rv.exit_policy = CondensedExitPolicy.reject_all →
        circuit.supports_stream cg req = false) := by
  refine ⟨⟨rfl, ?_⟩, ⟨rfl, ?_⟩, ?_⟩
  · intro pol h
    cases Option.some.inj h
    rfl
  · intro pol h
    cases Option.some.inj h
    rfl
  · intro cg circuit req rv hlook hpol
    unfold ShallowCircuit.supports_stream
    split_ifs
    · rfl
    · rfl
    · simp only [hlook, hpol, CondensedExitPolicy.allows_port]

/-- Witness for C10: concrete evaluation with the first adversarial
guard sitting at the exit position of a circuit. -/
theorem C10_adversarial_exit_policies_witness :
    (make_adversarial_guard 1 10000).1.exit_policy = some CondensedExitPolicy.reject_all
    ∧ ShallowCircuit.supports_stream
        { guard := Fingerprint.real [], middle := Fingerprint.real []
        , exit := Fingerprint.advGuardFp 1, time := 0, dirty_time := none
        , is_internal := false, is_stable := true, is_fast := true, covered_needs := [] }
        { lookup_relay := fun _ => some
            { flags := [Flag.Fast, Flag.Guard, Flag.Running, Flag.Stable, Flag.Valid]
            , exit_policy := CondensedExitPolicy.reject_all } }
        { time := 0, port := 443 } = false := by
  obtain ⟨⟨h1, -⟩, -, h3⟩ := C10_adversarial_exit_policies 1 10000 0 443
  exact ⟨h1, h3 _ _ _ _ rfl rfl⟩

/-- Auxiliary: an `Option`-valued `mapM` where every element maps to
`some` is the plain `map`. -/
theorem mapM_option_eq_map {α β : Type} (f : α → Option β) (g : α → β) :
    ∀ l : List α, (∀ a ∈ l, f a = some (g a)) → l.mapM f = some (l.map g) := by
  intro l
  induction l with
  | nil => intro _; rfl
  | cons a t ih =>
    intro h
    rw [List.mapM_cons, h a (List.mem_cons_self a t),
      ih (fun x hx => h x (List.mem_cons_of_mem a hx))]
    rfl

/-- C7 counterexample: two consensus files carrying the same timestamp
(and the same `valid_after`) are both processed, so the epoch loop sees
two consecutive epochs with **equal** `valid_after` — the iteration is
not strictly ascending. -/
theorem C7_strict_ascent_counterexample :
    sim_epoch_valid_afters
      [ { time := 0, doc := { valid_after := some 0, relays := [], weights := none } }
      , { time := 0, doc := { valid_after := some 0, relays := [], weights := none } } ]
      = some [0, 0]
    ∧ ¬ List.Chain' (fun a b : Int => a < b) [0, 0] := by
  refine ⟨rfl, ?_⟩
  intro h
  rw [List.chain'_cons] at h
  omega

/-- C7 (amended): the engine processes consensuses in non-decreasing
file-name-timestamp order; when every consensus's `valid_after` agrees
with its file-name timestamp, the epoch `valid_after` sequence is
non-decreasing (never decreases — strict ascent is not enforced by the
code). -/
theorem C7_epochs_nondecreasing (handles : List ConsensusHandle)
    (hva : ∀ h ∈ handles, h.doc.valid_after = some h.time) :
    ∃ epochs : List Int,
      sim_epoch_valid_afters handles = some epochs
      ∧ epochs = (sortHandles handles).map (fun h => h.time)
      ∧ List.Chain' (fun a b : Int => a ≤ b) epochs := by
  have hsorted : List.Sorted handleLe (sortHandles handles) :=
    List.sorted_insertionSort handleLe handles
  have hperm : ∀ h ∈ sortHandles handles, h ∈ handles := fun h hm =>
    (List.perm_insertionSort handleLe handles).mem_iff.mp hm
  refine ⟨(sortHandles handles).map (fun h => h.time), ?_, rfl, ?_⟩
  · exact mapM_option_eq_map _ _ _ (fun h hm => hva h (hperm h hm))
  · exact List.Pairwise.chain' (List.Pairwise.map _ (fun a b hab => hab) hsorted)

/-- Witness for C7 (amended): two concrete handles given out of order
are processed at `valid_after` 3 then 5. -/
theorem C7_epochs_nondecreasing_witness :
    ∃ epochs : List Int,
      sim_epoch_valid_afters
        [ { time := 5, doc := { valid_after := some 5, relays := [], weights := none } }
        , { time := 3, doc := { valid_after := some 3, relays := [], weights := none } } ]
        = some epochs
      ∧ epochs = (sortHandles
        [ { time := 5, doc := { valid_after := some 5, relays := [], weights := none } }
        , { time := 3, doc := { valid_after := some 3, relays := [], weights := none } } ]).map
          (fun h => h.time)
      ∧ List.Chain' (fun a b : Int => a ≤ b) epochs := by
  exact C7_epochs_nondecreasing _ (by decide)

/-- Auxiliary: incrementing the cover count of the first need that
needs cover strictly decreases the summed cover deficit. -/
theorem cover_measure_decreases (l : List Need) (n : Need)
    (hfind : l.find? (fun m => m.needs_cover) = some n) :
    ((l.map (fun m => if m.nid = n.nid then m.increment_cover_count else m)).map
        (fun m => PORT_NEED_COVER_NUM - m.covered)).sum
      < (l.map (fun m => PORT_NEED_COVER_NUM - m.covered)).sum := by
  induction l with
  | nil => simp at hfind
  | cons a t ih =>
    by_cases ha : a.needs_cover
    · simp only [List.find?_cons, ha] at hfind
      have han : a = n := Option.some.inj hfind
      subst han
      have hlt : a.covered < PORT_NEED_COVER_NUM := by
        have h2 := ha
        unfold Need.needs_cover at h2
        simpa using h2
      simp only [List.map_cons, List.map_map, List.sum_cons, eq_self_iff_true, if_true]
      have htail :
          (t.map ((fun m => PORT_NEED_COVER_NUM - m.covered) ∘
            (fun m => if m.nid = a.nid then m.increment_cover_count else m))).sum
          ≤ (t.map (fun m => PORT_NEED_COVER_NUM - m.covered)).sum := by
        apply List.sum_le_sum
        intro m _
        simp only [Function.comp_apply]
        by_cases hm : m.nid = a.nid
        · rw [if_pos hm]
          have hc : m.increment_cover_count.covered = m.covered + 1 := rfl
          omega
        · rw [if_neg hm]
      have hc : a.increment_cover_count.covered = a.covered + 1 := rfl
      omega
    · simp only [List.find?_cons, ha] at hfind
      have hge : PORT_NEED_COVER_NUM ≤ a.covered := by
        have h2 := ha
        unfold Need.needs_cover at h2
        simpa using h2
      have htail := ih hfind
      simp only [List.map_cons, List.map_map, List.sum_cons] at htail ⊢
      have hhead : PORT_NEED_COVER_NUM -
          ((if a.nid = n.nid then a.increment_cover_count else a).covered)
          ≤ PORT_NEED_COVER_NUM - a.covered := by
        by_cases hm : a.nid = n.nid
        · rw [if_pos hm]
          have hc : a.increment_cover_count.covered = a.covered + 1 := rfl
          omega
        · rw [if_neg hm]
      omega

/-- Auxiliary: a need returned by `get_uncovered_need` is genuinely
uncovered (`covered < PORT_NEED_COVER_NUM`), and handing out the handle
strictly decreases the container's cover deficit. -/
theorem get_uncovered_need_spec (pn : NeedsContainer) (n : Need) (pn2 : NeedsContainer)
    (h : pn.get_uncovered_need = some (n, pn2)) :
    n.covered < PORT_NEED_COVER_NUM ∧ coverMeasure pn2 < coverMeasure pn := by
  unfold NeedsContainer.get_uncovered_need at h
  cases hfind : pn.needs.find? (fun m => m.needs_cover) with
  | none => rw [hfind] at h; exact absurd h (by simp)
  | some m =>
    rw [hfind] at h
    have hinj := Option.some.inj h
    have hm : m = n := congrArg Prod.fst hinj
    have hpn2 : ({ pn with needs := pn.needs.map (fun x =>
        if x.nid = m.nid then x.increment_cover_count else x) } : NeedsContainer) = pn2 :=
      congrArg Prod.snd hinj
    subst hm
    constructor
    · have h2 := List.find?_some hfind
      unfold Need.needs_cover at h2
      simpa using h2
    · rw [← hpn2]
      unfold coverMeasure
      exact cover_measure_decreases pn.needs m hfind

/-- Auxiliary: the cover deficit is at most `PORT_NEED_COVER_NUM` per
stored need. -/
theorem coverMeasure_le (pn : NeedsContainer) :
    coverMeasure pn ≤ PORT_NEED_COVER_NUM * pn.needs.length := by
  unfold coverMeasure PORT_NEED_COVER_NUM
  induction pn.needs with
  | nil => simp
  | cons a t ih =>
    simp only [List.map_cons, List.sum_cons, List.length_cons]
    omega

/-- C8: the need-covering loop of timed maintenance terminates when
every circuit build succeeds: a need with
`covered ≥ PORT_NEED_COVER_NUM` is never returned by
`get_uncovered_need`, every iteration increments the returned need's
cover count through the handle stored in the pushed clean circuit, and
with fuel exceeding the initial cover deficit the loop completes
(`some`) after at most `coverMeasure pn ≤ PORT_NEED_COVER_NUM ·`
(number of stored needs) iterations. -/
theorem C8_cover_loop_terminates (ctx : ClientCtx) (now : Int) :
    (∀ (pn : NeedsContainer) (n : Need) (pn2 : NeedsContainer),
        pn.get_uncovered_need = some (n, pn2) → n.covered < PORT_NEED_COVER_NUM)
    ∧ ∀ (fuel : Nat) (circuits : List ShallowCircuit) (pn : NeedsContainer),
        coverMeasure pn < fuel →
        ∃ r, cover_loop ctx now fuel circuits pn = some r
          ∧ r.2.2 ≤ coverMeasure pn
          ∧ r.2.2 ≤ PORT_NEED_COVER_NUM * pn.needs.length := by
  constructor
  · intro pn n pn2 h
    exact (get_uncovered_need_spec pn n pn2 h).1
  · intro fuel
    induction fuel with
    | zero =>
      intro circuits pn hle
      omega
    | succ f ih =>
      intro circuits pn hle
      cases hu : pn.get_uncovered_need with
      | none =>
        refine ⟨(circuits, pn, 0), ?_, Nat.zero_le _, Nat.zero_le _⟩
        simp only [cover_loop, hu]
      | some r =>
        obtain ⟨n, pn2⟩ := r
        have hdec := (get_uncovered_need_spec pn n pn2 hu).2
        obtain ⟨r2, hr2, hc2, -⟩ := ih
          (circuits ++ [ShallowCircuit.from_generated
            (ctx.build n.port (ctx.guard_of now) n.fast n.stable)
            n.stable n.fast now none (some n.nid)])
          pn2 (by omega)
        refine ⟨(r2.1, r2.2.1, r2.2.2 + 1), ?_, by dsimp only; omega, ?_⟩
        · simp only [cover_loop, hu, hr2]
          rfl
        · have hb := coverMeasure_le pn
          dsimp only
          omega

/-- Witness for C8: one uncovered need (deficit 2), fuel 3; the loop
completes within 2 iterations. -/
theorem C8_cover_loop_terminates_witness :
    ∃ r, cover_loop
        { cg := { lookup_relay := fun _ => none }
        , guard_of := fun _ => Fingerprint.real []
        , build := fun _ _ _ _ =>
            (Fingerprint.real [], Fingerprint.real [], Fingerprint.real []) }
        0 3 []
        { needs := [{ nid := 0, port := 80, expires := 1, fast := true
                    , stable := false, covered := 0 }], fresh := 1 }
        = some r
      ∧ r.2.2 ≤ coverMeasure
          { needs := [{ nid := 0, port := 80, expires := 1, fast := true
                      , stable := false, covered := 0 }], fresh := 1 }
      ∧ r.2.2 ≤ PORT_NEED_COVER_NUM * 1 := by
  obtain ⟨r, h1, h2, h3⟩ := (C8_cover_loop_terminates
      { cg := { lookup_relay := fun _ => none }
      , guard_of := fun _ => Fingerprint.real []
      , build := fun _ _ _ _ =>
          (Fingerprint.real [], Fingerprint.real [], Fingerprint.real []) }
      0).2 3 []
      { needs := [{ nid := 0, port := 80, expires := 1, fast := true
                  , stable := false, covered := 0 }], fresh := 1 }
      (by decide)
  exact ⟨r, h1, h2, h3⟩

/-- Auxiliary: in-place modification keeps the length. -/
theorem listModify_length {α : Type} (f : α → α) (j : Nat) (l : List α) :
    (listModify f j l).length = l.length := by
  induction l generalizing j with
  | nil => cases j <;> rfl
  | cons a t ih =>
    cases j with
    | zero => rfl
    | succ k => simpa [listModify] using ih k

/-- Auxiliary: in-place modification at the read index. -/
theorem listModify_getElem?_eq {α : Type} (f : α → α) (i : Nat) (l : List α) :
    (listModify f i l)[i]? = (l[i]?).map f := by
  induction l generalizing i with
  | nil => cases i <;> rfl
  | cons a t ih =>
    cases i with
    | zero => simp [listModify]
    | succ k => simpa [listModify] using ih k

/-- Auxiliary: in-place modification away from the read index. -/
theorem listModify_getElem?_ne {α : Type} (f : α → α) (j i : Nat) (l : List α)
    (h : i ≠ j) : (listModify f j l)[i]? = l[i]? := by
  induction l generalizing i j with
  | nil => cases j <;> rfl
  | cons a t ih =>
    cases j with
    | zero =>
      cases i with
      | zero => exact absurd rfl h
      | succ k => simp [listModify]
    | succ jj =>
      cases i with
      | zero => simp [listModify]
      | succ k =>
        simp only [listModify, List.getElem?_cons_succ]
        exact ih jj k (fun he => h (by rw [he]))

/-- Auxiliary: the need-recording block never changes the number of
circuits. -/
theorem supn_circuits_length (ctx : ClientCtx) (req : Request)
    (circuits1 : List ShallowCircuit) (pn1 : NeedsContainer) :
    (stream_update_port_needs ctx req circuits1 pn1).1.length = circuits1.length := by
  simp only [stream_update_port_needs]
  split
  · rfl
  · split
    · exact listModify_length _ _ _
    · rfl

/-- Auxiliary: the need-recording block can only modify clean circuits
(it pushes a handle onto the first suitable clean circuit), so the
entry at an index holding a dirty circuit is untouched. -/
theorem supn_preserves_nonclean (ctx : ClientCtx) (req : Request)
    (circuits1 : List ShallowCircuit) (pn1 : NeedsContainer) (i : Nat)
    (c : ShallowCircuit) (hc : circuits1[i]? = some c)
    (hdirty : c.dirty_time.isNone = false) :
    (stream_update_port_needs ctx req circuits1 pn1).1[i]? = some c := by
  simp only [stream_update_port_needs]
  split
  · exact hc
  · split
    · rename_i need pn3 hcov j hj
      have hji : i ≠ j := by
        intro he
        subst he
        unfold find_cover_idx at hj
        rw [List.findIdx?_eq_some_iff_getElem] at hj
        obtain ⟨hlt, hp, -⟩ := hj
        rw [List.getElem?_eq_getElem hlt] at hc
        have hic := Option.some.inj hc
        rw [hic] at hp
        simp only [Bool.and_eq_true] at hp
        exact absurd hp.1.1 (by simp [hdirty])
      rw [listModify_getElem?_ne _ _ _ _ hji]
      exact hc
    · exact hc

/-- Auxiliary: when a fresh dirty circuit is selected, `handle_request`
reports that choice and does not change the number of circuits. -/
theorem handle_request_dirty_case (ctx : ClientCtx) (req : Request)
    (cm : CircuitManager) (i : Nat)
    (hd : get_suitable_dirty_idx ctx.cg req cm.circuits = some i) :
    (handle_request ctx req cm).2 = CircChoice.dirty i
    ∧ (handle_request ctx req cm).1.circuits.length = cm.circuits.length := by
  have hsel : handle_request_select ctx req cm =
      (cm.circuits, cm.port_needs, CircChoice.dirty i) := by
    unfold handle_request_select
    rw [hd]
  constructor
  · show (handle_request_select ctx req cm).2.2 = _
    rw [hsel]
  · show (stream_update_port_needs ctx req (handle_request_select ctx req cm).1
      (handle_request_select ctx req cm).2.1).1.length = _
    rw [hsel]
    exact supn_circuits_length _ _ _ _


/-- Auxiliary: when no dirty circuit fits but a clean one does,
`handle_request` reports that choice and the chosen circuit ends up
dirty at the request time with its covers cleared (the later covering
step only touches still-clean circuits). -/
theorem handle_request_clean_case (ctx : ClientCtx) (req : Request)
    (cm : CircuitManager) (i : Nat)
    (hd : get_suitable_dirty_idx ctx.cg req cm.circuits = none)
    (hc : get_suitable_clean_idx ctx.cg req cm.circuits = some i) :
    (handle_request ctx req cm).2 = CircChoice.cleanMadeDirty i
    ∧ ∀ a, cm.circuits[i]? = some a →
        (handle_request ctx req cm).1.circuits[i]? =
          some { a with dirty_time := some req.time, covered_needs := [] } := by
  have hsel : handle_request_select ctx req cm =
      (listModify (fun c => { c with dirty_time := some req.time, covered_needs := [] })
          i cm.circuits,
       cm.port_needs.drop_handles (((cm.circuits[i]?).map (fun c => c.covered_needs)).getD []),
       CircChoice.cleanMadeDirty i) := by
    unfold handle_request_select
    rw [hd, hc]
  constructor
  · show (handle_request_select ctx req cm).2.2 = _
    rw [hsel]
  · intro a ha
    have hmod : (listModify
        (fun c => { c with dirty_time := some req.time, covered_needs := [] })
        i cm.circuits)[i]? =
        some { a with dirty_time := some req.time, covered_needs := [] } := by
      rw [listModify_getElem?_eq, ha]
      rfl
    show (stream_update_port_needs ctx req (handle_request_select ctx req cm).1
        (handle_request_select ctx req cm).2.1).1[i]? = _
    rw [hsel]
    exact supn_preserves_nonclean ctx req _ _ i _ hmod rfl

/-- Auxiliary: when neither a dirty nor a clean circuit fits,
`handle_request` builds a new circuit: fast, stable iff the port is
long-lived, appended dirty at the request time (and never touched by
the covering step, which only considers clean circuits). -/
theorem handle_request_new_case (ctx : ClientCtx) (req : Request)
    (cm : CircuitManager)
    (hd : get_suitable_dirty_idx ctx.cg req cm.circuits = none)
    (hc : get_suitable_clean_idx ctx.cg req cm.circuits = none) :
    (handle_request ctx req cm).2 = CircChoice.builtNew
    ∧ (handle_request ctx req cm).1.circuits.length = cm.circuits.length + 1
    ∧ (handle_request ctx req cm).1.circuits[cm.circuits.length]? =
        some (ShallowCircuit.from_generated
          (ctx.build req.port (ctx.guard_of req.time) true (LONG_LIVED_PORTS.contains req.port))
          (LONG_LIVED_PORTS.contains req.port) true req.time (some req.time) none) := by
  have hsel : handle_request_select ctx req cm =
      (cm.circuits ++ [ShallowCircuit.from_generated
        (ctx.build req.port (ctx.guard_of req.time) true (LONG_LIVED_PORTS.contains req.port))
        (LONG_LIVED_PORTS.contains req.port) true req.time (some req.time) none],
       cm.port_needs, CircChoice.builtNew) := by
    unfold handle_request_select
    rw [hd, hc]
  refine ⟨?_, ?_, ?_⟩
  · show (handle_request_select ctx req cm).2.2 = _
    rw [hsel]
  · show (stream_update_port_needs ctx req (handle_request_select ctx req cm).1
      (handle_request_select ctx req cm).2.1).1.length = _
    rw [hsel, supn_circuits_length]
    simp
  · show (stream_update_port_needs ctx req (handle_request_select ctx req cm).1
      (handle_request_select ctx req cm).2.1).1[cm.circuits.length]? = _
    rw [hsel]
    exact supn_preserves_nonclean ctx req _ _ _ _ (List.getElem?_concat_length _ _) rfl

/-- C4: `handle_request` selects, in priority order, the first still
fresh dirty circuit that supports the request; otherwise the first
clean circuit that supports it, which is then marked dirty at
`req.time` with its `covered_needs` cleared; otherwise a newly built
circuit with `need_fast = true` and
`need_stable = (port ∈ LONG_LIVED_PORTS)`, appended to the circuit
list as dirty at `req.time`. -/
theorem C4_handle_request_priority (ctx : ClientCtx) (req : Request)
    (cm : CircuitManager) :
    ((∃ c ∈ cm.circuits, dirty_suitable ctx.cg req c = true) →
      ∃ i a, (handle_request ctx req cm).2 = CircChoice.dirty i
        ∧ cm.circuits[i]? = some a ∧ dirty_suitable ctx.cg req a = true
        ∧ (∀ j b, j < i → cm.circuits[j]? = some b → dirty_suitable ctx.cg req b = false)
        ∧ (handle_request ctx req cm).1.circuits.length = cm.circuits.length)
    ∧ ((∀ c ∈ cm.circuits, dirty_suitable ctx.cg req c = false) →
       (∃ c ∈ cm.circuits, clean_suitable ctx.cg req c = true) →
      ∃ i a, (handle_request ctx req cm).2 = CircChoice.cleanMadeDirty i
        ∧ cm.circuits[i]? = some a ∧ clean_suitable ctx.cg req a = true
        ∧ (∀ j b, j < i → cm.circuits[j]? = some b → clean_suitable ctx.cg req b = false)
        ∧ (handle_request ctx req cm).1.circuits[i]? =
            some { a with dirty_time := some req.time, covered_needs := [] })
    ∧ ((∀ c ∈ cm.circuits, dirty_suitable ctx.cg req c = false
          ∧ clean_suitable ctx.cg req c = false) →
      (handle_request ctx req cm).2 = CircChoice.builtNew
        ∧ (handle_request ctx req cm).1.circuits.length = cm.circuits.length + 1
        ∧ ∃ clast, (handle_request ctx req cm).1.circuits[cm.circuits.length]? = some clast
            ∧ clast.is_fast = true
            ∧ clast.is_stable = LONG_LIVED_PORTS.contains req.port
            ∧ clast.dirty_time = some req.time
            ∧ clast.time = req.time
            ∧ clast.covered_needs = []) := by
  refine ⟨?_, ?_, ?_⟩
  · intro hex
    obtain ⟨c0, hc0, hp0⟩ := hex
    have hsome : ∃ i, get_suitable_dirty_idx ctx.cg req cm.circuits = some i := by
      unfold get_suitable_dirty_idx
      exact ⟨_, List.findIdx?_eq_some_of_exists
        (p := dirty_suitable ctx.cg req) ⟨c0, hc0, hp0⟩⟩
    obtain ⟨i, hi⟩ := hsome
    have hspec := hi
    unfold get_suitable_dirty_idx at hspec
    rw [List.findIdx?_eq_some_iff_getElem] at hspec
    obtain ⟨hlt, hp, hbefore⟩ := hspec
    obtain ⟨hch, hlen⟩ := handle_request_dirty_case ctx req cm i hi
    refine ⟨i, cm.circuits[i], hch, List.getElem?_eq_getElem hlt, hp, ?_, hlen⟩
    intro j b hji hjb
    have hjlt : j < cm.circuits.length := lt_trans hji hlt
    have hb : b = cm.circuits[j] := by
      rw [List.getElem?_eq_getElem hjlt] at hjb
      exact (Option.some.inj hjb).symm
    subst hb
    have := hbefore j hji
    simpa using this
  · intro hnone hex
    have hd : get_suitable_dirty_idx ctx.cg req cm.circuits = none := by
      unfold get_suitable_dirty_idx
      rw [List.findIdx?_eq_none_iff]
      exact hnone
    obtain ⟨c0, hc0, hp0⟩ := hex
    have hsome : ∃ i, get_suitable_clean_idx ctx.cg req cm.circuits = some i := by
      unfold get_suitable_clean_idx
      exact ⟨_, List.findIdx?_eq_some_of_exists
        (p := clean_suitable ctx.cg req) ⟨c0, hc0, hp0⟩⟩
    obtain ⟨i, hi⟩ := hsome
    have hspec := hi
    unfold get_suitable_clean_idx at hspec
    rw [List.findIdx?_eq_some_iff_getElem] at hspec
    obtain ⟨hlt, hp, hbefore⟩ := hspec
    obtain ⟨hch, hcirc⟩ := handle_request_clean_case ctx req cm i hd hi
    refine ⟨i, cm.circuits[i], hch, List.getElem?_eq_getElem hlt, hp, ?_, ?_⟩
    · intro j b hji hjb
      have hjlt : j < cm.circuits.length := lt_trans hji hlt
      have hb : b = cm.circuits[j] := by
        rw [List.getElem?_eq_getElem hjlt] at hjb
        exact (Option.some.inj hjb).symm
      subst hb
      have := hbefore j hji
      simpa using this
    · exact hcirc cm.circuits[i] (List.getElem?_eq_getElem hlt)
  · intro hall
    have hd : get_suitable_dirty_idx ctx.cg req cm.circuits = none := by
      unfold get_suitable_dirty_idx
      rw [List.findIdx?_eq_none_iff]
      exact fun c hc => (hall c hc).1
    have hc : get_suitable_clean_idx ctx.cg req cm.circuits = none := by
      unfold get_suitable_clean_idx
      rw [List.findIdx?_eq_none_iff]
      exact fun c hc => (hall c hc).2
    obtain ⟨hch, hlen, hlast⟩ := handle_request_new_case ctx req cm hd hc
    exact ⟨hch, hlen, _, hlast, rfl, rfl, rfl, rfl, rfl⟩

/-- Witness for C4: on a client with no circuits, a request to port
6667 (a long-lived port) builds a new stable circuit appended dirty at
the request time. -/
theorem C4_handle_request_priority_witness :
    (handle_request
        { cg := { lookup_relay := fun _ => none }
        , guard_of := fun _ => Fingerprint.real []
        , build := fun _ _ _ _ =>
            (Fingerprint.real [], Fingerprint.real [], Fingerprint.real []) }
        { time := 7, port := 6667 }
        { circuits := [], port_needs := NeedsContainer.mk_new, last_triggered := none }).2
      = CircChoice.builtNew
    ∧ ∃ clast, (handle_request
        { cg := { lookup_relay := fun _ => none }
        , guard_of := fun _ => Fingerprint.real []
        , build := fun _ _ _ _ =>
            (Fingerprint.real [], Fingerprint.real [], Fingerprint.real []) }
        { time := 7, port := 6667 }
        { circuits := [], port_needs := NeedsContainer.mk_new,
          last_triggered := none }).1.circuits[0]? = some clast
      ∧ clast.is_stable = true ∧ clast.dirty_time = some 7 := by
  obtain ⟨hch, -, clast, hlast, -, hstable, hdirty, -, -⟩ :=
    (C4_handle_request_priority
      { cg := { lookup_relay := fun _ => none }
      , guard_of := fun _ => Fingerprint.real []
      , build := fun _ _ _ _ =>
          (Fingerprint.real [], Fingerprint.real [], Fingerprint.real []) }
      { time := 7, port := 6667 }
      { circuits := [], port_needs := NeedsContainer.mk_new, last_triggered := none }).2.2
    (by intro c hc; exact absurd hc (by simp))
  exact ⟨hch, clast, hlast, by rw [hstable]; decide, hdirty⟩

/-- Auxiliary: a value larger than every list element never occurs in
the list. -/
theorem count_eq_zero_of_lt (ids : List Nat) (k : Nat) (h : ∀ x ∈ ids, x < k) :
    ids.count k = 0 := by
  induction ids with
  | nil => rfl
  | cons a t ih =>
    have ha := h a (List.mem_cons_self a t)
    have hne : k ≠ a := by omega
    simp only [List.count_cons, ih (fun x hx => h x (List.mem_cons_of_mem a hx))]
    simp only [beq_iff_eq]
    have : ¬ a = k := by omega
    simp [this]

/-- Auxiliary: handle counting over an empty circuit list. -/
theorem countHandles_nil (hid : Nat) : countHandles [] hid = 0 := rfl

/-- Auxiliary: handle counting over a circuit cons. -/
theorem countHandles_cons (c : ShallowCircuit) (l : List ShallowCircuit) (hid : Nat) :
    countHandles (c :: l) hid = c.covered_needs.count hid + countHandles l hid := by
  simp [countHandles]

/-- Auxiliary: handle counting over an appended circuit list. -/
theorem countHandles_append (l1 l2 : List ShallowCircuit) (hid : Nat) :
    countHandles (l1 ++ l2) hid = countHandles l1 hid + countHandles l2 hid := by
  simp [countHandles]

/-- Auxiliary: no circuit holds a handle to a need that has not been
allocated yet. -/
theorem countHandles_eq_zero_of_fresh (circuits : List ShallowCircuit) (k : Nat)
    (h : ∀ c ∈ circuits, ∀ hid ∈ c.covered_needs, hid < k) :
    countHandles circuits k = 0 := by
  induction circuits with
  | nil => rfl
  | cons c l ih =>
    rw [countHandles_cons,
      count_eq_zero_of_lt _ _ (h c (List.mem_cons_self c l)),
      ih (fun c2 hc2 => h c2 (List.mem_cons_of_mem c hc2))]

/-- Auxiliary: dropping a batch of handles subtracts, for every stored
need, the number of handles in the batch pointing at it; the fresh
counter is untouched. -/
theorem drop_handles_needs (ids : List Nat) : ∀ pn : NeedsContainer,
    (pn.drop_handles ids).needs = pn.needs.map (fun n =>
      { n with covered := n.covered - ids.count n.nid })
    ∧ (pn.drop_handles ids).fresh = pn.fresh := by
  induction ids with
  | nil =>
    intro pn
    constructor
    · show pn.needs = _
      have : ∀ n ∈ pn.needs, ({ n with covered := n.covered - List.count n.nid [] } : Need) = n := by
        intro n _
        simp [List.count_nil]
      rw [List.map_congr_left (fun n hn => (this n hn))]
      exact (List.map_id pn.needs).symm
    · rfl
  | cons i ids ih =>
    intro pn
    refine ⟨?_, ?_⟩
    · show ((pn.drop_handle i).drop_handles ids).needs = _
      rw [(ih (pn.drop_handle i)).1]
      show (pn.needs.map (fun n =>
        if n.nid = i then n.decrement_cover_count else n)).map _ = _
      rw [List.map_map]
      apply List.map_congr_left
      intro n _
      by_cases hni : n.nid = i
      · simp only [Function.comp_apply, if_pos hni, Need.decrement_cover_count]
        have hcnt : List.count n.nid (i :: ids) = ids.count n.nid + 1 := by
          simp [List.count_cons, hni]
        rw [hcnt]
        have : n.covered - 1 - ids.count n.nid = n.covered - (ids.count n.nid + 1) := by
          omega
        rw [this]
      · simp only [Function.comp_apply, if_neg hni]
        have hcnt : List.count n.nid (i :: ids) = ids.count n.nid := by
          simp [List.count_cons, hni]
        rw [hcnt]
    · show ((pn.drop_handle i).drop_handles ids).fresh = _
      rw [(ih (pn.drop_handle i)).2]
      rfl

/-- Auxiliary: handle counting splits over the partition induced by a
circuit predicate. -/
theorem countHandles_filter_partition (p : ShallowCircuit → Bool)
    (l : List ShallowCircuit) (hid : Nat) :
    countHandles l hid
      = countHandles (l.filter p) hid
        + countHandles (l.filter (fun c => !p c)) hid := by
  induction l with
  | nil => rfl
  | cons c rest ih =>
    by_cases hp : p c
    · rw [countHandles_cons, ih, List.filter_cons, List.filter_cons]
      simp only [hp, Bool.not_true, if_true, Bool.false_eq_true, if_false,
        countHandles_cons]
      omega
    · have hp2 : p c = false := by simpa using hp
      rw [countHandles_cons, ih, List.filter_cons, List.filter_cons]
      simp only [hp2, Bool.not_false, if_true, Bool.false_eq_true, if_false,
        countHandles_cons]
      omega

/-- Auxiliary: a member of a list with one element replaced is either an
original member or the image of the replaced element. -/
theorem mem_listModify {α : Type} (f : α → α) (i : Nat) (l : List α) (c : α)
    (hc : c ∈ listModify f i l) :
    c ∈ l ∨ ∃ h : i < l.length, c = f (l.get ⟨i, h⟩) := by
  induction l generalizing i with
  | nil => simp [listModify] at hc
  | cons a t ih =>
    cases i with
    | zero =>
      simp only [listModify] at hc
      rcases List.mem_cons.mp hc with h | h
      · exact Or.inr ⟨by simp, h⟩
      · exact Or.inl (List.mem_cons_of_mem a h)
    | succ j =>
      simp only [listModify] at hc
      rcases List.mem_cons.mp hc with h | h
      · exact Or.inl (h ▸ List.mem_cons_self a t)
      · rcases ih j h with h2 | ⟨hj, he⟩
        · exact Or.inl (List.mem_cons_of_mem a h2)
        · exact Or.inr ⟨by simpa using Nat.succ_lt_succ hj, he⟩

/-- Auxiliary: replacing the circuit at an index changes the handle
count by the difference at that circuit (stated additively). -/
theorem countHandles_listModify (f : ShallowCircuit → ShallowCircuit)
    (l : List ShallowCircuit) (i : Nat) (hid : Nat) (hi : i < l.length) :
    countHandles (listModify f i l) hid + (l.get ⟨i, hi⟩).covered_needs.count hid
      = countHandles l hid + (f (l.get ⟨i, hi⟩)).covered_needs.count hid := by
  induction l generalizing i with
  | nil => simp at hi
  | cons a t ih =>
    cases i with
    | zero =>
      have hg : (a :: t).get ⟨0, hi⟩ = a := rfl
      rw [hg]
      show countHandles (f a :: t) hid + a.covered_needs.count hid = _
      rw [countHandles_cons, countHandles_cons]
      omega
    | succ j =>
      have hj : j < t.length := by simpa using Nat.lt_of_succ_lt_succ hi
      have hg : (a :: t).get ⟨j + 1, hi⟩ = t.get ⟨j, hj⟩ := rfl
      rw [hg]
      show countHandles (a :: listModify f j t) hid + (t.get ⟨j, hj⟩).covered_needs.count hid = _
      rw [countHandles_cons, countHandles_cons]
      have := ih j hj
      omega

/-- Auxiliary: a needs container is determined by its two fields. -/
theorem NeedsContainer.eq_of_fields {a b : NeedsContainer}
    (h1 : a.needs = b.needs) (h2 : a.fresh = b.fresh) : a = b := by
  cases a
  cases b
  simp only at h1 h2
  rw [h1, h2]

/-- Auxiliary: closed form of `retain_or_else` over the circuit list:
kept circuits are the `filter`, and each need loses as many cover
counts as the removed circuits held handles to it. -/
theorem retain_circuits_eq (keep : ShallowCircuit → Bool)
    (l : List ShallowCircuit) : ∀ pn : NeedsContainer,
    retain_circuits keep l pn
      = (l.filter keep,
         { pn with needs := pn.needs.map (fun n =>
             { n with covered :=
                 n.covered - countHandles (l.filter (fun c => !keep c)) n.nid }) }) := by
  induction l with
  | nil =>
    intro pn
    show ([], pn) = _
    have hmap : pn.needs.map (fun n =>
        ({ n with covered :=
            n.covered - countHandles (List.filter (fun c => !keep c) []) n.nid } : Need))
        = pn.needs := by
      have hz : ∀ n ∈ pn.needs,
          ({ n with covered :=
              n.covered - countHandles (List.filter (fun c => !keep c) []) n.nid } : Need)
            = n := by
        intro n _
        rfl
      rw [List.map_congr_left hz]
      exact List.map_id' pn.needs
    rw [List.filter_nil, hmap]
  | cons c rest ih =>
    intro pn
    by_cases hk : keep c
    · show (if keep c then _ else _) = _
      rw [if_pos hk, ih pn, List.filter_cons, List.filter_cons]
      simp only [hk, Bool.not_true, if_true, Bool.false_eq_true, if_false]
    · have hk2 : keep c = false := by simpa using hk
      show (if keep c then _ else _) = _
      rw [if_neg hk, ih (pn.drop_handles c.covered_needs),
        List.filter_cons, List.filter_cons]
      simp only [hk2, Bool.not_false, if_true, Bool.false_eq_true, if_false]
      have hfields := drop_handles_needs c.covered_needs pn
      refine congrArg (Prod.mk (List.filter keep rest)) ?_
      apply NeedsContainer.eq_of_fields
      · show (pn.drop_handles c.covered_needs).needs.map _ = _
        rw [hfields.1, List.map_map]
        apply List.map_congr_left
        intro n _
        simp only [Function.comp_apply]
        rw [countHandles_cons]
        congr 1
        omega
      · show (pn.drop_handles c.covered_needs).fresh = pn.fresh
        exact hfields.2

/-- Auxiliary: a needs-list map that changes neither allocation ids nor
cover counters preserves the accounting invariant. -/
theorem cm_inv_map_preserve (circuits : List ShallowCircuit) (pn : NeedsContainer)
    (g : Need → Need) (hg : ∀ n, (g n).nid = n.nid ∧ (g n).covered = n.covered)
    (hinv : cm_inv circuits pn) :
    cm_inv circuits { pn with needs := pn.needs.map g } := by
  unfold cm_inv at hinv ⊢
  dsimp only
  obtain ⟨h1, h2, h3, h4, h5, h6⟩ := hinv
  refine ⟨?_, h2, ?_, ?_, ?_, h6⟩
  · intro m hm
    obtain ⟨n, hn, rfl⟩ := List.mem_map.mp hm
    rw [(hg n).1, (hg n).2]
    exact h1 n hn
  · intro c hc m hm
    obtain ⟨n, hn, rfl⟩ := List.mem_map.mp hm
    rw [(hg n).1]
    exact h3 c hc n hn
  · rw [List.map_map]
    have hcomp : ((fun n => n.nid) ∘ g) = fun (n : Need) => n.nid :=
      funext fun n => (hg n).1
    rw [hcomp]
    exact h4
  · intro m hm
    obtain ⟨n, hn, rfl⟩ := List.mem_map.mp hm
    show (g n).nid < pn.fresh
    rw [(hg n).1]
    exact h5 n hn

/-- Auxiliary: `add_need` preserves the accounting invariant: the
occupied branch only touches expirations; the vacant branch installs an
uncovered need under a fresh id no circuit can reference. -/
theorem cm_inv_add_need (circuits : List ShallowCircuit) (pn : NeedsContainer)
    (port : Nat) (now : Int) (fast stable : Bool)
    (hinv : cm_inv circuits pn) :
    cm_inv circuits (pn.add_need port now fast stable) := by
  unfold NeedsContainer.add_need
  by_cases hocc : pn.needs.any (fun n => n.port = port)
  · rw [if_pos hocc]
    refine cm_inv_map_preserve circuits pn _ (fun n => ?_) hinv
    by_cases hp : n.port = port
    · by_cases he : n.has_expired now <;>
        simp [hp, he, Need.reset_expiration]
    · simp [hp]
  · rw [if_neg hocc]
    unfold cm_inv at hinv ⊢
    dsimp only
    obtain ⟨h1, h2, h3, h4, h5, h6⟩ := hinv
    refine ⟨?_, h2, ?_, ?_, ?_, ?_⟩
    · intro n hn
      rcases List.mem_append.mp hn with h | h
      · exact h1 n h
      · have hn2 : n = Need.mk_new pn.fresh port now fast stable := by simpa using h
        subst hn2
        show (0 : Nat) = countHandles circuits pn.fresh
        rw [countHandles_eq_zero_of_fresh circuits pn.fresh h6]
    · intro c hc n hn
      rcases List.mem_append.mp hn with h | h
      · exact h3 c hc n h
      · have hn2 : n = Need.mk_new pn.fresh port now fast stable := by simpa using h
        subst hn2
        show c.covered_needs.count pn.fresh ≤ 1
        rw [count_eq_zero_of_lt _ _ (h6 c hc)]
        omega
    · rw [List.map_append]
      refine List.Nodup.append h4 (by simp) ?_
      intro a ha hb
      obtain ⟨m, hm, rfl⟩ := List.mem_map.mp ha
      have hbm : m.nid = pn.fresh := by simpa using hb
      have := h5 m hm
      omega
    · intro n hn
      rcases List.mem_append.mp hn with h | h
      · have := h5 n h
        omega
      · have hn2 : n = Need.mk_new pn.fresh port now fast stable := by simpa using h
        subst hn2
        show pn.fresh < pn.fresh + 1
        omega
    · intro c hc hid hhid
      have := h6 c hc hid hhid
      omega

/-- Auxiliary: expiring needs (a filter on the needs list) preserves
the accounting invariant; circuits may keep stale handles, which no
longer constrain anything. -/
theorem cm_inv_remove_expired (circuits : List ShallowCircuit)
    (pn : NeedsContainer) (now : Int) (hinv : cm_inv circuits pn) :
    cm_inv circuits (pn.remove_expired now) := by
  unfold NeedsContainer.remove_expired
  unfold cm_inv at hinv ⊢
  dsimp only
  obtain ⟨h1, h2, h3, h4, h5, h6⟩ := hinv
  refine ⟨?_, h2, ?_, ?_, ?_, h6⟩
  · intro n hn
    exact h1 n (List.mem_of_mem_filter hn)
  · intro c hc n hn
    exact h3 c hc n (List.mem_of_mem_filter hn)
  · exact List.Nodup.sublist ((List.filter_sublist pn.needs).map _) h4
  · intro n hn
    exact h5 n (List.mem_of_mem_filter hn)

/-- Auxiliary: removing circuits with `retain_or_else` preserves the
accounting invariant: every dropped handle decrements exactly its
need's counter. -/
theorem cm_inv_retain (keep : ShallowCircuit → Bool)
    (circuits : List ShallowCircuit) (pn : NeedsContainer)
    (hinv : cm_inv circuits pn) :
    cm_inv (retain_circuits keep circuits pn).1 (retain_circuits keep circuits pn).2 := by
  rw [retain_circuits_eq]
  unfold cm_inv at hinv ⊢
  dsimp only
  obtain ⟨h1, h2, h3, h4, h5, h6⟩ := hinv
  refine ⟨?_, ?_, ?_, ?_, ?_, ?_⟩
  · intro m hm
    obtain ⟨n, hn, rfl⟩ := List.mem_map.mp hm
    show n.covered - countHandles (circuits.filter (fun c => !keep c)) n.nid
      = countHandles (circuits.filter keep) n.nid
    have hpart := countHandles_filter_partition keep circuits n.nid
    have := h1 n hn
    omega
  · intro c hc hd
    exact h2 c (List.mem_of_mem_filter hc) hd
  · intro c hc m hm
    obtain ⟨n, hn, rfl⟩ := List.mem_map.mp hm
    show c.covered_needs.count n.nid ≤ 1
    exact h3 c (List.mem_of_mem_filter hc) n hn
  · have hsame : (pn.needs.map (fun n =>
        ({ n with covered :=
            n.covered - countHandles (circuits.filter (fun c => !keep c)) n.nid } : Need))).map
          (fun n => n.nid)
        = pn.needs.map (fun n => n.nid) := by
      rw [List.map_map]
      apply List.map_congr_left
      intro n _
      rfl
    rw [hsame]
    exact h4
  · intro m hm
    obtain ⟨n, hn, rfl⟩ := List.mem_map.mp hm
    exact h5 n hn
  · intro c hc hid hh
    exact h6 c (List.mem_of_mem_filter hc) hid hh

/-- Auxiliary: structural content of a successful `get_uncovered_need`:
the returned need is a stored one, the container re-appears with that
need's counter incremented, and the fresh counter is unchanged. -/
theorem get_uncovered_need_eq (pn : NeedsContainer) (n : Need) (pn2 : NeedsContainer)
    (h : pn.get_uncovered_need = some (n, pn2)) :
    n ∈ pn.needs
    ∧ pn2.needs = pn.needs.map (fun m =>
        if m.nid = n.nid then m.increment_cover_count else m)
    ∧ pn2.fresh = pn.fresh := by
  unfold NeedsContainer.get_uncovered_need at h
  cases hfind : pn.needs.find? (fun m => m.needs_cover) with
  | none =>
    rw [hfind] at h
    exact absurd h (by simp)
  | some m =>
    rw [hfind] at h
    have hinj := Option.some.inj h
    rw [Prod.mk.injEq] at hinj
    obtain ⟨hm, hpn2⟩ := hinj
    subst hm
    subst hpn2
    exact ⟨List.mem_of_find?_eq_some hfind, rfl, rfl⟩

/-- Auxiliary: structural content of a successful
`cover_need_if_necessary`: same shape as `get_uncovered_need`, plus the
returned need carries the requested port. -/
theorem cover_need_if_necessary_eq (pn : NeedsContainer) (port : Nat)
    (n : Need) (pn2 : NeedsContainer)
    (h : pn.cover_need_if_necessary port = some (n, pn2)) :
    n ∈ pn.needs
    ∧ n.port = port
    ∧ pn2.needs = pn.needs.map (fun m =>
        if m.nid = n.nid then m.increment_cover_count else m)
    ∧ pn2.fresh = pn.fresh := by
  unfold NeedsContainer.cover_need_if_necessary at h
  cases hfind : pn.needs.find? (fun m => m.port = port) with
  | none =>
    rw [hfind] at h
    exact absurd h (by simp)
  | some m =>
    rw [hfind] at h
    dsimp only at h
    by_cases hc : m.needs_cover = true
    · rw [if_pos hc] at h
      have hinj := Option.some.inj h
      rw [Prod.mk.injEq] at hinj
      obtain ⟨hm, hpn2⟩ := hinj
      subst hm
      subst hpn2
      refine ⟨List.mem_of_find?_eq_some hfind, ?_, rfl, rfl⟩
      have hp := List.find?_some hfind
      simpa using hp
    · rw [if_neg hc] at h
      exact absurd h (by simp)

/-- Auxiliary: allocation id of the conditional cover-count increment. -/
theorem ite_inc_nid (m n : Need) :
    (if m.nid = n.nid then m.increment_cover_count else m).nid = m.nid := by
  by_cases hmn : m.nid = n.nid <;> simp [hmn, Need.increment_cover_count]

/-- Auxiliary: cover counter of the conditional cover-count increment. -/
theorem ite_inc_covered (m n : Need) :
    (if m.nid = n.nid then m.increment_cover_count else m).covered
      = if m.nid = n.nid then m.covered + 1 else m.covered := by
  by_cases hmn : m.nid = n.nid <;> simp [hmn, Need.increment_cover_count]

/-- Auxiliary: mapping the conditional increment over a needs list does
not change the allocation-id list. -/
theorem map_nid_ite_inc (l : List Need) (n : Need) :
    ((l.map (fun m => if m.nid = n.nid then m.increment_cover_count else m)).map
        (fun m => m.nid))
      = l.map (fun m => m.nid) := by
  rw [List.map_map]
  apply List.map_congr_left
  intro m _
  show (if m.nid = n.nid then m.increment_cover_count else m).nid = m.nid
  exact ite_inc_nid m n

/-- Auxiliary: appending a clean circuit holding exactly the freshly
handed-out handle restores the accounting invariant after the handle
creation incremented the need's counter. -/
theorem cm_inv_attach_fresh (circuits : List ShallowCircuit) (pn : NeedsContainer)
    (n : Need) (hn : n ∈ pn.needs) (circ : ShallowCircuit)
    (hdt : circ.dirty_time = none) (hcov : circ.covered_needs = [n.nid])
    (hinv : cm_inv circuits pn) :
    cm_inv (circuits ++ [circ])
      { pn with needs := pn.needs.map (fun m =>
          if m.nid = n.nid then m.increment_cover_count else m) } := by
  unfold cm_inv at hinv ⊢
  dsimp only
  obtain ⟨h1, h2, h3, h4, h5, h6⟩ := hinv
  refine ⟨?_, ?_, ?_, ?_, ?_, ?_⟩
  · intro m2 hm2
    obtain ⟨m, hm, rfl⟩ := List.mem_map.mp hm2
    rw [ite_inc_covered, ite_inc_nid, countHandles_append, countHandles_cons,
      countHandles_nil, hcov]
    have hm1 := h1 m hm
    by_cases hmn : m.nid = n.nid
    · rw [if_pos hmn, hmn]
      rw [hmn] at hm1
      have hone : List.count n.nid [n.nid] = 1 := by simp
      rw [hone]
      omega
    · rw [if_neg hmn]
      have hz : List.count m.nid [n.nid] = 0 := by simp [List.count_cons, hmn]
      rw [hz]
      omega
  · intro c hc hd
    rcases List.mem_append.mp hc with h | h
    · exact h2 c h hd
    · have hcc : c = circ := by simpa using h
      subst hcc
      exact absurd hdt hd
  · intro c hc m2 hm2
    obtain ⟨m, hm, rfl⟩ := List.mem_map.mp hm2
    rw [ite_inc_nid]
    rcases List.mem_append.mp hc with h | h
    · exact h3 c h m hm
    · have hcc : c = circ := by simpa using h
      subst hcc
      rw [hcov]
      by_cases hmn : m.nid = n.nid
      · rw [hmn]
        simp
      · have hz : List.count m.nid [n.nid] = 0 := by simp [List.count_cons, hmn]
        rw [hz]
        omega
  · rw [map_nid_ite_inc]
    exact h4
  · intro m2 hm2
    obtain ⟨m, hm, rfl⟩ := List.mem_map.mp hm2
    show (if m.nid = n.nid then m.increment_cover_count else m).nid < pn.fresh
    rw [ite_inc_nid]
    exact h5 m hm
  · intro c hc hid hh
    rcases List.mem_append.mp hc with h | h
    · exact h6 c h hid hh
    · have hcc : c = circ := by simpa using h
      subst hcc
      rw [hcov] at hh
      have hhe : hid = n.nid := by simpa using hh
      subst hhe
      exact h5 n hn

/-- Auxiliary: attaching a freshly handed-out handle to an existing
clean circuit that does not already hold one to the same need restores
the accounting invariant. -/
theorem cm_inv_attach_at (circuits : List ShallowCircuit) (pn : NeedsContainer)
    (n : Need) (hn : n ∈ pn.needs) (j : Nat) (hj : j < circuits.length)
    (hclean : (circuits.get ⟨j, hj⟩).dirty_time = none)
    (hzero : (circuits.get ⟨j, hj⟩).covered_needs.count n.nid = 0)
    (hinv : cm_inv circuits pn) :
    cm_inv
      (listModify (fun c => { c with covered_needs := c.covered_needs ++ [n.nid] }) j circuits)
      { pn with needs := pn.needs.map (fun m =>
          if m.nid = n.nid then m.increment_cover_count else m) } := by
  unfold cm_inv at hinv ⊢
  dsimp only
  obtain ⟨h1, h2, h3, h4, h5, h6⟩ := hinv
  have hcj : circuits.get ⟨j, hj⟩ ∈ circuits := List.get_mem circuits j hj
  refine ⟨?_, ?_, ?_, ?_, ?_, ?_⟩
  · intro m2 hm2
    obtain ⟨m, hm, rfl⟩ := List.mem_map.mp hm2
    rw [ite_inc_covered, ite_inc_nid]
    have hc := countHandles_listModify
      (fun c => { c with covered_needs := c.covered_needs ++ [n.nid] }) circuits j m.nid hj
    dsimp only at hc
    rw [List.count_append] at hc
    have hm1 := h1 m hm
    by_cases hmn : m.nid = n.nid
    · rw [if_pos hmn]
      rw [hmn] at hc hm1 ⊢
      have hone : List.count n.nid [n.nid] = 1 := by simp
      rw [hone, hzero] at hc
      omega
    · rw [if_neg hmn]
      have hz : List.count m.nid [n.nid] = 0 := by simp [List.count_cons, hmn]
      rw [hz] at hc
      omega
  · intro c hc hd
    rcases mem_listModify _ _ _ _ hc with h | ⟨hj2, rfl⟩
    · exact h2 c h hd
    · exact absurd hclean hd
  · intro c hc m2 hm2
    obtain ⟨m, hm, rfl⟩ := List.mem_map.mp hm2
    rw [ite_inc_nid]
    rcases mem_listModify _ _ _ _ hc with h | ⟨hj2, rfl⟩
    · exact h3 c h m hm
    · show List.count m.nid ((circuits.get ⟨j, hj2⟩).covered_needs ++ [n.nid]) ≤ 1
      rw [List.count_append]
      have hzero2 : List.count n.nid (circuits.get ⟨j, hj2⟩).covered_needs = 0 := hzero
      by_cases hmn : m.nid = n.nid
      · rw [hmn, hzero2]
        simp
      · have hz : List.count m.nid [n.nid] = 0 := by simp [List.count_cons, hmn]
        rw [hz]
        have := h3 _ (List.get_mem circuits j hj2) m hm
        omega
  · rw [map_nid_ite_inc]
    exact h4
  · intro m2 hm2
    obtain ⟨m, hm, rfl⟩ := List.mem_map.mp hm2
    show (if m.nid = n.nid then m.increment_cover_count else m).nid < pn.fresh
    rw [ite_inc_nid]
    exact h5 m hm
  · intro c hc hid hh
    rcases mem_listModify _ _ _ _ hc with h | ⟨hj2, rfl⟩
    · exact h6 c h hid hh
    · have hh2 : hid ∈ (circuits.get ⟨j, hj2⟩).covered_needs ++ [n.nid] := hh
      rcases List.mem_append.mp hh2 with h | h
      · exact h6 _ (List.get_mem circuits j hj2) hid h
      · have hhe : hid = n.nid := by simpa using h
        subst hhe
        exact h5 n hn

/-- Auxiliary: the need-covering loop preserves the accounting
invariant: every iteration creates one handle and immediately parks it
in a fresh clean circuit. -/
theorem cm_inv_cover_loop (ctx : ClientCtx) (now : Int) (fuel : Nat) :
    ∀ (circuits : List ShallowCircuit) (pn : NeedsContainer)
      (res : List ShallowCircuit × NeedsContainer × Nat),
      cm_inv circuits pn →
      cover_loop ctx now fuel circuits pn = some res →
      cm_inv res.1 res.2.1 := by
  induction fuel with
  | zero =>
    intro _ _ _ _ h
    exact absurd h (by simp [cover_loop])
  | succ fuel ih =>
    intro circuits pn res hinv h
    simp only [cover_loop] at h
    cases hu : pn.get_uncovered_need with
    | none =>
      rw [hu] at h
      have := Option.some.inj h
      rw [← this]
      exact hinv
    | some pr =>
      obtain ⟨n, pn2⟩ := pr
      rw [hu] at h
      dsimp only at h
      cases hrec : cover_loop ctx now fuel
          (circuits ++ [ShallowCircuit.from_generated
            (ctx.build n.port (ctx.guard_of now) n.fast n.stable)
            n.stable n.fast now none (some n.nid)]) pn2 with
      | none =>
        rw [hrec] at h
        exact absurd h (by simp)
      | some r2 =>
        rw [hrec] at h
        have hres := Option.some.inj h
        rw [← hres]
        obtain ⟨hmem, hneeds, hfresh⟩ := get_uncovered_need_eq pn n pn2 hu
        have hpn2 : pn2 = { pn with needs := pn.needs.map (fun m =>
            if m.nid = n.nid then m.increment_cover_count else m) } :=
          NeedsContainer.eq_of_fields hneeds hfresh
        have hinv2 : cm_inv
            (circuits ++ [ShallowCircuit.from_generated
              (ctx.build n.port (ctx.guard_of now) n.fast n.stable)
              n.stable n.fast now none (some n.nid)]) pn2 := by
          rw [hpn2]
          exact cm_inv_attach_fresh circuits pn n hmem _ rfl rfl hinv
        exact ih _ pn2 r2 hinv2 hrec

/-- Auxiliary: lift cover-loop invariant preservation through the
result mapping of `timed_client_updates`. -/
theorem cm_inv_cover_loop_map (ctx : ClientCtx) (now : Int) (fuel : Nat)
    (circuits : List ShallowCircuit) (pn : NeedsContainer) (res : CircuitManager)
    (h : (cover_loop ctx now fuel circuits pn).map
        (fun r => ({ circuits := r.1, port_needs := r.2.1,
                     last_triggered := some now } : CircuitManager)) = some res)
    (hinv : cm_inv circuits pn) :
    cm_inv res.circuits res.port_needs := by
  cases hrec : cover_loop ctx now fuel circuits pn with
  | none =>
    rw [hrec] at h
    exact absurd h (by simp)
  | some r =>
    rw [hrec] at h
    have hres := Option.some.inj h
    rw [← hres]
    exact cm_inv_cover_loop ctx now fuel circuits pn r hinv hrec

/-- Auxiliary: a full `timed_client_updates` pass preserves the
accounting invariant. -/
theorem cm_inv_timed_client_updates (ctx : ClientCtx) (now : Int)
    (cm cm2 : CircuitManager) (hinv : cm_inv cm.circuits cm.port_needs)
    (h : timed_client_updates ctx now cm = some cm2) :
    cm_inv cm2.circuits cm2.port_needs := by
  simp only [timed_client_updates] at h
  by_cases hl : cm.last_triggered.isNone
  · rw [if_pos hl] at h
    refine cm_inv_cover_loop_map ctx now _ _ _ cm2 h ?_
    refine cm_inv_retain _ _ _ ?_
    refine cm_inv_retain _ _ _ ?_
    refine cm_inv_retain _ _ _ ?_
    refine cm_inv_remove_expired _ _ now ?_
    exact cm_inv_add_need _ _ 80 now true false hinv
  · rw [if_neg hl] at h
    refine cm_inv_cover_loop_map ctx now _ _ _ cm2 h ?_
    refine cm_inv_retain _ _ _ ?_
    refine cm_inv_retain _ _ _ ?_
    refine cm_inv_retain _ _ _ ?_
    exact cm_inv_remove_expired _ _ now hinv

/-- Auxiliary: marking the circuit at an index dirty while clearing its
covers (dropping all its handles) preserves the accounting invariant. -/
theorem cm_inv_clean_clear (circuits : List ShallowCircuit) (pn : NeedsContainer)
    (i : Nat) (hi : i < circuits.length) (t : Int)
    (hinv : cm_inv circuits pn) :
    cm_inv
      (listModify (fun c => { c with dirty_time := some t, covered_needs := [] }) i circuits)
      (pn.drop_handles (circuits.get ⟨i, hi⟩).covered_needs) := by
  obtain ⟨h1, h2, h3, h4, h5, h6⟩ := hinv
  have hdrop := drop_handles_needs (circuits.get ⟨i, hi⟩).covered_needs pn
  have hpn2 : pn.drop_handles (circuits.get ⟨i, hi⟩).covered_needs
      = { pn with needs := pn.needs.map (fun n =>
          { n with covered :=
              n.covered - List.count n.nid (circuits.get ⟨i, hi⟩).covered_needs }) } :=
    NeedsContainer.eq_of_fields hdrop.1 hdrop.2
  rw [hpn2]
  unfold cm_inv
  dsimp only
  refine ⟨?_, ?_, ?_, ?_, ?_, ?_⟩
  · intro m2 hm2
    obtain ⟨m, hm, rfl⟩ := List.mem_map.mp hm2
    show m.covered - List.count m.nid (circuits.get ⟨i, hi⟩).covered_needs
      = countHandles
          (listModify (fun c => { c with dirty_time := some t, covered_needs := [] }) i circuits)
          m.nid
    have hc := countHandles_listModify
      (fun c => { c with dirty_time := some t, covered_needs := [] }) circuits i m.nid hi
    dsimp only at hc
    rw [List.count_nil] at hc
    have hm1 := h1 m hm
    omega
  · intro c hc hd
    rcases mem_listModify _ _ _ _ hc with h | ⟨hi2, rfl⟩
    · exact h2 c h hd
    · rfl
  · intro c hc m2 hm2
    obtain ⟨m, hm, rfl⟩ := List.mem_map.mp hm2
    show List.count m.nid c.covered_needs ≤ 1
    rcases mem_listModify _ _ _ _ hc with h | ⟨hi2, rfl⟩
    · exact h3 c h m hm
    · show List.count m.nid ([] : List Nat) ≤ 1
      simp
  · have hsame : ((pn.needs.map (fun n =>
        ({ n with covered :=
            n.covered - List.count n.nid (circuits.get ⟨i, hi⟩).covered_needs } : Need))).map
          (fun n => n.nid))
        = pn.needs.map (fun n => n.nid) := by
      rw [List.map_map]
      apply List.map_congr_left
      intro m _
      rfl
    rw [hsame]
    exact h4
  · intro m2 hm2
    obtain ⟨m, hm, rfl⟩ := List.mem_map.mp hm2
    exact h5 m hm
  · intro c hc hid hh
    rcases mem_listModify _ _ _ _ hc with h | ⟨hi2, rfl⟩
    · exact h6 c h hid hh
    · have : hid ∈ ([] : List Nat) := hh
      simp at this

/-- Auxiliary: appending a circuit holding no handles preserves the
accounting invariant regardless of its dirtiness. -/
theorem cm_inv_append_empty (circuits : List ShallowCircuit) (pn : NeedsContainer)
    (circ : ShallowCircuit) (hcov : circ.covered_needs = [])
    (hinv : cm_inv circuits pn) :
    cm_inv (circuits ++ [circ]) pn := by
  obtain ⟨h1, h2, h3, h4, h5, h6⟩ := hinv
  refine ⟨?_, ?_, ?_, h4, h5, ?_⟩
  · intro n hn
    rw [countHandles_append, countHandles_cons, countHandles_nil, hcov,
      List.count_nil]
    have := h1 n hn
    omega
  · intro c hc hd
    rcases List.mem_append.mp hc with h | h
    · exact h2 c h hd
    · have hcc : c = circ := by simpa using h
      subst hcc
      exact hcov
  · intro c hc n hn
    rcases List.mem_append.mp hc with h | h
    · exact h3 c h n hn
    · have hcc : c = circ := by simpa using h
      subst hcc
      rw [hcov]
      simp
  · intro c hc hid hh
    rcases List.mem_append.mp hc with h | h
    · exact h6 c h hid hh
    · have hcc : c = circ := by simpa using h
      subst hcc
      rw [hcov] at hh
      simp at hh

/-- Auxiliary: in a needs list with pairwise-distinct allocation ids,
two members with the same id coincide. -/
theorem nid_inj_of_nodup (l : List Need) (h : (l.map (fun n => n.nid)).Nodup)
    (x y : Need) (hx : x ∈ l) (hy : y ∈ l) (hxy : x.nid = y.nid) : x = y :=
  List.inj_on_of_nodup_map h hx hy hxy

/-- Auxiliary: the circuit-selection half of `handle_request` preserves
the accounting invariant in all three branches. -/
theorem cm_inv_select (ctx : ClientCtx) (req : Request) (cm : CircuitManager)
    (hinv : cm_inv cm.circuits cm.port_needs) :
    cm_inv (handle_request_select ctx req cm).1 (handle_request_select ctx req cm).2.1 := by
  cases hd : get_suitable_dirty_idx ctx.cg req cm.circuits with
  | some i =>
    have hsel : handle_request_select ctx req cm
        = (cm.circuits, cm.port_needs, CircChoice.dirty i) := by
      unfold handle_request_select
      rw [hd]
    rw [hsel]
    exact hinv
  | none =>
    cases hcl : get_suitable_clean_idx ctx.cg req cm.circuits with
    | some i =>
      have hi : i < cm.circuits.length := by
        unfold get_suitable_clean_idx at hcl
        rw [List.findIdx?_eq_some_iff_getElem] at hcl
        exact hcl.1
      have hsel : handle_request_select ctx req cm
          = (listModify (fun c => { c with dirty_time := some req.time, covered_needs := [] })
              i cm.circuits,
             cm.port_needs.drop_handles (cm.circuits.get ⟨i, hi⟩).covered_needs,
             CircChoice.cleanMadeDirty i) := by
        unfold handle_request_select
        rw [hd, hcl]
        dsimp only
        rw [List.getElem?_eq_getElem hi]
        rfl
      rw [hsel]
      exact cm_inv_clean_clear cm.circuits cm.port_needs i hi req.time hinv
    | none =>
      have hsel : handle_request_select ctx req cm
          = (cm.circuits ++ [ShallowCircuit.from_generated
              (ctx.build req.port (ctx.guard_of req.time) true
                (LONG_LIVED_PORTS.contains req.port))
              (LONG_LIVED_PORTS.contains req.port) true req.time (some req.time) none],
             cm.port_needs, CircChoice.builtNew) := by
        unfold handle_request_select
        rw [hd, hcl]
      rw [hsel]
      exact cm_inv_append_empty cm.circuits cm.port_needs _ rfl hinv

/-- Auxiliary: the port-need recording block of `handle_request`
preserves the accounting invariant: the freshly handed-out handle is
either attached to a clean circuit or immediately dropped. -/
theorem cm_inv_supn (ctx : ClientCtx) (req : Request)
    (circuits : List ShallowCircuit) (pn : NeedsContainer)
    (hinv : cm_inv circuits pn) :
    cm_inv (stream_update_port_needs ctx req circuits pn).1
      (stream_update_port_needs ctx req circuits pn).2 := by
  have hinv2 : cm_inv circuits
      (pn.add_need req.port req.time true (LONG_LIVED_PORTS.contains req.port)) :=
    cm_inv_add_need _ _ _ _ _ _ hinv
  simp only [stream_update_port_needs]
  split
  · exact hinv2
  · rename_i need pn3 hcnin
    obtain ⟨hmem, hport, hneeds, hfresh⟩ := cover_need_if_necessary_eq _ _ _ _ hcnin
    have h4 : (((pn.add_need req.port req.time true
        (LONG_LIVED_PORTS.contains req.port)).needs.map (fun n => n.nid))).Nodup :=
      hinv2.2.2.2.1
    have hhp : pn3.handle_port need.nid = some need.port := by
      have himg : (if need.nid = need.nid then need.increment_cover_count else need)
          ∈ pn3.needs := by
        rw [hneeds]
        exact List.mem_map_of_mem _ hmem
      rw [if_pos rfl] at himg
      unfold NeedsContainer.handle_port
      cases hf : pn3.needs.find? (fun x => x.nid = need.nid) with
      | none =>
        exfalso
        have := List.find?_eq_none.mp hf _ himg
        simp [Need.increment_cover_count] at this
      | some x =>
        have hxmem := List.mem_of_find?_eq_some hf
        have hxnid : x.nid = need.nid := by simpa using List.find?_some hf
        rw [hneeds] at hxmem
        obtain ⟨m, hm, hxm⟩ := List.mem_map.mp hxmem
        have hmnid : m.nid = need.nid := by
          rw [← hxm, ite_inc_nid] at hxnid
          exact hxnid
        have hmn : m = need := nid_inj_of_nodup _ h4 m need hm hmem hmnid
        subst hmn
        rw [if_pos rfl] at hxm
        have hxport : x.port = m.port := by
          rw [← hxm]
          rfl
        show some x.port = some m.port
        rw [hxport]
    split
    · rename_i j hj
      unfold find_cover_idx at hj
      rw [List.findIdx?_eq_some_iff_getElem] at hj
      obtain ⟨hjlen, hpred, -⟩ := hj
      simp only [Bool.and_eq_true] at hpred
      obtain ⟨⟨hclean, hnotany⟩, hcanc⟩ := hpred
      have hclean2 : (circuits.get ⟨j, hjlen⟩).dirty_time = none :=
        Option.isNone_iff_eq_none.mp hclean
      have hzero : List.count need.nid (circuits.get ⟨j, hjlen⟩).covered_needs = 0 := by
        rw [List.count_eq_zero]
        intro hmem2
        have hany : (circuits[j].covered_needs.any
            (fun hid => pn3.handle_port hid == some need.port)) = true := by
          rw [List.any_eq_true]
          refine ⟨need.nid, hmem2, ?_⟩
          rw [hhp]
          simp
        rw [hany] at hnotany
        simp at hnotany
      have hpn3 : pn3 = { (pn.add_need req.port req.time true
          (LONG_LIVED_PORTS.contains req.port)) with
            needs := (pn.add_need req.port req.time true
              (LONG_LIVED_PORTS.contains req.port)).needs.map (fun m =>
                if m.nid = need.nid then m.increment_cover_count else m) } :=
        NeedsContainer.eq_of_fields hneeds hfresh
      rw [hpn3]
      exact cm_inv_attach_at circuits _ need hmem j hjlen hclean2 hzero hinv2
    · rename_i hj
      have heq : pn3.drop_handle need.nid
          = pn.add_need req.port req.time true (LONG_LIVED_PORTS.contains req.port) := by
        apply NeedsContainer.eq_of_fields
        · show pn3.needs.map
            (fun m => if m.nid = need.nid then m.decrement_cover_count else m) = _
          rw [hneeds, List.map_map]
          have hid2 : ∀ m ∈ (pn.add_need req.port req.time true
              (LONG_LIVED_PORTS.contains req.port)).needs,
              ((fun m => if m.nid = need.nid then m.decrement_cover_count else m) ∘
                (fun m => if m.nid = need.nid then m.increment_cover_count else m)) m = m := by
            intro m _
            by_cases hmn : m.nid = need.nid
            · simp [hmn, Need.increment_cover_count, Need.decrement_cover_count]
              rw [← hmn]
            · simp [hmn]
          rw [List.map_congr_left hid2]
          exact List.map_id' _
        · show pn3.fresh = _
          exact hfresh
      rw [heq]
      exact hinv2

/-- Auxiliary: a full `handle_request` preserves the accounting
invariant (selection followed by need recording). -/
theorem cm_inv_handle_request (ctx : ClientCtx) (req : Request)
    (cm : CircuitManager) (hinv : cm_inv cm.circuits cm.port_needs) :
    cm_inv (handle_request ctx req cm).1.circuits
      (handle_request ctx req cm).1.port_needs := by
  show cm_inv
    (stream_update_port_needs ctx req (handle_request_select ctx req cm).1
      (handle_request_select ctx req cm).2.1).1
    (stream_update_port_needs ctx req (handle_request_select ctx req cm).1
      (handle_request_select ctx req cm).2.1).2
  exact cm_inv_supn ctx req _ _ (cm_inv_select ctx req cm hinv)

/-- Auxiliary: when dirty circuits hold no handles and no circuit holds
two handles to the same need, the total handle count for a need is at
most the number of clean circuits listing it. -/
theorem clean_count_bound (l : List ShallowCircuit) (k : Nat)
    (h2 : ∀ c ∈ l, c.dirty_time ≠ none → c.covered_needs = [])
    (h3 : ∀ c ∈ l, List.count k c.covered_needs ≤ 1) :
    countHandles l k ≤ (l.filter (fun c =>
        c.dirty_time.isNone && c.covered_needs.contains k)).length := by
  induction l with
  | nil => simp [countHandles_nil]
  | cons c rest ih =>
    have ihr := ih (fun c2 hc2 => h2 c2 (List.mem_cons_of_mem _ hc2))
      (fun c2 hc2 => h3 c2 (List.mem_cons_of_mem _ hc2))
    rw [countHandles_cons, List.filter_cons]
    by_cases hd : c.dirty_time.isNone
    · by_cases hct : c.covered_needs.contains k
      · simp only [hd, hct, Bool.and_self, if_true, List.length_cons]
        have := h3 c (List.mem_cons_self c rest)
        omega
      · have hmemk : k ∉ c.covered_needs := by simpa using hct
        have hcnt : List.count k c.covered_needs = 0 := List.count_eq_zero.mpr hmemk
        have hct2 : c.covered_needs.contains k = false := by simpa using hct
        simp only [hd, hct2, Bool.and_false, Bool.false_eq_true, if_false]
        omega
    · have hd2 : c.dirty_time.isNone = false := Bool.eq_false_iff.mpr hd
      have hne : c.dirty_time ≠ none := by
        intro he
        rw [he] at hd2
        simp at hd2
      have hcov0 : c.covered_needs = [] := h2 c (List.mem_cons_self c rest) hne
      rw [hcov0, List.count_nil]
      simp only [hd2, Bool.false_and, Bool.false_eq_true, if_false]
      omega

/-- Auxiliary: at an operation boundary the accounting invariant
yields the claimed per-need cover accounting. -/
theorem cm_inv_to_cover_accounting (circuits : List ShallowCircuit)
    (pn : NeedsContainer) (hinv : cm_inv circuits pn) :
    cover_accounting circuits pn := by
  obtain ⟨h1, h2, h3, h4, h5, h6⟩ := hinv
  intro n hn
  refine ⟨h1 n hn, ?_⟩
  rw [h1 n hn]
  exact clean_count_bound circuits n.nid h2 (fun c hc => h3 c hc n hn)

/-- C5 (corrected): at operation boundaries — i.e. in any state
satisfying the accounting invariant `cm_inv`, which holds initially and
is preserved by `timed_client_updates` and `handle_request` — every
stored need's `covered` counter equals the number of alive handles to
it and is bounded by the number of clean circuits listing the need
among their covers; and the two client operations preserve that
invariant.  (The claim's "at every point" fails transiently while a
fresh `NeedHandle` is still in flight, see the counterexample.) -/
theorem C5_cover_accounting_invariant :
    (∀ (circuits : List ShallowCircuit) (pn : NeedsContainer),
        cm_inv circuits pn → cover_accounting circuits pn)
    ∧ (∀ (ctx : ClientCtx) (now : Int) (cm cm2 : CircuitManager),
        cm_inv cm.circuits cm.port_needs →
        timed_client_updates ctx now cm = some cm2 →
        cm_inv cm2.circuits cm2.port_needs)
    ∧ (∀ (ctx : ClientCtx) (req : Request) (cm : CircuitManager),
        cm_inv cm.circuits cm.port_needs →
        cm_inv (handle_request ctx req cm).1.circuits
          (handle_request ctx req cm).1.port_needs) :=
  ⟨cm_inv_to_cover_accounting,
   fun ctx now cm cm2 => cm_inv_timed_client_updates ctx now cm cm2,
   fun ctx req cm => cm_inv_handle_request ctx req cm⟩

/-- C5 counterexample to "at every point": while the `NeedHandle`
handed out by `get_uncovered_need` is in flight (created, not yet
attached to any circuit), the need's `covered` counter (1) exceeds the
number of clean circuits listing the need (0, there are no circuits),
even though the invariant held before the call. -/
theorem C5_transient_excess_counterexample :
    cm_inv ([] : List ShallowCircuit)
      { needs := [{ nid := 0, port := 80, expires := 1, fast := true, stable := false,
                    covered := 0 }], fresh := 1 }
    ∧ NeedsContainer.get_uncovered_need
        { needs := [{ nid := 0, port := 80, expires := 1, fast := true, stable := false,
                      covered := 0 }], fresh := 1 }
        = some ({ nid := 0, port := 80, expires := 1, fast := true, stable := false,
                  covered := 0 },
                { needs := [{ nid := 0, port := 80, expires := 1, fast := true,
                              stable := false, covered := 1 }], fresh := 1 })
    ∧ ¬ cover_accounting ([] : List ShallowCircuit)
        { needs := [{ nid := 0, port := 80, expires := 1, fast := true, stable := false,
                      covered := 1 }], fresh := 1 } := by
  refine ⟨?_, by decide, ?_⟩
  · unfold cm_inv countHandles
    decide
  · unfold cover_accounting countHandles
    decide

/-- Witness for C5: the three parts of the theorem applied at the empty
initial client state (no circuits, empty needs container), with the
invariant hypothesis discharged by computation. -/
theorem C5_cover_accounting_invariant_witness :
    cover_accounting ([] : List ShallowCircuit) NeedsContainer.mk_new
    ∧ (∃ cm2 : CircuitManager,
        timed_client_updates
          { cg := { lookup_relay := fun _ => none },
            guard_of := fun _ => Fingerprint.advGuardFp 0,
            build := fun _ _ _ _ =>
              (Fingerprint.advGuardFp 0, Fingerprint.advGuardFp 0, Fingerprint.advGuardFp 0) }
          0
          { circuits := [], port_needs := NeedsContainer.mk_new, last_triggered := none }
          = some cm2
        ∧ cm_inv cm2.circuits cm2.port_needs)
    ∧ cm_inv
        (handle_request
          { cg := { lookup_relay := fun _ => none },
            guard_of := fun _ => Fingerprint.advGuardFp 0,
            build := fun _ _ _ _ =>
              (Fingerprint.advGuardFp 0, Fingerprint.advGuardFp 0, Fingerprint.advGuardFp 0) }
          { time := 0, port := 80 }
          { circuits := [], port_needs := NeedsContainer.mk_new,
            last_triggered := none }).1.circuits
        (handle_request
          { cg := { lookup_relay := fun _ => none },
            guard_of := fun _ => Fingerprint.advGuardFp 0,
            build := fun _ _ _ _ =>
              (Fingerprint.advGuardFp 0, Fingerprint.advGuardFp 0, Fingerprint.advGuardFp 0) }
          { time := 0, port := 80 }
          { circuits := [], port_needs := NeedsContainer.mk_new,
            last_triggered := none }).1.port_needs := by
  have hinv : cm_inv ([] : List ShallowCircuit) NeedsContainer.mk_new := by
    unfold cm_inv NeedsContainer.mk_new countHandles
    refine ⟨?_, ?_, ?_, ?_, ?_, ?_⟩ <;> simp
  refine ⟨C5_cover_accounting_invariant.1 [] NeedsContainer.mk_new hinv, ?_, ?_⟩
  · exact ⟨_, rfl, C5_cover_accounting_invariant.2.1
      { cg := { lookup_relay := fun _ => none },
        guard_of := fun _ => Fingerprint.advGuardFp 0,
        build := fun _ _ _ _ =>
          (Fingerprint.advGuardFp 0, Fingerprint.advGuardFp 0, Fingerprint.advGuardFp 0) }
      0
      { circuits := [], port_needs := NeedsContainer.mk_new, last_triggered := none }
      _ hinv rfl⟩
  · exact C5_cover_accounting_invariant.2.2
      { cg := { lookup_relay := fun _ => none },
        guard_of := fun _ => Fingerprint.advGuardFp 0,
        build := fun _ _ _ _ =>
          (Fingerprint.advGuardFp 0, Fingerprint.advGuardFp 0, Fingerprint.advGuardFp 0) }
      { time := 0, port := 80 }
      { circuits := [], port_needs := NeedsContainer.mk_new, last_triggered := none }
      hinv

end Torfs

